import Mathlib

/-!
# Skeletal animation frame evaluation of `practice13/main.cpp`

A shallow embedding of the per-frame animation code of `src/practice13/main.cpp`
(time advance, clip selection, blend weight, bone loop, inverse bind fold).

Conventions of the embedding:

* `float` values are idealised as exact rationals `ℚ`; rounding, infinities and
  NaN are outside the model of the frame. The rounding of `glm::slerp` is kept in
  a separate definition (`slerp32`), which shows where the retained rotation of
  the program differs from the exact one.
* `int last_animation_change` is an `Int` (no overflow); the assignment
  `last_animation_change = time` is the C++ float-to-int conversion, which
  truncates toward zero (`truncToInt`).
* `glm::mat4` is `Matrix (Fin 4) (Fin 4) ℚ` and `glm::mat4x3` (four columns of
  three rows) is `Matrix (Fin 3) (Fin 4) ℚ`; an entry `m[c][r]` of glm is
  `m r c` here. The glm operations used by the source (`lerp`, `slerp`,
  `translate`, `scale`, `toMat4`, the matrix conversions) follow the glm
  library; `sin` and `acos`, which `glm::slerp` calls, are parameters (`Trig`).
* `std::vector` subscripts out of range are undefined behaviour in C++ and are
  the failure `Failure.undefined` here; `std::map::at` on a missing key throws
  `std::out_of_range`, the failure `Failure.out_of_range`.
* The declarations of `gltf_loader.hpp` are not part of the sources at hand:
  the fields of `gltf_model` used by `main` are the structures `Bone`,
  `BoneAnimation`, `Animation` and `GltfModel`, with the splines of a track
  taken as functions of the sampling time.
-/

namespace Practice13

/-! ## glm values -/

/-- The type `glm::vec3`. -/
@[ext] structure Vec3 where
  x : ℚ
  y : ℚ
  z : ℚ
deriving DecidableEq

/-- The type `glm::quat`, components `w, x, y, z`. -/
@[ext] structure Quat where
  w : ℚ
  x : ℚ
  y : ℚ
  z : ℚ
deriving DecidableEq

/-- The type `glm::mat4`: entry `m r c` is row `r` of column `c`. -/
abbrev Mat4 := Matrix (Fin 4) (Fin 4) ℚ

/-- The type `glm::mat4x3`: four columns of three rows. -/
abbrev Mat4x3 := Matrix (Fin 3) (Fin 4) ℚ

/-- The functions of `<cmath>` that `glm::slerp` calls. -/
structure Trig where
  sin : ℚ → ℚ
  acos : ℚ → ℚ

/-- Scalar `glm::mix(x, y, a)`, that is `x * (1 - a) + y * a`. -/
def mix (x y a : ℚ) : ℚ := x * (1 - a) + y * a

/-- Vector `glm::lerp(x, y, a)`, that is `x * (1 - a) + y * a` on every component. -/
def lerp (x y : Vec3) (a : ℚ) : Vec3 :=
  ⟨x.x * (1 - a) + y.x * a, x.y * (1 - a) + y.y * a, x.z * (1 - a) + y.z * a⟩

/-- Negation of a quaternion, `-q`. -/
def Quat.neg (q : Quat) : Quat := ⟨-q.w, -q.x, -q.y, -q.z⟩

/-- Product of a scalar and a quaternion, `s * q`. -/
def Quat.smul (s : ℚ) (q : Quat) : Quat := ⟨s * q.w, s * q.x, s * q.y, s * q.z⟩

/-- Sum of two quaternions, `p + q`. -/
def Quat.add (p q : Quat) : Quat := ⟨p.w + q.w, p.x + q.x, p.y + q.y, p.z + q.z⟩

/-- Quotient of a quaternion by a scalar, `q / s`. -/
def Quat.divs (q : Quat) (s : ℚ) : Quat := ⟨q.w / s, q.x / s, q.y / s, q.z / s⟩

/-- The function `glm::dot` on quaternions. -/
def Quat.dot (a b : Quat) : ℚ := (a.w * b.w + a.x * b.x) + (a.y * b.y + a.z * b.z)

/-- The constant `glm::epsilon<float>()`, `2^-23`. -/
def epsilon : ℚ := 1 / 8388608

/-- The function `glm::slerp(x, y, a)`: the shorter arc is chosen by negating `y`
when the dot product is negative; nearly parallel quaternions are mixed
linearly, the others by the sine formula. -/
def slerp (tr : Trig) (x y : Quat) (a : ℚ) : Quat :=
  let z : Quat := if x.dot y < 0 then y.neg else y
  let cosTheta : ℚ := if x.dot y < 0 then -(x.dot y) else x.dot y
  if cosTheta > 1 - epsilon then
    ⟨mix x.w z.w a, mix x.x z.x a, mix x.y z.y a, mix x.z z.z a⟩
  else
    let angle := tr.acos cosTheta
    (((x.smul (tr.sin ((1 - a) * angle))).add (z.smul (tr.sin (a * angle)))).divs
      (tr.sin angle))

/-- The function `glm::translate(m, v)`: column 3 becomes
`m[0] * v.x + m[1] * v.y + m[2] * v.z + m[3]`. -/
def translate (m : Mat4) (v : Vec3) : Mat4 :=
  Matrix.of fun r c =>
    if c = 3 then m r 0 * v.x + m r 1 * v.y + m r 2 * v.z + m r 3 else m r c

/-- The function `glm::scale(m, v)`: columns 0, 1, 2 are multiplied by `v.x`, `v.y`, `v.z`. -/
def scale (m : Mat4) (v : Vec3) : Mat4 :=
  Matrix.of fun r c =>
    if c = 0 then m r 0 * v.x
    else if c = 1 then m r 1 * v.y
    else if c = 2 then m r 2 * v.z
    else m r c

/-- The function `glm::toMat4(q)`: the rotation matrix of a quaternion. -/
def toMat4 (q : Quat) : Mat4 :=
  !![1 - 2 * (q.y * q.y + q.z * q.z), 2 * (q.x * q.y - q.w * q.z), 2 * (q.x * q.z + q.w * q.y), 0;
     2 * (q.x * q.y + q.w * q.z), 1 - 2 * (q.x * q.x + q.z * q.z), 2 * (q.y * q.z - q.w * q.x), 0;
     2 * (q.x * q.z - q.w * q.y), 2 * (q.y * q.z + q.w * q.x), 1 - 2 * (q.x * q.x + q.y * q.y), 0;
     0, 0, 0, 1]

/-- The conversion `glm::mat4x3(mat4)`: the bottom row is dropped. -/
def toMat4x3 (m : Mat4) : Mat4x3 := Matrix.of fun r c => m (Fin.castSucc r) c

/-- The conversion `glm::mat4(mat4x3)`: the bottom row `(0, 0, 0, 1)` is added. -/
def ofMat4x3 (m : Mat4x3) : Mat4 :=
  Matrix.of fun r c =>
    if h : r.val < 3 then m ⟨r.val, h⟩ c else if c = 3 then 1 else 0

/-- The C++ conversion of a `float` to an `int`: truncation toward zero. -/
def truncToInt (q : ℚ) : Int := if 0 ≤ q then ⌊q⌋ else ⌈q⌉

/-- The function `std::fmod(x, y)`: `x - n * y` with `n` the quotient `x / y`
truncated toward zero. -/
def fmod (x y : ℚ) : ℚ := x - (truncToInt (x / y) : ℚ) * y

/-! ## The loaded model (`gltf_model`) -/

/-- A `gltf_model::bone`: the parent index (`-1` for a root) and the inverse bind matrix. -/
structure Bone where
  parent : Int
  inverse_bind_matrix : Mat4

/-- The track of one bone in one clip: the three splines, called as `bone.translation(t)`,
`bone.rotation(t)` and `bone.scale(t)`. -/
structure BoneAnimation where
  translation : ℚ → Vec3
  rotation : ℚ → Quat
  scale : ℚ → Vec3

/-- A clip: `max_time` and one track per animated bone. -/
structure Animation where
  max_time : ℚ
  bones : List BoneAnimation

/-- The part of `input_model` the frame reads: the bones and the clips by name. -/
structure GltfModel where
  bones : List Bone
  animations : List (String × Animation)

/-- How a frame can fail. -/
inductive Failure where
  | out_of_range
  | undefined
deriving DecidableEq

/-- Subscript `v[i]` of a `std::vector` for reading. -/
def index {α : Type} (v : List α) (i : Nat) : Except Failure α :=
  match v[i]? with
  | some a => .ok a
  | none => .error .undefined

/-- Subscript `v[i]` of a `std::vector` with an `int` index. -/
def indexInt {α : Type} (v : List α) (i : Int) : Except Failure α :=
  if 0 ≤ i then index v i.toNat else .error .undefined

/-- Assignment `v[i] = a` to an element of a `std::vector`. -/
def assign {α : Type} (v : List α) (i : Nat) (a : α) : Except Failure (List α) :=
  if i < v.length then .ok (v.set i a) else .error .undefined

/-- The lookup `input_model.animations.at(name)`. -/
def animationsAt (animations : List (String × Animation)) (name : String) :
    Except Failure Animation :=
  match animations.lookup name with
  | some a => .ok a
  | none => .error .out_of_range

/-- A loop `for (int i = 0; i < n; i++) body(i)` over a state that can fail. -/
def forLoop {σ : Type} (body : Nat → σ → Except Failure σ) : Nat → σ → Except Failure σ
  | 0, s => .ok s
  | n + 1, s => (forLoop body n s).bind (body n)

/-! ## The variables of `main` that live across frames -/

/-- The variables of `main` read and written by the animation code of a frame. -/
structure State where
  time : ℚ
  animation_title : String
  last_animation_change : Int
  animation_change_duration : ℚ
  last_animation_translation : List Vec3
  last_animation_rotation : List Quat
  last_animation_scaling : List Vec3

/-- What the event loop and the clock hand to a frame: the frame delta `dt`, the
`paused` flag and `button_down` for the keys `1`, `2` and `3`. -/
structure Input where
  dt : ℚ
  paused : Bool
  down_1 : Bool
  down_2 : Bool
  down_3 : Bool

/-- The title held by `hip_hop_animation_title`. -/
def hip_hop_animation_title : String := "hip-hop"

/-- The title held by `rumba_animation_title`. -/
def rumba_animation_title : String := "rumba"

/-- The title held by `flair_animation_title`. -/
def flair_animation_title : String := "flair"

/-- The variables as `main` declares them before the loop: `time = 0`, the hip-hop clip,
`last_animation_change = 0`, `animation_change_duration = 100` and three vectors of
value-initialised elements, one per bone. -/
def init (m : GltfModel) : State where
  time := 0
  animation_title := hip_hop_animation_title
  last_animation_change := 0
  animation_change_duration := 100
  last_animation_translation := List.replicate m.bones.length ⟨0, 0, 0⟩
  last_animation_rotation := List.replicate m.bones.length ⟨0, 0, 0, 0⟩
  last_animation_scaling := List.replicate m.bones.length ⟨0, 0, 0⟩

/-- Lines 295-297: `if (!paused) time += dt;`. -/
def advance (inp : Input) (s : State) : State :=
  if !inp.paused then { s with time := s.time + inp.dt } else s

/-- One `if (button_down[key])` block of lines 320-331. -/
def select (down : Bool) (title : String) (s : State) : State :=
  if down then
    { s with animation_title := title, last_animation_change := truncToInt s.time }
  else s

/-- Lines 320-331: the three selection blocks, in the order of the source. -/
def selection (inp : Input) (s : State) : State :=
  select inp.down_3 flair_animation_title
    (select inp.down_2 rumba_animation_title
      (select inp.down_1 hip_hop_animation_title s))

/-- Lines 364-365: `(time - last_animation_change) / animation_change_duration`. -/
def constant (s : State) : ℚ :=
  (s.time - (s.last_animation_change : ℚ)) / s.animation_change_duration

/-- Lines 366-367: `(last_animation_change != 0 && constant < 1) ? constant : 1`. -/
def interpolation (s : State) : ℚ :=
  if s.last_animation_change ≠ 0 ∧ constant s < 1 then constant s else 1

/-- The vectors the bone loop works on: the three retained vectors and `bones`. -/
structure Vars where
  last_animation_translation : List Vec3
  last_animation_rotation : List Quat
  last_animation_scaling : List Vec3
  bones : List Mat4x3

/-- Lines 372-394: the body of the bone loop for index `i`. -/
def boneBody (tr : Trig) (m : GltfModel) (animation : Animation) (t1 w : ℚ)
    (i : Nat) (v : Vars) : Except Failure Vars := do
  let bone ← index animation.bones i
  let oldT ← index v.last_animation_translation i
  let lat ← assign v.last_animation_translation i (lerp oldT (bone.translation t1) w)
  let oldS ← index v.last_animation_scaling i
  let las ← assign v.last_animation_scaling i (lerp oldS (bone.scale t1) w)
  let oldR ← index v.last_animation_rotation i
  let lar ← assign v.last_animation_rotation i (slerp tr oldR (bone.rotation t1) w)
  let newT ← index lat i
  let translation := translate 1 newT
  let newS ← index las i
  let scaling := scale 1 newS
  let newR ← index lar i
  let rotation := toMat4 newR
  let transform := translation * rotation * scaling
  let mbone ← index m.bones i
  let transform ←
    if mbone.parent ≠ -1 then do
      let pb ← indexInt v.bones mbone.parent
      pure (ofMat4x3 (pb * transform))
    else pure transform
  let bones ← assign v.bones i (toMat4x3 transform)
  pure ⟨lat, lar, las, bones⟩

/-- Lines 371-395: the bone loop, `i` from `0` to `animation.bones.size() - 1`. -/
def hierarchy (tr : Trig) (m : GltfModel) (animation : Animation) (t1 w : ℚ)
    (v : Vars) : Except Failure Vars :=
  forLoop (boneBody tr m animation t1 w) animation.bones.length v

/-- Line 398: `bones[i] = bones[i] * input_model.bones[i].inverse_bind_matrix`. -/
def foldBody (m : GltfModel) (i : Nat) (bones : List Mat4x3) : Except Failure (List Mat4x3) := do
  let b ← index bones i
  let mbone ← index m.bones i
  assign bones i (b * mbone.inverse_bind_matrix)

/-- Lines 397-399: the inverse bind fold, `i` from `0` to `bones.size() - 1`. -/
def inverseBindFold (m : GltfModel) (bones : List Mat4x3) : Except Failure (List Mat4x3) :=
  forLoop (foldBody m) bones.length bones

/-- The vectors at the start of the bone loop: the retained vectors of the state and
`bones`, created at line 360 with one zero matrix per bone. -/
def startVars (m : GltfModel) (s : State) : Vars :=
  ⟨s.last_animation_translation, s.last_animation_rotation, s.last_animation_scaling,
    List.replicate m.bones.length 0⟩

/-- The state after a frame whose bone loop ended with the vectors `v`. -/
def withVars (s : State) (v : Vars) : State :=
  { s with
    last_animation_translation := v.last_animation_translation
    last_animation_rotation := v.last_animation_rotation
    last_animation_scaling := v.last_animation_scaling }

/-- Lines 360-395 on the state after time advance and selection: the clip lookup, the
wrapped time, the weight and the bone loop. The result is the vectors after the loop,
`bones` holding the world matrices. -/
def evalWorld (tr : Trig) (m : GltfModel) (s : State) : Except Failure Vars := do
  let animation ← animationsAt m.animations s.animation_title
  let t1 := fmod s.time animation.max_time
  hierarchy tr m animation t1 (interpolation s) (startVars m s)

/-- The animation code of one iteration of the render loop (lines 295-297, 320-331 and
360-399): the new state and the matrices handed to the renderer. -/
def frame (tr : Trig) (m : GltfModel) (inp : Input) (s : State) :
    Except Failure (State × List Mat4x3) := do
  let s1 := selection inp (advance inp s)
  let v ← evalWorld tr m s1
  let bones ← inverseBindFold m v.bones
  pure (withVars s1 v, bones)

/-! ## Properties of the loops -/

/-- Lines 385-389: `translation * rotation * scaling` built from a translation, a
rotation and a scale. -/
def localMatrix (t : Vec3) (r : Quat) (s : Vec3) : Mat4 :=
  translate 1 t * toMat4 r * scale 1 s

/-- The value `bones[i]` receives at line 394 for a bone with parent index `p`, local
matrix `L` and parent entry `pb`. -/
def worldEntry (p : Int) (pb : Mat4x3) (L : Mat4) : Mat4x3 :=
  if p ≠ -1 then pb * L else toMat4x3 L

/-- What the bone loop needs for every subscript to be in range: the clip has at most as
many tracks as the model has bones, the four vectors have one entry per bone, and the
parent index of every bone with a track is `-1` or the index of a bone. -/
structure WellFormed (m : GltfModel) (animation : Animation) (v0 : Vars) : Prop where
  tracks : animation.bones.length ≤ m.bones.length
  lenT : v0.last_animation_translation.length = m.bones.length
  lenR : v0.last_animation_rotation.length = m.bones.length
  lenS : v0.last_animation_scaling.length = m.bones.length
  lenB : v0.bones.length = m.bones.length
  parents : ∀ i mbone, i < animation.bones.length → m.bones[i]? = some mbone →
    mbone.parent = -1 ∨ (0 ≤ mbone.parent ∧ mbone.parent.toNat < m.bones.length)

/-- The vectors `v` after the first `n` iterations of the bone loop started on `v0`. -/
structure LoopInv (tr : Trig) (m : GltfModel) (animation : Animation) (t1 w : ℚ)
    (v0 : Vars) (n : Nat) (v : Vars) : Prop where
  lenT : v.last_animation_translation.length = v0.last_animation_translation.length
  lenR : v.last_animation_rotation.length = v0.last_animation_rotation.length
  lenS : v.last_animation_scaling.length = v0.last_animation_scaling.length
  lenB : v.bones.length = v0.bones.length
  restT : ∀ i, n ≤ i → v.last_animation_translation[i]? = v0.last_animation_translation[i]?
  restR : ∀ i, n ≤ i → v.last_animation_rotation[i]? = v0.last_animation_rotation[i]?
  restS : ∀ i, n ≤ i → v.last_animation_scaling[i]? = v0.last_animation_scaling[i]?
  restB : ∀ i, n ≤ i → v.bones[i]? = v0.bones[i]?
  doneT : ∀ i bone old, i < n → animation.bones[i]? = some bone →
    v0.last_animation_translation[i]? = some old →
    v.last_animation_translation[i]? = some (lerp old (bone.translation t1) w)
  doneR : ∀ i bone old, i < n → animation.bones[i]? = some bone →
    v0.last_animation_rotation[i]? = some old →
    v.last_animation_rotation[i]? = some (slerp tr old (bone.rotation t1) w)
  doneS : ∀ i bone old, i < n → animation.bones[i]? = some bone →
    v0.last_animation_scaling[i]? = some old →
    v.last_animation_scaling[i]? = some (lerp old (bone.scale t1) w)
  doneB : ∀ i mbone t r s, i < n → m.bones[i]? = some mbone →
    v.last_animation_translation[i]? = some t → v.last_animation_rotation[i]? = some r →
    v.last_animation_scaling[i]? = some s →
    ∃ pb, (mbone.parent ≠ -1 → 0 ≤ mbone.parent ∧
        (if mbone.parent.toNat < i then v.bones[mbone.parent.toNat]?
          else v0.bones[mbone.parent.toNat]?) = some pb) ∧
      v.bones[i]? = some (worldEntry mbone.parent pb (localMatrix t r s))

/-- The vector `b` after the first `n` iterations of the inverse bind fold started on `b0`. -/
structure FoldInv (m : GltfModel) (b0 : List Mat4x3) (n : Nat) (b : List Mat4x3) : Prop where
  len : b.length = b0.length
  rest : ∀ i, n ≤ i → b[i]? = b0[i]?
  done : ∀ i x mbone, i < n → b0[i]? = some x → m.bones[i]? = some mbone →
    b[i]? = some (x * mbone.inverse_bind_matrix)

/-- The state a frame starts its animation code on is well formed for the clip it selects:
the clip is in the store, has at most one track per bone, the retained vectors have one
entry per bone and the parent indices of the animated bones are `-1` or in range. -/
structure FrameReady (m : GltfModel) (s : State) (animation : Animation) : Prop where
  clip : animationsAt m.animations s.animation_title = .ok animation
  wf : WellFormed m animation (startVars m s)

/-! ## Notions used to state the properties -/

/-- The parent index `input_model.bones[i].parent` as a function of the bone index
(`-1` when `i` is not the index of a bone). -/
def parentOf (m : GltfModel) (i : Nat) : Int :=
  match m.bones[i]? with
  | some mbone => mbone.parent
  | none => -1

/-- The local matrix `transform` of line 389 for bone `i`, in a bone loop that samples the
clip at `t1`, blends with weight `w` and starts on the retained vectors of `s` (the
identity when bone `i` has no track or no retained entry). -/
def localOf (tr : Trig) (animation : Animation) (t1 w : ℚ) (s : State) (i : Nat) : Mat4 :=
  match animation.bones[i]?, s.last_animation_translation[i]?,
    s.last_animation_rotation[i]?, s.last_animation_scaling[i]? with
  | some bone, some oldT, some oldR, some oldS =>
    localMatrix (lerp oldT (bone.translation t1) w) (slerp tr oldR (bone.rotation t1) w)
      (lerp oldS (bone.scale t1) w)
  | _, _, _, _ => 1

/-- The product of the matrices `L` along the ancestor chain of bone `i`, from the root
down to `i`; `fuel` bounds the length of the chain. -/
def chainProduct (parent : Nat → Int) (L : Nat → Mat4) : Nat → Nat → Mat4
  | 0, _ => 1
  | fuel + 1, i =>
    if parent i = -1 then L i else chainProduct parent L fuel (parent i).toNat * L i

/-- A stand-in for `sin` and `acos` in examples: `sin x = x`, `acos c = 1 - c`. Like the
real functions it has `sin 0 = 0`, `sin (acos 0) = 1` and `sin (acos c) ≠ 0` wherever the
sine branch of `slerp` is taken. Only the retained rotations of a frame depend on it: the
times, weights, retained translations and retained scales do not. -/
def exampleTrig : Trig := ⟨fun x => x, fun c => 1 - c⟩

/-- A track holding a constant translation, the identity rotation and scale `(1, 1, 1)`. -/
def constantTrack (t : Vec3) : BoneAnimation :=
  ⟨fun _ => t, fun _ => ⟨1, 0, 0, 0⟩, fun _ => ⟨1, 1, 1⟩⟩

/-- A clip of two tracks: bone 0 at the origin, bone 1 held at `t`. -/
def exampleClip (t : Vec3) : Animation := ⟨4, [constantTrack ⟨0, 0, 0⟩, constantTrack t]⟩

/-- A model of two bones, bone 0 a root and bone 1 its child, with identity inverse bind
matrices, and the clips hip-hop (bone 1 at `(1, 0, 0)`) and rumba (bone 1 at `(0, 1, 0)`). -/
def exampleModel : GltfModel :=
  ⟨[⟨-1, 1⟩, ⟨0, 1⟩],
    [("hip-hop", exampleClip ⟨1, 0, 0⟩), ("rumba", exampleClip ⟨0, 1, 0⟩)]⟩

/-- The states the render loop can be in at the start of an iteration: the initial one,
and the state left by a frame run from such a state with a frame delta `dt ≥ 0`. -/
inductive Reachable (tr : Trig) (m : GltfModel) : State → Prop
  | init : Reachable tr m (init m)
  | frame (inp : Input) (s s' : State) (b : List Mat4x3) :
      Reachable tr m s → 0 ≤ inp.dt → frame tr m inp s = .ok (s', b) → Reachable tr m s'

/-- A frame input: `dt = 1`, not paused, no selection key down. -/
def exampleInput : Input := ⟨1, false, false, false, false⟩

/-- A run of consecutive frames, one per input, keeping the state left by the last one. -/
def runFrames (tr : Trig) (m : GltfModel) : List Input → State → Except Failure State
  | [], s => .ok s
  | inp :: rest, s => (frame tr m inp s).bind fun r => runFrames tr m rest r.1

/-- A state of the example model playing hip-hop at `time = 9`, bone 1 retained at
translation `(1, 0, 0)`, with `animation_change_duration = 2`. -/
def scenarioState : State where
  time := 9
  animation_title := hip_hop_animation_title
  last_animation_change := 0
  animation_change_duration := 2
  last_animation_translation := [⟨0, 0, 0⟩, ⟨1, 0, 0⟩]
  last_animation_rotation := [⟨1, 0, 0, 0⟩, ⟨1, 0, 0, 0⟩]
  last_animation_scaling := [⟨1, 1, 1⟩, ⟨1, 1, 1⟩]

/-- The state of the blend scenario once the transition to the rumba clip, recorded at
`last_animation_change = 10` with `animation_change_duration = 2`, has completed: the
time is at least `12` and bone 1 is retained at translation `(0, 1, 0)`. -/
structure Settled (s : State) : Prop where
  title : s.animation_title = rumba_animation_title
  change : s.last_animation_change = 10
  duration : s.animation_change_duration = 2
  time : 12 ≤ s.time
  lenT : s.last_animation_translation.length = 2
  lenR : s.last_animation_rotation.length = 2
  lenS : s.last_animation_scaling.length = 2
  held : s.last_animation_translation[1]? = some ⟨0, 1, 0⟩

/-- A frame input: `dt = 1/2`, not paused, key `2` down. -/
def switchInput : Input := ⟨1 / 2, false, false, true, false⟩

/-- A frame input of a paused frame: `dt = 1/60`, `paused` set, no selection key down. -/
def pausedInput : Input := ⟨1 / 60, true, false, false, false⟩

/-- How `main` ends when the frame code fails. -/
inductive Outcome where
  | exit_failure
  | unspecified
deriving DecidableEq

/-- Lines 461-464: the handler `catch (std::exception const &e)` around `main` prints the
message and returns `EXIT_FAILURE`; it catches the exception of `map::at`, while a
subscript out of range raises nothing and has no specified outcome. -/
def mainCatch : Failure → Outcome
  | .out_of_range => .exit_failure
  | .undefined => .unspecified

/-- A frame input: `dt = 1`, not paused, key `3` down. -/
def flairInput : Input := ⟨1, false, false, false, true⟩

/-- A clip with one track, holding bone 0 at the identity transform. -/
def shortClip : Animation := ⟨4, [constantTrack ⟨0, 0, 0⟩]⟩

/-- A model of two bones, bone 0 a root and bone 1 its child, whose hip-hop clip has a
track for bone 0 only. -/
def shortModel : GltfModel :=
  ⟨[⟨-1, 1⟩, ⟨0, 1⟩], [("hip-hop", shortClip)]⟩

/-- A model of two bones listed child first: bone 0 is a child of bone 1, bone 1 is the
root; the hip-hop clip holds bone 0 at the origin and bone 1 at `(1, 0, 0)`. -/
def reversedModel : GltfModel :=
  ⟨[⟨1, 1⟩, ⟨-1, 1⟩], [("hip-hop", exampleClip ⟨1, 0, 0⟩)]⟩

/-- The hierarchy walk done entirely in 4x4 matrices, as the specification words it:
`n` bones are visited in index order and `world[i] = world[parent(i)] * localMatrix[i]`
when `i` has a parent, `world[i] = localMatrix[i]` otherwise. `L` gives the local matrix
of each bone and `world` is the vector the walk starts on. -/
def walk4 (m : GltfModel) (L : Nat → Mat4) : Nat → List Mat4 → List Mat4
  | 0, world => world
  | n + 1, world =>
    (walk4 m L n world).set n
      (if parentOf m n ≠ -1 then
        (walk4 m L n world).getD (parentOf m n).toNat 0 * L n
      else L n)

/-- The skinning matrices in 4x4 matrices, as the specification words them:
`skin[i] = world[i] * inverseBindMatrix[i]`. -/
def skin4 (m : GltfModel) (world : List Mat4) : List Mat4 :=
  List.zipWith (fun W mbone => W * mbone.inverse_bind_matrix) world m.bones

/-- The count argument of the call `glUniformMatrix4x3fv(bones_location, 100, ...)`. -/
def uploadCount : Nat := 100

/-- Lines 410-411: `glUniformMatrix4x3fv(bones_location, 100, GL_FALSE, &bones[0][0][0])`
hands the renderer `100` consecutive matrices read from the start of `bones`; reading past
the end of the vector is undefined. -/
def upload (bones : List Mat4x3) : Except Failure (List Mat4x3) :=
  if uploadCount ≤ bones.length then .ok (bones.take uploadCount) else .error .undefined

/-- A model of 101 root bones with identity inverse bind matrices and a hip-hop clip
without tracks. -/
def bigModel : GltfModel :=
  ⟨List.replicate 101 ⟨-1, 1⟩, [("hip-hop", ⟨4, []⟩)]⟩

/-- Lines 377-381 over a run of frames, for a bone whose clip sample is the constant
`target`: every frame with weight `w` replaces the retained value `r` by
`lerp(r, target, w)`. The list holds the weights of the frames in order. -/
def reblend (r0 target : Vec3) : List ℚ → Vec3
  | [] => r0
  | w :: ws => reblend (lerp r0 target w) target ws

/-- The weights of the frames of a run started in state `s`, one frame per input. -/
def runWeights : List Input → State → List ℚ
  | [], _ => []
  | inp :: rest, s =>
    interpolation (selection inp (advance inp s)) ::
      runWeights rest (selection inp (advance inp s))

/-! ## The keyframe sampler -/

/-- The value `v0 + f * (v1 - v0)` on every component. -/
def mixVec (v0 v1 : Vec3) (f : ℚ) : Vec3 :=
  ⟨v0.x + f * (v1.x - v0.x), v0.y + f * (v1.y - v0.y), v0.z + f * (v1.z - v0.z)⟩

/-- Modelled from the spec: the search of the keyframe sampler `bone.translation(t)` /
`bone.scale(t)`, which is declared in `gltf_loader.hpp` and is not among the sources. From
the keyframe `k0 = (t0, v0)` on, the sample at `t ≥ t0` is `v0 + f * (v1 - v0)` with
`f = (t - t0) / (t1 - t0)` for the first next keyframe `(t1, v1)` with `t ≤ t1` (`v0` when
`t1 = t0`), and the last value when `t` is after the last keyframe. -/
def sampleFrom (t : ℚ) : ℚ × Vec3 → List (ℚ × Vec3) → Vec3
  | k0, [] => k0.2
  | k0, k1 :: rest =>
    if t ≤ k1.1 then
      (if k1.1 = k0.1 then k0.2 else mixVec k0.2 k1.2 ((t - k0.1) / (k1.1 - k0.1)))
    else sampleFrom t k1 rest

/-- Modelled from the spec: the keyframe sampler `bone.translation(t)` / `bone.scale(t)` of
`gltf_loader.hpp`, which is not among the sources, on a track of keyframes `(time, value)`.
A track without keyframes has no sample; before the first keyframe the sample is the first
value; otherwise it is found by `sampleFrom`. -/
def sample (track : List (ℚ × Vec3)) (t : ℚ) : Option Vec3 :=
  match track with
  | [] => none
  | k0 :: rest => some (if t < k0.1 then k0.2 else sampleFrom t k0 rest)

/-! ## `glm::slerp` in binary32

The frame above treats `float` values as exact rationals. This section keeps the rounding
of the operations of `glm::slerp`: every sum, difference, product and quotient is the
binary32 value nearest to the exact result (IEEE 754 round to nearest, ties to even).
Overflow, subnormal numbers, infinities and NaN are left out. -/

/-- The integer nearest to `q`; halfway between two integers, the even one. -/
def roundEven (q : ℚ) : Int :=
  if q - ⌊q⌋ < 1 / 2 then ⌊q⌋
  else if 1 / 2 < q - ⌊q⌋ then ⌊q⌋ + 1
  else if ⌊q⌋ % 2 = 0 then ⌊q⌋ else ⌊q⌋ + 1

/-- Rounding of an exact result to binary32 (round to nearest, ties to even): with
`2 ^ e ≤ |q| < 2 ^ (e + 1)`, the nearest multiple of `2 ^ (e - 23)` (a significand of 24
bits). The exponent `e` is not bounded. -/
def round32 (q : ℚ) : ℚ :=
  if q = 0 then 0
  else (roundEven (q / 2 ^ (Int.log 2 |q| - 23)) : ℚ) * 2 ^ (Int.log 2 |q| - 23)

/-- The `float` sum `a + b`. -/
def fadd (a b : ℚ) : ℚ := round32 (a + b)

/-- The `float` difference `a - b`. -/
def fsub (a b : ℚ) : ℚ := round32 (a - b)

/-- The `float` product `a * b`. -/
def fmul (a b : ℚ) : ℚ := round32 (a * b)

/-- The `float` quotient `a / b`. -/
def fdiv (a b : ℚ) : ℚ := round32 (a / b)

/-- Scalar `glm::mix(x, y, a)` on `float` values. -/
def mix32 (x y a : ℚ) : ℚ := fadd (fmul x (fsub 1 a)) (fmul y a)

/-- The function `glm::dot` on quaternions of `float` values. -/
def Quat.dot32 (a b : Quat) : ℚ :=
  fadd (fadd (fmul a.w b.w) (fmul a.x b.x)) (fadd (fmul a.y b.y) (fmul a.z b.z))

/-- The function `glm::slerp(x, y, a)` on `float` values: the definition `slerp` with every
operation rounded. `sin` and `acos` are taken to return `float` values. -/
def slerp32 (tr : Trig) (x y : Quat) (a : ℚ) : Quat :=
  let z : Quat := if x.dot32 y < 0 then y.neg else y
  let cosTheta : ℚ := if x.dot32 y < 0 then -(x.dot32 y) else x.dot32 y
  if cosTheta > fsub 1 epsilon then
    ⟨mix32 x.w z.w a, mix32 x.x z.x a, mix32 x.y z.y a, mix32 x.z z.z a⟩
  else
    let angle := tr.acos cosTheta
    let s0 := tr.sin (fmul (fsub 1 a) angle)
    let s1 := tr.sin (fmul a angle)
    ⟨fdiv (fadd (fmul x.w s0) (fmul z.w s1)) (tr.sin angle),
     fdiv (fadd (fmul x.x s0) (fmul z.x s1)) (tr.sin angle),
     fdiv (fadd (fmul x.y s0) (fmul z.y s1)) (tr.sin angle),
     fdiv (fadd (fmul x.z s0) (fmul z.z s1)) (tr.sin angle)⟩

/-- A rotation sample: the unit quaternion `(60/61, 11/61, 0, 0)` rounded to binary32. -/
def sample32 : Quat := ⟨16502180 / 2 ^ 24, 12101598 / 2 ^ 26, 0, 0⟩

/-- The two values of `<cmath>` that `glm::slerp` needs at `sample32`, each the binary32
value nearest to the exact one: `acos sample32.w` is `12168157 * 2 ^ -26` and the sine of
that angle is `12101591 * 2 ^ -26`. Every other argument is sent to `0`. -/
def binary32Trig : Trig :=
  ⟨fun a => if a = 12168157 / 2 ^ 26 then 12101591 / 2 ^ 26 else 0,
   fun c => if c = 16502180 / 2 ^ 24 then 12168157 / 2 ^ 26 else 0⟩

end Practice13

/-!
# The projection matrix of `practice4/main.cpp`

The `float` values are idealised as exact rationals. The array `proj` is uploaded with
`glUniformMatrix4fv(projULocation, 1, GL_TRUE, proj)`, so it is read row by row, and the
vertex shader applies it as `proj * view * model * vec4(in_pos, 1.0)`.
-/

namespace Practice4

/-- Lines 326-341: the array `proj`, row by row, for the values of `near`, `far`, `right`
and `top` of lines 269-270. -/
def proj (near far right top : ℚ) : Matrix (Fin 4) (Fin 4) ℚ :=
  !![near / right, 0, 0, 0;
     0, near / top, 0, 0;
     0, 0, -(far + near) / (far - near), -2 * far * near / (far - near);
     0, 0, -1, 0]

/-- The clip coordinates `proj * (x, y, z, 1)` of a view-space point. -/
def clip (near far right top x y z : ℚ) : Fin 4 → ℚ :=
  (proj near far right top).mulVec ![x, y, z, 1]

/-- The depth of a view-space point after the division by the clip `w`. -/
def depth (near far right top x y z : ℚ) : ℚ :=
  clip near far right top x y z 2 / clip near far right top x y z 3

end Practice4

/-!
# The light-space basis of `practice8/main.cpp`

The definitions are over any linearly ordered field `K` (the rationals for evaluation, the
reals for the idealised `float`); the square root that `glm::normalize` takes is a
parameter.
-/

namespace Practice8

/-- The type `glm::vec3` over the scalars `K`. -/
@[ext] structure Vec3 (K : Type) where
  x : K
  y : K
  z : K
deriving DecidableEq

variable {K : Type} [LinearOrderedField K]

/-- The function `glm::dot` on `vec3`. -/
def dot (a b : Vec3 K) : K := a.x * b.x + a.y * b.y + a.z * b.z

end Practice8

namespace Practice13

/-! ## Vector accesses and the loops -/

theorem index_of_getElem? {α : Type} {v : List α} {i : Nat} {a : α} (h : v[i]? = some a) :
    index v i = .ok a := by
  simp [index, h]

theorem indexInt_of_getElem? {α : Type} {v : List α} {p : Int} {a : α} (h0 : 0 ≤ p)
    (h : v[p.toNat]? = some a) : indexInt v p = .ok a := by
  simp [indexInt, h0, index_of_getElem? h]

theorem assign_of_lt {α : Type} {v : List α} {i : Nat} (a : α) (h : i < v.length) :
    assign v i a = .ok (v.set i a) := by
  simp [assign, h]

theorem lt_length_of_getElem? {α : Type} {v : List α} {i : Nat} {a : α} (h : v[i]? = some a) :
    i < v.length := by
  rcases List.getElem?_eq_some.mp h with ⟨hlt, _⟩
  exact hlt

theorem toMat4x3_ofMat4x3 (m : Mat4x3) : toMat4x3 (ofMat4x3 m) = m := by
  ext r c
  simp [toMat4x3, ofMat4x3]

theorem boneBody_ok (tr : Trig) (m : GltfModel) (animation : Animation) (t1 w : ℚ)
    (i : Nat) (v : Vars) (bone : BoneAnimation) (oldT oldS : Vec3) (oldR : Quat)
    (mbone : Bone) (pb : Mat4x3)
    (hb : animation.bones[i]? = some bone)
    (hT : v.last_animation_translation[i]? = some oldT)
    (hR : v.last_animation_rotation[i]? = some oldR)
    (hS : v.last_animation_scaling[i]? = some oldS)
    (hm : m.bones[i]? = some mbone)
    (hi : i < v.bones.length)
    (hp : mbone.parent ≠ -1 → 0 ≤ mbone.parent ∧ v.bones[mbone.parent.toNat]? = some pb) :
    boneBody tr m animation t1 w i v = .ok
      ⟨v.last_animation_translation.set i (lerp oldT (bone.translation t1) w),
       v.last_animation_rotation.set i (slerp tr oldR (bone.rotation t1) w),
       v.last_animation_scaling.set i (lerp oldS (bone.scale t1) w),
       v.bones.set i (worldEntry mbone.parent pb
         (localMatrix (lerp oldT (bone.translation t1) w)
           (slerp tr oldR (bone.rotation t1) w) (lerp oldS (bone.scale t1) w)))⟩ := by
  have hTl := lt_length_of_getElem? hT
  have hRl := lt_length_of_getElem? hR
  have hSl := lt_length_of_getElem? hS
  unfold boneBody
  simp only [index_of_getElem? hb, index_of_getElem? hT, index_of_getElem? hR,
    index_of_getElem? hS, index_of_getElem? hm, assign_of_lt _ hTl, assign_of_lt _ hRl,
    assign_of_lt _ hSl, assign_of_lt _ hi,
    index_of_getElem? (List.getElem?_set_self hTl),
    index_of_getElem? (List.getElem?_set_self hRl),
    index_of_getElem? (List.getElem?_set_self hSl), bind, Except.bind, pure, Except.pure]
  by_cases hpar : mbone.parent = -1
  · simp [hpar, worldEntry, localMatrix, assign_of_lt _ hi]
  · obtain ⟨h0, hpb⟩ := hp hpar
    simp [hpar, worldEntry, localMatrix, assign_of_lt _ hi, indexInt_of_getElem? h0 hpb,
      toMat4x3_ofMat4x3, bind, Except.bind, pure, Except.pure]

theorem exists_getElem?_of_lt {α : Type} {v : List α} {i : Nat} (h : i < v.length) :
    ∃ a, v[i]? = some a :=
  ⟨v[i], List.getElem?_eq_getElem h⟩

theorem loopInv_zero (tr : Trig) (m : GltfModel) (animation : Animation) (t1 w : ℚ)
    (v0 : Vars) : LoopInv tr m animation t1 w v0 0 v0 where
  lenT := rfl
  lenR := rfl
  lenS := rfl
  lenB := rfl
  restT := fun _ _ => rfl
  restR := fun _ _ => rfl
  restS := fun _ _ => rfl
  restB := fun _ _ => rfl
  doneT := fun _ _ _ h => absurd h (Nat.not_lt_zero _)
  doneR := fun _ _ _ h => absurd h (Nat.not_lt_zero _)
  doneS := fun _ _ _ h => absurd h (Nat.not_lt_zero _)
  doneB := fun _ _ _ _ _ h => absurd h (Nat.not_lt_zero _)

theorem loopInv_step (tr : Trig) (m : GltfModel) (animation : Animation) (t1 w : ℚ)
    (v0 : Vars) (hwf : WellFormed m animation v0) (n : Nat) (hn : n < animation.bones.length)
    (v : Vars) (hv : LoopInv tr m animation t1 w v0 n v) :
    ∃ v', boneBody tr m animation t1 w n v = .ok v' ∧
      LoopInv tr m animation t1 w v0 (n + 1) v' := by
  have hN : n < m.bones.length := lt_of_lt_of_le hn hwf.tracks
  obtain ⟨bone, hb⟩ := exists_getElem?_of_lt hn
  obtain ⟨mbone, hm⟩ := exists_getElem?_of_lt hN
  obtain ⟨oldT, hT0⟩ := exists_getElem?_of_lt (hwf.lenT ▸ hN)
  obtain ⟨oldR, hR0⟩ := exists_getElem?_of_lt (hwf.lenR ▸ hN)
  obtain ⟨oldS, hS0⟩ := exists_getElem?_of_lt (hwf.lenS ▸ hN)
  have hT : v.last_animation_translation[n]? = some oldT := (hv.restT n le_rfl).trans hT0
  have hR : v.last_animation_rotation[n]? = some oldR := (hv.restR n le_rfl).trans hR0
  have hS : v.last_animation_scaling[n]? = some oldS := (hv.restS n le_rfl).trans hS0
  have hlB : v.bones.length = m.bones.length := hv.lenB.trans hwf.lenB
  have hi : n < v.bones.length := hlB ▸ hN
  -- the parent entry read at line 392
  have hpb : ∃ pb, mbone.parent ≠ -1 → 0 ≤ mbone.parent ∧
      v.bones[mbone.parent.toNat]? = some pb := by
    rcases hwf.parents n mbone hn hm with h | ⟨h0, hlt⟩
    · exact ⟨0, fun hne => absurd h hne⟩
    · obtain ⟨pb, hpb⟩ := exists_getElem?_of_lt (hlB ▸ hlt)
      exact ⟨pb, fun _ => ⟨h0, hpb⟩⟩
  obtain ⟨pb, hp⟩ := hpb
  refine ⟨_, boneBody_ok tr m animation t1 w n v bone oldT oldS oldR mbone pb hb hT hR hS hm
    hi hp, ?_⟩
  have hTl := lt_length_of_getElem? hT
  have hRl := lt_length_of_getElem? hR
  have hSl := lt_length_of_getElem? hS
  have hne : ∀ i, i < n → n ≠ i := fun i h => (Nat.ne_of_lt h).symm
  have hne' : ∀ i, n + 1 ≤ i → n ≠ i := fun i h => Nat.ne_of_lt h
  constructor
  · simpa using hv.lenT
  · simpa using hv.lenR
  · simpa using hv.lenS
  · simpa using hv.lenB
  · intro i h
    simpa [List.getElem?_set_ne (hne' i h)] using hv.restT i (Nat.le_of_succ_le h)
  · intro i h
    simpa [List.getElem?_set_ne (hne' i h)] using hv.restR i (Nat.le_of_succ_le h)
  · intro i h
    simpa [List.getElem?_set_ne (hne' i h)] using hv.restS i (Nat.le_of_succ_le h)
  · intro i h
    simpa [List.getElem?_set_ne (hne' i h)] using hv.restB i (Nat.le_of_succ_le h)
  · intro i bone' old h hb' hold
    rcases Nat.lt_succ_iff_lt_or_eq.mp h with hlt | rfl
    · simpa [List.getElem?_set_ne (hne i hlt)] using hv.doneT i bone' old hlt hb' hold
    · have e1 : bone' = bone := Option.some.inj (hb'.symm.trans hb)
      have e2 : old = oldT := Option.some.inj (hold.symm.trans hT0)
      subst e1 e2
      simpa using List.getElem?_set_self hTl
  · intro i bone' old h hb' hold
    rcases Nat.lt_succ_iff_lt_or_eq.mp h with hlt | rfl
    · simpa [List.getElem?_set_ne (hne i hlt)] using hv.doneR i bone' old hlt hb' hold
    · have e1 : bone' = bone := Option.some.inj (hb'.symm.trans hb)
      have e2 : old = oldR := Option.some.inj (hold.symm.trans hR0)
      subst e1 e2
      simpa using List.getElem?_set_self hRl
  · intro i bone' old h hb' hold
    rcases Nat.lt_succ_iff_lt_or_eq.mp h with hlt | rfl
    · simpa [List.getElem?_set_ne (hne i hlt)] using hv.doneS i bone' old hlt hb' hold
    · have e1 : bone' = bone := Option.some.inj (hb'.symm.trans hb)
      have e2 : old = oldS := Option.some.inj (hold.symm.trans hS0)
      subst e1 e2
      simpa using List.getElem?_set_self hSl
  · intro i mbone' t r s h hm' ht hr hs
    rcases Nat.lt_succ_iff_lt_or_eq.mp h with hlt | rfl
    · simp only [List.getElem?_set_ne (hne i hlt)] at ht hr hs ⊢
      obtain ⟨pb', hread, hval⟩ := hv.doneB i mbone' t r s hlt hm' ht hr hs
      refine ⟨pb', fun hpar => ?_, hval⟩
      obtain ⟨h0, hr'⟩ := hread hpar
      refine ⟨h0, ?_⟩
      by_cases hlt' : mbone'.parent.toNat < i
      · have : n ≠ mbone'.parent.toNat := fun e => by omega
        simpa [hlt', List.getElem?_set_ne this] using hr'
      · simpa [hlt'] using hr'
    · have e1 : mbone' = mbone := Option.some.inj (hm'.symm.trans hm)
      subst e1
      rw [List.getElem?_set_self hTl] at ht
      rw [List.getElem?_set_self hRl] at hr
      rw [List.getElem?_set_self hSl] at hs
      have et := Option.some.inj ht
      have er := Option.some.inj hr
      have es := Option.some.inj hs
      subst et er es
      refine ⟨pb, fun hpar => ?_, List.getElem?_set_self hi⟩
      obtain ⟨h0, hr'⟩ := hp hpar
      refine ⟨h0, ?_⟩
      by_cases hlt' : mbone'.parent.toNat < i
      · have : i ≠ mbone'.parent.toNat := fun e => by omega
        simpa [hlt', List.getElem?_set_ne this] using hr'
      · simpa [hlt'] using (hv.restB _ (Nat.le_of_not_lt hlt')).symm.trans hr'

theorem forLoop_boneBody (tr : Trig) (m : GltfModel) (animation : Animation) (t1 w : ℚ)
    (v0 : Vars) (hwf : WellFormed m animation v0) (n : Nat) (hn : n ≤ animation.bones.length) :
    ∃ v, forLoop (boneBody tr m animation t1 w) n v0 = .ok v ∧
      LoopInv tr m animation t1 w v0 n v := by
  induction n with
  | zero => exact ⟨v0, rfl, loopInv_zero tr m animation t1 w v0⟩
  | succ k ih =>
    obtain ⟨v, hrun, hinv⟩ := ih (Nat.le_of_succ_le hn)
    obtain ⟨v', hstep, hinv'⟩ := loopInv_step tr m animation t1 w v0 hwf k hn v hinv
    exact ⟨v', by simp [forLoop, hrun, Except.bind, hstep], hinv'⟩

theorem hierarchy_ok (tr : Trig) (m : GltfModel) (animation : Animation) (t1 w : ℚ)
    (v0 : Vars) (hwf : WellFormed m animation v0) :
    ∃ v, hierarchy tr m animation t1 w v0 = .ok v ∧
      LoopInv tr m animation t1 w v0 animation.bones.length v :=
  forLoop_boneBody tr m animation t1 w v0 hwf _ le_rfl

theorem forLoop_foldBody (m : GltfModel) (b0 : List Mat4x3) (hlen : b0.length ≤ m.bones.length)
    (n : Nat) (hn : n ≤ b0.length) :
    ∃ b, forLoop (foldBody m) n b0 = .ok b ∧ FoldInv m b0 n b := by
  induction n with
  | zero =>
    exact ⟨b0, rfl, ⟨rfl, fun _ _ => rfl, fun _ _ _ h => absurd h (Nat.not_lt_zero _)⟩⟩
  | succ k ih =>
    obtain ⟨b, hrun, hinv⟩ := ih (Nat.le_of_succ_le hn)
    have hk : k < b0.length := hn
    obtain ⟨x, hx0⟩ := exists_getElem?_of_lt hk
    obtain ⟨mbone, hm⟩ := exists_getElem?_of_lt (lt_of_lt_of_le hk hlen)
    have hx : b[k]? = some x := (hinv.rest k le_rfl).trans hx0
    have hkb : k < b.length := lt_length_of_getElem? hx
    refine ⟨b.set k (x * mbone.inverse_bind_matrix), ?_, ?_⟩
    · simp [forLoop, hrun, Except.bind, foldBody, index_of_getElem? hx, index_of_getElem? hm,
        assign_of_lt _ hkb, bind]
    · constructor
      · simpa using hinv.len
      · intro i h
        have : k ≠ i := Nat.ne_of_lt h
        simpa [List.getElem?_set_ne this] using hinv.rest i (Nat.le_of_succ_le h)
      · intro i y mbone' h hy hm'
        rcases Nat.lt_succ_iff_lt_or_eq.mp h with hlt | rfl
        · have : k ≠ i := (Nat.ne_of_lt hlt).symm
          simpa [List.getElem?_set_ne this] using hinv.done i y mbone' hlt hy hm'
        · have e1 : y = x := Option.some.inj (hy.symm.trans hx0)
          have e2 : mbone' = mbone := Option.some.inj (hm'.symm.trans hm)
          subst e1 e2
          exact List.getElem?_set_self hkb

theorem inverseBindFold_ok (m : GltfModel) (b0 : List Mat4x3)
    (hlen : b0.length ≤ m.bones.length) :
    ∃ b, inverseBindFold m b0 = .ok b ∧ FoldInv m b0 b0.length b :=
  forLoop_foldBody m b0 hlen _ le_rfl

theorem evalWorld_ok (tr : Trig) (m : GltfModel) (s : State) (animation : Animation)
    (h : FrameReady m s animation) :
    ∃ v, evalWorld tr m s = .ok v ∧
      LoopInv tr m animation (fmod s.time animation.max_time) (interpolation s)
        (startVars m s) animation.bones.length v := by
  obtain ⟨v, hrun, hinv⟩ := hierarchy_ok tr m animation (fmod s.time animation.max_time)
    (interpolation s) (startVars m s) h.wf
  exact ⟨v, by simp [evalWorld, h.clip, bind, Except.bind, hrun], hinv⟩

theorem frame_ok (tr : Trig) (m : GltfModel) (inp : Input) (s : State) (animation : Animation)
    (h : FrameReady m (selection inp (advance inp s)) animation) :
    ∃ v b, evalWorld tr m (selection inp (advance inp s)) = .ok v ∧
      inverseBindFold m v.bones = .ok b ∧
      frame tr m inp s = .ok (withVars (selection inp (advance inp s)) v, b) ∧
      LoopInv tr m animation
        (fmod (selection inp (advance inp s)).time animation.max_time)
        (interpolation (selection inp (advance inp s)))
        (startVars m (selection inp (advance inp s))) animation.bones.length v ∧
      FoldInv m v.bones v.bones.length b := by
  obtain ⟨v, hrun, hinv⟩ := evalWorld_ok tr m _ animation h
  have hlen : v.bones.length ≤ m.bones.length := by
    rw [hinv.lenB]
    exact le_of_eq h.wf.lenB
  obtain ⟨b, hfold, hfinv⟩ := inverseBindFold_ok m v.bones hlen
  exact ⟨v, b, hrun, hfold, by simp [frame, hrun, hfold, bind, Except.bind, pure, Except.pure],
    hinv, hfinv⟩

/-! ## World matrices (bone loop) -/

theorem toMat4x3_mul (a b : Mat4) : toMat4x3 (a * b) = toMat4x3 a * b := by
  ext r c
  simp [toMat4x3, Matrix.mul_apply]

theorem parentOf_eq {m : GltfModel} {i : Nat} {mbone : Bone} (h : m.bones[i]? = some mbone) :
    parentOf m i = mbone.parent := by
  simp [parentOf, h]

theorem chainProduct_fuel (parent : Nat → Int) (L : Nat → Mat4)
    (hpar : ∀ i, parent i = -1 ∨ (0 ≤ parent i ∧ parent i < (i : ℤ))) :
    ∀ i fuel, i < fuel → chainProduct parent L fuel i = chainProduct parent L (i + 1) i := by
  intro i
  induction i using Nat.strong_induction_on with
  | _ i ih =>
    intro fuel hf
    obtain ⟨k, rfl⟩ : ∃ k, fuel = k + 1 := ⟨fuel - 1, by omega⟩
    rcases hpar i with h | ⟨h0, hlt⟩
    · simp [chainProduct, h]
    · have hne : parent i ≠ -1 := by omega
      have hp : (parent i).toNat < i := by omega
      simp only [chainProduct, hne, if_false]
      rw [ih _ hp k (by omega), ih _ hp i hp]

theorem frameReady_of_lengths (m : GltfModel) (s : State) (animation : Animation)
    (hclip : animationsAt m.animations s.animation_title = .ok animation)
    (htracks : animation.bones.length ≤ m.bones.length)
    (hT : s.last_animation_translation.length = m.bones.length)
    (hR : s.last_animation_rotation.length = m.bones.length)
    (hS : s.last_animation_scaling.length = m.bones.length)
    (hpar : ∀ i, i < animation.bones.length →
      parentOf m i = -1 ∨ (0 ≤ parentOf m i ∧ (parentOf m i).toNat < m.bones.length)) :
    FrameReady m s animation where
  clip := hclip
  wf :=
    { tracks := htracks
      lenT := hT
      lenR := hR
      lenS := hS
      lenB := by simp [startVars]
      parents := fun i mbone hi hm => by
        have := hpar i hi
        rwa [parentOf_eq hm] at this }

theorem localOf_eq (tr : Trig) {animation : Animation} (t1 w : ℚ) (s : State) {i : Nat}
    {bone : BoneAnimation} {oldT oldS : Vec3} {oldR : Quat}
    (hb : animation.bones[i]? = some bone)
    (hT : s.last_animation_translation[i]? = some oldT)
    (hR : s.last_animation_rotation[i]? = some oldR)
    (hS : s.last_animation_scaling[i]? = some oldS) :
    localOf tr animation t1 w s i =
      localMatrix (lerp oldT (bone.translation t1) w) (slerp tr oldR (bone.rotation t1) w)
        (lerp oldS (bone.scale t1) w) := by
  simp [localOf, hb, hT, hR, hS]

/-- The entry `bones[i]` after the bone loop, for a bone `i` with a track: the matrix of
`worldEntry` for the parent entry read at line 392, which is the final entry of the parent
when the parent index is below `i`, and the entry the loop started with otherwise. -/
theorem loopInv_entry {tr : Trig} {m : GltfModel} {animation : Animation} {s : State}
    {v : Vars} (hready : FrameReady m s animation)
    (hinv : LoopInv tr m animation (fmod s.time animation.max_time) (interpolation s)
      (startVars m s) animation.bones.length v)
    (i : Nat) (hi : i < animation.bones.length) :
    ∃ pb, (parentOf m i ≠ -1 → 0 ≤ parentOf m i ∧
        (if (parentOf m i).toNat < i then v.bones[(parentOf m i).toNat]?
          else (startVars m s).bones[(parentOf m i).toNat]?) = some pb) ∧
      v.bones[i]? = some (worldEntry (parentOf m i) pb
        (localOf tr animation (fmod s.time animation.max_time) (interpolation s) s i)) := by
  have hN : i < m.bones.length := lt_of_lt_of_le hi hready.wf.tracks
  obtain ⟨bone, hb⟩ := exists_getElem?_of_lt hi
  obtain ⟨mbone, hm⟩ := exists_getElem?_of_lt hN
  obtain ⟨oldT, hT0⟩ := exists_getElem?_of_lt (hready.wf.lenT ▸ hN)
  obtain ⟨oldR, hR0⟩ := exists_getElem?_of_lt (hready.wf.lenR ▸ hN)
  obtain ⟨oldS, hS0⟩ := exists_getElem?_of_lt (hready.wf.lenS ▸ hN)
  have hT := hinv.doneT i bone oldT hi hb hT0
  have hR := hinv.doneR i bone oldR hi hb hR0
  have hS := hinv.doneS i bone oldS hi hb hS0
  have hloc := localOf_eq tr (fmod s.time animation.max_time) (interpolation s) s
    hb hT0 hR0 hS0
  rw [parentOf_eq hm, hloc]
  exact hinv.doneB i mbone _ _ _ hi hm hT hR hS

/-- C1: in a frame on a skeleton whose parent indices are `-1` or below the index of the
bone, with a clip holding one track per bone, the bone loop succeeds and leaves in `bones`
one world matrix per bone: the local matrix of the frame (top three rows) for a root,
the product of the parent world matrix and the local matrix otherwise; hence the product
of the local matrices along the ancestor chain from the root down to the bone. -/
theorem C1_world_matrices (tr : Trig) (m : GltfModel) (s : State) (animation : Animation)
    (hclip : animationsAt m.animations s.animation_title = .ok animation)
    (htracks : animation.bones.length = m.bones.length)
    (hT : s.last_animation_translation.length = m.bones.length)
    (hR : s.last_animation_rotation.length = m.bones.length)
    (hS : s.last_animation_scaling.length = m.bones.length)
    (hpar : ∀ i, i < m.bones.length →
      parentOf m i = -1 ∨ (0 ≤ parentOf m i ∧ parentOf m i < (i : ℤ))) :
    ∃ v, evalWorld tr m s = .ok v ∧ v.bones.length = m.bones.length ∧
      ∀ i, i < m.bones.length →
        (parentOf m i = -1 → v.bones[i]? = some (toMat4x3
          (localOf tr animation (fmod s.time animation.max_time) (interpolation s) s i))) ∧
        (parentOf m i ≠ -1 → ∃ pw, v.bones[(parentOf m i).toNat]? = some pw ∧
          v.bones[i]? = some (pw *
            localOf tr animation (fmod s.time animation.max_time) (interpolation s) s i)) ∧
        v.bones[i]? = some (toMat4x3 (chainProduct (parentOf m)
          (localOf tr animation (fmod s.time animation.max_time) (interpolation s) s)
          (i + 1) i)) := by
  have hready : FrameReady m s animation :=
    frameReady_of_lengths m s animation hclip (le_of_eq htracks) hT hR hS (fun i hi => by
      rcases hpar i (htracks ▸ hi) with h | ⟨h0, hlt⟩
      · exact Or.inl h
      · exact Or.inr ⟨h0, by have := htracks ▸ hi; omega⟩)
  obtain ⟨v, hrun, hinv⟩ := evalWorld_ok tr m s animation hready
  have hlenB : v.bones.length = m.bones.length := hinv.lenB.trans hready.wf.lenB
  -- the recurrence
  have hrec : ∀ i, i < m.bones.length →
      (parentOf m i = -1 → v.bones[i]? = some (toMat4x3
        (localOf tr animation (fmod s.time animation.max_time) (interpolation s) s i))) ∧
      (parentOf m i ≠ -1 → ∃ pw, v.bones[(parentOf m i).toNat]? = some pw ∧
        v.bones[i]? = some (pw *
          localOf tr animation (fmod s.time animation.max_time) (interpolation s) s i)) := by
    intro i hi
    obtain ⟨pb, hread, hval⟩ := loopInv_entry hready hinv i (htracks ▸ hi)
    constructor
    · intro h
      simpa [worldEntry, h] using hval
    · intro h
      obtain ⟨-, hr⟩ := hread h
      have hlt : (parentOf m i).toNat < i := by
        rcases hpar i hi with h' | ⟨h0, hlt⟩
        · exact absurd h' h
        · omega
      rw [if_pos hlt] at hr
      exact ⟨pb, hr, by simpa [worldEntry, h] using hval⟩
  -- the product along the ancestor chain
  have hpar' : ∀ i, parentOf m i = -1 ∨ (0 ≤ parentOf m i ∧ parentOf m i < (i : ℤ)) := by
    intro i
    by_cases hi : i < m.bones.length
    · exact hpar i hi
    · left
      simp [parentOf, List.getElem?_eq_none (Nat.le_of_not_lt hi)]
  have hchain : ∀ i, i < m.bones.length →
      v.bones[i]? = some (toMat4x3 (chainProduct (parentOf m)
        (localOf tr animation (fmod s.time animation.max_time) (interpolation s) s)
        (i + 1) i)) := by
    intro i
    induction i using Nat.strong_induction_on with
    | _ i ih =>
      intro hi
      by_cases h : parentOf m i = -1
      · rw [(hrec i hi).1 h]
        simp [chainProduct, h]
      · obtain ⟨pw, hpw, hval⟩ := (hrec i hi).2 h
        have hlt : (parentOf m i).toNat < i := by
          rcases hpar i hi with h' | ⟨h0, hlt⟩
          · exact absurd h' h
          · omega
        have hp := ih _ hlt (lt_trans hlt hi)
        rw [hpw] at hp
        have hpw' := Option.some.inj hp
        have hstep : chainProduct (parentOf m)
            (localOf tr animation (fmod s.time animation.max_time) (interpolation s) s)
            (i + 1) i =
            chainProduct (parentOf m)
              (localOf tr animation (fmod s.time animation.max_time) (interpolation s) s)
              i (parentOf m i).toNat *
            localOf tr animation (fmod s.time animation.max_time) (interpolation s) s i := by
          simp [chainProduct, h]
        rw [hval, hstep, toMat4x3_mul, chainProduct_fuel (parentOf m) _ hpar' _ i hlt, ← hpw']
  exact ⟨v, hrun, hlenB, fun i hi => ⟨(hrec i hi).1, (hrec i hi).2, hchain i hi⟩⟩

theorem exampleModel_parents (i : Nat) (_hi : i < exampleModel.bones.length) :
    parentOf exampleModel i = -1 ∨
      (0 ≤ parentOf exampleModel i ∧ parentOf exampleModel i < (i : ℤ)) := by
  match i with
  | 0 => left; rfl
  | 1 => right; exact ⟨by decide, by decide⟩
  | k + 2 => left; rfl

/-- Witness of C1: the first frame of the two-bone example model. -/
theorem C1_world_matrices_witness :
    ∃ v, evalWorld exampleTrig exampleModel (init exampleModel) = .ok v ∧
      v.bones.length = exampleModel.bones.length ∧
      ∀ i, i < exampleModel.bones.length →
        (parentOf exampleModel i = -1 → v.bones[i]? = some (toMat4x3
          (localOf exampleTrig (exampleClip ⟨1, 0, 0⟩)
            (fmod (init exampleModel).time (exampleClip ⟨1, 0, 0⟩).max_time)
            (interpolation (init exampleModel)) (init exampleModel) i))) ∧
        (parentOf exampleModel i ≠ -1 → ∃ pw,
          v.bones[(parentOf exampleModel i).toNat]? = some pw ∧
          v.bones[i]? = some (pw *
            localOf exampleTrig (exampleClip ⟨1, 0, 0⟩)
              (fmod (init exampleModel).time (exampleClip ⟨1, 0, 0⟩).max_time)
              (interpolation (init exampleModel)) (init exampleModel) i)) ∧
        v.bones[i]? = some (toMat4x3 (chainProduct (parentOf exampleModel)
          (localOf exampleTrig (exampleClip ⟨1, 0, 0⟩)
            (fmod (init exampleModel).time (exampleClip ⟨1, 0, 0⟩).max_time)
            (interpolation (init exampleModel)) (init exampleModel))
          (i + 1) i)) :=
  C1_world_matrices exampleTrig exampleModel (init exampleModel) (exampleClip ⟨1, 0, 0⟩)
    rfl rfl rfl rfl rfl exampleModel_parents

/-! ## Frame effect of time advance and selection -/

theorem select_retained (down : Bool) (title : String) (s : State) :
    (select down title s).animation_change_duration = s.animation_change_duration ∧
    (select down title s).time = s.time ∧
    (select down title s).last_animation_translation = s.last_animation_translation ∧
    (select down title s).last_animation_rotation = s.last_animation_rotation ∧
    (select down title s).last_animation_scaling = s.last_animation_scaling := by
  cases down <;> simp [select]

theorem advance_retained (inp : Input) (s : State) :
    (advance inp s).animation_change_duration = s.animation_change_duration ∧
    (advance inp s).animation_title = s.animation_title ∧
    (advance inp s).last_animation_change = s.last_animation_change ∧
    (advance inp s).last_animation_translation = s.last_animation_translation ∧
    (advance inp s).last_animation_rotation = s.last_animation_rotation ∧
    (advance inp s).last_animation_scaling = s.last_animation_scaling := by
  cases h : inp.paused <;> simp [advance, h]

theorem selection_retained (inp : Input) (s : State) :
    (selection inp s).animation_change_duration = s.animation_change_duration ∧
    (selection inp s).time = s.time ∧
    (selection inp s).last_animation_translation = s.last_animation_translation ∧
    (selection inp s).last_animation_rotation = s.last_animation_rotation ∧
    (selection inp s).last_animation_scaling = s.last_animation_scaling := by
  unfold selection
  obtain ⟨a1, a2, a3, a4, a5⟩ := select_retained inp.down_1 hip_hop_animation_title s
  obtain ⟨b1, b2, b3, b4, b5⟩ := select_retained inp.down_2 rumba_animation_title
    (select inp.down_1 hip_hop_animation_title s)
  obtain ⟨c1, c2, c3, c4, c5⟩ := select_retained inp.down_3 flair_animation_title
    (select inp.down_2 rumba_animation_title (select inp.down_1 hip_hop_animation_title s))
  exact ⟨c1.trans (b1.trans a1), c2.trans (b2.trans a2), c3.trans (b3.trans a3),
    c4.trans (b4.trans a4), c5.trans (b5.trans a5)⟩

theorem frame_duration (tr : Trig) (m : GltfModel) (inp : Input) (s s' : State)
    (b : List Mat4x3) (h : frame tr m inp s = .ok (s', b)) :
    s'.animation_change_duration = s.animation_change_duration := by
  unfold frame at h
  cases hv : evalWorld tr m (selection inp (advance inp s)) with
  | error e => simp [hv, bind, Except.bind] at h
  | ok v =>
    cases hb : inverseBindFold m v.bones with
    | error e => simp [hv, hb, bind, Except.bind] at h
    | ok b' =>
      simp only [hv, hb, bind, Except.bind, pure, Except.pure, Except.ok.injEq,
        Prod.mk.injEq] at h
      rw [← h.1]
      simp [withVars, (selection_retained inp (advance inp s)).1, (advance_retained inp s).1]

theorem reachable_duration (tr : Trig) (m : GltfModel) (s : State) (h : Reachable tr m s) :
    s.animation_change_duration = 100 := by
  induction h with
  | init => rfl
  | frame inp s s' b _ _ hf ih => rw [frame_duration tr m inp s s' b hf, ih]

/-! ## The claims on one frame -/

/-- C2: at the end of the frame computation `bones` has one entry per bone, and entry `i`
is the world matrix that `bones[i]` held after the bone loop multiplied by the inverse
bind matrix of bone `i`. -/
theorem C2_skinning_fold (tr : Trig) (m : GltfModel) (inp : Input) (s : State)
    (animation : Animation)
    (h : FrameReady m (selection inp (advance inp s)) animation) :
    ∃ v s' b, evalWorld tr m (selection inp (advance inp s)) = .ok v ∧
      frame tr m inp s = .ok (s', b) ∧ b.length = m.bones.length ∧
      ∀ i, i < m.bones.length → ∃ world mbone, v.bones[i]? = some world ∧
        m.bones[i]? = some mbone ∧ b[i]? = some (world * mbone.inverse_bind_matrix) := by
  obtain ⟨v, b, hrun, _, hframe, hinv, hfold⟩ := frame_ok tr m inp s animation h
  have hlenB : v.bones.length = m.bones.length := hinv.lenB.trans h.wf.lenB
  refine ⟨v, _, b, hrun, hframe, hfold.len.trans hlenB, fun i hi => ?_⟩
  obtain ⟨world, hw⟩ := exists_getElem?_of_lt (hlenB ▸ hi)
  obtain ⟨mbone, hm⟩ := exists_getElem?_of_lt hi
  exact ⟨world, mbone, hw, hm, hfold.done i world mbone (hlenB ▸ hi) hw hm⟩

theorem exampleModel_ready (inp : Input) (s : State)
    (htitle : (selection inp (advance inp s)).animation_title = "hip-hop" ∨
      (selection inp (advance inp s)).animation_title = "rumba")
    (hT : s.last_animation_translation.length = 2)
    (hR : s.last_animation_rotation.length = 2)
    (hS : s.last_animation_scaling.length = 2) :
    ∃ t, (t = ⟨1, 0, 0⟩ ∨ t = ⟨0, 1, 0⟩) ∧
      FrameReady exampleModel (selection inp (advance inp s)) (exampleClip t) := by
  have hT' := ((selection_retained inp (advance inp s)).2.2.1.trans
    (advance_retained inp s).2.2.2.1) ▸ hT
  have hR' := ((selection_retained inp (advance inp s)).2.2.2.1.trans
    (advance_retained inp s).2.2.2.2.1) ▸ hR
  have hS' := ((selection_retained inp (advance inp s)).2.2.2.2.trans
    (advance_retained inp s).2.2.2.2.2) ▸ hS
  have hpar : ∀ i, i < 2 → parentOf exampleModel i = -1 ∨
      (0 ≤ parentOf exampleModel i ∧ (parentOf exampleModel i).toNat < 2) := by
    intro i hi
    match i with
    | 0 => left; rfl
    | 1 => right; exact ⟨by decide, by decide⟩
    | k + 2 => omega
  rcases htitle with h | h
  · exact ⟨⟨1, 0, 0⟩, Or.inl rfl, frameReady_of_lengths exampleModel _ _ (by rw [h]; rfl)
      (le_refl 2) hT' hR' hS' hpar⟩
  · exact ⟨⟨0, 1, 0⟩, Or.inr rfl, frameReady_of_lengths exampleModel _ _ (by rw [h]; rfl)
      (le_refl 2) hT' hR' hS' hpar⟩

theorem exampleModel_ready_init :
    FrameReady exampleModel (selection exampleInput (advance exampleInput (init exampleModel)))
      (exampleClip ⟨1, 0, 0⟩) :=
  frameReady_of_lengths exampleModel _ _ rfl (le_refl 2) rfl rfl rfl (fun i hi => by
    match i with
    | 0 => left; rfl
    | 1 => right; exact ⟨by decide, by decide⟩
    | k + 2 => exact absurd hi (by simp [exampleClip]))

/-- Witness of C2: the first frame of the two-bone example model. -/
theorem C2_skinning_fold_witness :
    ∃ v s' b, evalWorld exampleTrig exampleModel
        (selection exampleInput (advance exampleInput (init exampleModel))) = .ok v ∧
      frame exampleTrig exampleModel exampleInput (init exampleModel) = .ok (s', b) ∧
      b.length = exampleModel.bones.length ∧
      ∀ i, i < exampleModel.bones.length → ∃ world mbone, v.bones[i]? = some world ∧
        exampleModel.bones[i]? = some mbone ∧
        b[i]? = some (world * mbone.inverse_bind_matrix) :=
  C2_skinning_fold exampleTrig exampleModel exampleInput (init exampleModel)
    (exampleClip ⟨1, 0, 0⟩) exampleModel_ready_init

/-- C3: for every bone `i` with a track, the matrix stored in `bones[i]` by the bone loop
is built from the local matrix `translate(t') * toMat4(r') * scale(s')`, in that order,
where `t'`, `r'`, `s'` are the retained translation, rotation and scale of bone `i` in the
state the frame leaves (the values after the blend update, kept for the next frame). -/
theorem C3_local_matrix (tr : Trig) (m : GltfModel) (inp : Input) (s : State)
    (animation : Animation)
    (h : FrameReady m (selection inp (advance inp s)) animation) :
    ∃ v s' b, evalWorld tr m (selection inp (advance inp s)) = .ok v ∧
      frame tr m inp s = .ok (s', b) ∧
      ∀ i, i < animation.bones.length → ∃ t' r' sc' pb,
        s'.last_animation_translation[i]? = some t' ∧
        s'.last_animation_rotation[i]? = some r' ∧
        s'.last_animation_scaling[i]? = some sc' ∧
        localOf tr animation
          (fmod (selection inp (advance inp s)).time animation.max_time)
          (interpolation (selection inp (advance inp s)))
          (selection inp (advance inp s)) i = translate 1 t' * toMat4 r' * scale 1 sc' ∧
        (parentOf m i ≠ -1 → 0 ≤ parentOf m i ∧
          (if (parentOf m i).toNat < i then v.bones[(parentOf m i).toNat]?
            else (startVars m (selection inp (advance inp s))).bones[(parentOf m i).toNat]?)
            = some pb) ∧
        v.bones[i]? = some (worldEntry (parentOf m i) pb
          (translate 1 t' * toMat4 r' * scale 1 sc')) := by
  obtain ⟨v, b, hrun, _, hframe, hinv, _⟩ := frame_ok tr m inp s animation h
  refine ⟨v, _, b, hrun, hframe, fun i hi => ?_⟩
  have hN : i < m.bones.length := lt_of_lt_of_le hi h.wf.tracks
  obtain ⟨bone, hb⟩ := exists_getElem?_of_lt hi
  obtain ⟨oldT, hT0⟩ := exists_getElem?_of_lt (h.wf.lenT ▸ hN)
  obtain ⟨oldR, hR0⟩ := exists_getElem?_of_lt (h.wf.lenR ▸ hN)
  obtain ⟨oldS, hS0⟩ := exists_getElem?_of_lt (h.wf.lenS ▸ hN)
  obtain ⟨pb, hread, hval⟩ := loopInv_entry h hinv i hi
  have hloc := localOf_eq tr
    (fmod (selection inp (advance inp s)).time animation.max_time)
    (interpolation (selection inp (advance inp s)))
    (selection inp (advance inp s)) hb hT0 hR0 hS0
  refine ⟨_, _, _, pb, hinv.doneT i bone oldT hi hb hT0, hinv.doneR i bone oldR hi hb hR0,
    hinv.doneS i bone oldS hi hb hS0, ?_, hread, ?_⟩
  · rw [hloc]; rfl
  · rw [hval, hloc]; rfl

/-- Witness of C3: the first frame of the two-bone example model. -/
theorem C3_local_matrix_witness :
    ∃ v s' b, evalWorld exampleTrig exampleModel
        (selection exampleInput (advance exampleInput (init exampleModel))) = .ok v ∧
      frame exampleTrig exampleModel exampleInput (init exampleModel) = .ok (s', b) ∧
      ∀ i, i < (exampleClip ⟨1, 0, 0⟩).bones.length → ∃ t' r' sc' pb,
        s'.last_animation_translation[i]? = some t' ∧
        s'.last_animation_rotation[i]? = some r' ∧
        s'.last_animation_scaling[i]? = some sc' ∧
        localOf exampleTrig (exampleClip ⟨1, 0, 0⟩)
          (fmod (selection exampleInput (advance exampleInput (init exampleModel))).time
            (exampleClip ⟨1, 0, 0⟩).max_time)
          (interpolation (selection exampleInput (advance exampleInput (init exampleModel))))
          (selection exampleInput (advance exampleInput (init exampleModel))) i =
            translate 1 t' * toMat4 r' * scale 1 sc' ∧
        (parentOf exampleModel i ≠ -1 → 0 ≤ parentOf exampleModel i ∧
          (if (parentOf exampleModel i).toNat < i
            then v.bones[(parentOf exampleModel i).toNat]?
            else (startVars exampleModel (selection exampleInput
              (advance exampleInput (init exampleModel)))).bones[
                (parentOf exampleModel i).toNat]?) = some pb) ∧
        v.bones[i]? = some (worldEntry (parentOf exampleModel i) pb
          (translate 1 t' * toMat4 r' * scale 1 sc')) :=
  C3_local_matrix exampleTrig exampleModel exampleInput (init exampleModel)
    (exampleClip ⟨1, 0, 0⟩) exampleModel_ready_init

/-- C4: in every frame run from a reachable state, the weight the bone loop blends with is
`1` when `last_animation_change` is `0`, and `min((time - last_animation_change) / 100, 1)`
otherwise, for the time and the `last_animation_change` the frame holds after its
selection step. -/
theorem C4_blend_weight (tr : Trig) (m : GltfModel) (s : State) (hreach : Reachable tr m s)
    (inp : Input) :
    interpolation (selection inp (advance inp s)) =
      (if (selection inp (advance inp s)).last_animation_change = 0 then 1
       else min (((selection inp (advance inp s)).time -
          ((selection inp (advance inp s)).last_animation_change : ℚ)) / 100) 1) ∧
    ∀ animation,
      animationsAt m.animations (selection inp (advance inp s)).animation_title
        = .ok animation →
      evalWorld tr m (selection inp (advance inp s)) =
        hierarchy tr m animation
          (fmod (selection inp (advance inp s)).time animation.max_time)
          (if (selection inp (advance inp s)).last_animation_change = 0 then 1
           else min (((selection inp (advance inp s)).time -
              ((selection inp (advance inp s)).last_animation_change : ℚ)) / 100) 1)
          (startVars m (selection inp (advance inp s))) := by
  have hd : (selection inp (advance inp s)).animation_change_duration = 100 := by
    rw [(selection_retained inp (advance inp s)).1, (advance_retained inp s).1]
    exact reachable_duration tr m s hreach
  have hw : interpolation (selection inp (advance inp s)) =
      (if (selection inp (advance inp s)).last_animation_change = 0 then 1
       else min (((selection inp (advance inp s)).time -
          ((selection inp (advance inp s)).last_animation_change : ℚ)) / 100) 1) := by
    unfold interpolation constant
    rw [hd]
    by_cases h0 : (selection inp (advance inp s)).last_animation_change = 0
    · simp [h0]
    · by_cases h1 : ((selection inp (advance inp s)).time -
          ((selection inp (advance inp s)).last_animation_change : ℚ)) / 100 < 1
      · simp [h0, h1, min_eq_left (le_of_lt h1)]
      · simp [h0, h1, min_eq_right (le_of_not_lt h1)]
  refine ⟨hw, fun animation hclip => ?_⟩
  rw [← hw]
  simp [evalWorld, hclip, bind, Except.bind]

/-- Witness of C4: the first frame, run from the initial state. -/
theorem C4_blend_weight_witness :
    interpolation (selection exampleInput (advance exampleInput (init exampleModel))) =
      (if (selection exampleInput (advance exampleInput (init exampleModel))).last_animation_change
          = 0 then 1
       else min (((selection exampleInput (advance exampleInput (init exampleModel))).time -
          ((selection exampleInput (advance exampleInput
            (init exampleModel))).last_animation_change : ℚ)) / 100) 1) :=
  (C4_blend_weight exampleTrig exampleModel (init exampleModel) Reachable.init exampleInput).1

/-- C5: a frame replaces the retained translation of every bone `i` with a track by
`lerp(old, bone.translation(t1), w)`, its retained scale by `lerp(old, bone.scale(t1), w)`
and its retained rotation by `slerp(old, bone.rotation(t1), w)`, with `t1` the wrapped time
and `w` the one weight of the frame; `lerp(x, y, w)` is `x * (1 - w) + y * w` on every
component. -/
theorem C5_retained_update (tr : Trig) (m : GltfModel) (inp : Input) (s : State)
    (animation : Animation)
    (h : FrameReady m (selection inp (advance inp s)) animation) :
    ∃ s' b, frame tr m inp s = .ok (s', b) ∧
      ∀ (i : Nat) (bone : BoneAnimation) (oldT : Vec3) (oldR : Quat) (oldS : Vec3),
        animation.bones[i]? = some bone →
        s.last_animation_translation[i]? = some oldT →
        s.last_animation_rotation[i]? = some oldR →
        s.last_animation_scaling[i]? = some oldS →
        s'.last_animation_translation[i]? = some (lerp oldT
          (bone.translation (fmod (selection inp (advance inp s)).time animation.max_time))
          (interpolation (selection inp (advance inp s)))) ∧
        s'.last_animation_scaling[i]? = some (lerp oldS
          (bone.scale (fmod (selection inp (advance inp s)).time animation.max_time))
          (interpolation (selection inp (advance inp s)))) ∧
        s'.last_animation_rotation[i]? = some (slerp tr oldR
          (bone.rotation (fmod (selection inp (advance inp s)).time animation.max_time))
          (interpolation (selection inp (advance inp s)))) ∧
        ∀ x y : Vec3, ∀ w : ℚ, lerp x y w =
          ⟨x.x * (1 - w) + y.x * w, x.y * (1 - w) + y.y * w, x.z * (1 - w) + y.z * w⟩ := by
  obtain ⟨v, b, _, _, hframe, hinv, _⟩ := frame_ok tr m inp s animation h
  refine ⟨_, b, hframe, fun i bone oldT oldR oldS hb hT hR hS => ?_⟩
  have hi : i < animation.bones.length := lt_length_of_getElem? hb
  have eT := (selection_retained inp (advance inp s)).2.2.1.trans
    (advance_retained inp s).2.2.2.1
  have eR := (selection_retained inp (advance inp s)).2.2.2.1.trans
    (advance_retained inp s).2.2.2.2.1
  have eS := (selection_retained inp (advance inp s)).2.2.2.2.trans
    (advance_retained inp s).2.2.2.2.2
  refine ⟨hinv.doneT i bone oldT hi hb ?_, hinv.doneS i bone oldS hi hb ?_,
    hinv.doneR i bone oldR hi hb ?_, fun _ _ _ => rfl⟩
  · simpa [startVars, eT] using hT
  · simpa [startVars, eS] using hS
  · simpa [startVars, eR] using hR

/-- Witness of C5: the first frame of the two-bone example model. -/
theorem C5_retained_update_witness :
    ∃ s' b, frame exampleTrig exampleModel exampleInput (init exampleModel) = .ok (s', b) ∧
      ∀ (i : Nat) (bone : BoneAnimation) (oldT : Vec3) (oldR : Quat) (oldS : Vec3),
        (exampleClip ⟨1, 0, 0⟩).bones[i]? = some bone →
        (init exampleModel).last_animation_translation[i]? = some oldT →
        (init exampleModel).last_animation_rotation[i]? = some oldR →
        (init exampleModel).last_animation_scaling[i]? = some oldS →
        s'.last_animation_translation[i]? = some (lerp oldT
          (bone.translation
            (fmod (selection exampleInput (advance exampleInput (init exampleModel))).time
              (exampleClip ⟨1, 0, 0⟩).max_time))
          (interpolation (selection exampleInput (advance exampleInput (init exampleModel))))) ∧
        s'.last_animation_scaling[i]? = some (lerp oldS
          (bone.scale
            (fmod (selection exampleInput (advance exampleInput (init exampleModel))).time
              (exampleClip ⟨1, 0, 0⟩).max_time))
          (interpolation (selection exampleInput (advance exampleInput (init exampleModel))))) ∧
        s'.last_animation_rotation[i]? = some (slerp exampleTrig oldR
          (bone.rotation
            (fmod (selection exampleInput (advance exampleInput (init exampleModel))).time
              (exampleClip ⟨1, 0, 0⟩).max_time))
          (interpolation (selection exampleInput (advance exampleInput (init exampleModel))))) ∧
        ∀ x y : Vec3, ∀ w : ℚ, lerp x y w =
          ⟨x.x * (1 - w) + y.x * w, x.y * (1 - w) + y.y * w, x.z * (1 - w) + y.z * w⟩ :=
  C5_retained_update exampleTrig exampleModel exampleInput (init exampleModel)
    (exampleClip ⟨1, 0, 0⟩) exampleModel_ready_init

/-! ## The blend scenario -/

theorem two_bone_skeleton (m : GltfModel) (hbones : m.bones.map Bone.parent = [-1, 0]) :
    m.bones.length = 2 ∧ ∀ i, i < 2 →
      parentOf m i = -1 ∨ (0 ≤ parentOf m i ∧ (parentOf m i).toNat < 2) := by
  have hlen : m.bones.length = 2 := by
    have := congrArg List.length hbones
    simpa using this
  refine ⟨hlen, fun i hi => ?_⟩
  have hget : (m.bones[i]?).map Bone.parent = ([-1, 0] : List Int)[i]? := by
    rw [← List.getElem?_map, hbones]
  match i with
  | 0 =>
    left
    cases h0 : m.bones[0]? with
    | none => simp [parentOf, h0]
    | some b0 =>
      rw [h0] at hget
      simp only [Option.map_some', List.getElem?_cons_zero, Option.some.injEq] at hget
      simp [parentOf, h0, hget]
  | 1 =>
    right
    cases h1 : m.bones[1]? with
    | none => simp [h1] at hget
    | some b1 =>
      rw [h1] at hget
      simp only [Option.map_some', List.getElem?_cons_succ, List.getElem?_cons_zero,
        Option.some.injEq] at hget
      simp [parentOf, h1, hget]
  | k + 2 => omega

/-- One frame of a two-bone model on a clip whose track of bone 1 holds the translation
`target`: the frame succeeds, keeps the scalar variables of the state after selection, and
blends the retained translation of bone 1 toward `target`. -/
theorem held_frame (tr : Trig) (m : GltfModel) (clip : Animation) (target : Vec3)
    (hbones : m.bones.map Bone.parent = [-1, 0])
    (htracks : clip.bones.length = 2)
    (hheld : ∀ bone t, clip.bones[1]? = some bone → bone.translation t = target)
    (inp : Input) (s : State) (old : Vec3)
    (hlook : animationsAt m.animations (selection inp (advance inp s)).animation_title
      = .ok clip)
    (hT : s.last_animation_translation.length = 2)
    (hR : s.last_animation_rotation.length = 2)
    (hS : s.last_animation_scaling.length = 2)
    (hold : s.last_animation_translation[1]? = some old) :
    ∃ s' b, frame tr m inp s = .ok (s', b) ∧
      s'.time = (selection inp (advance inp s)).time ∧
      s'.animation_title = (selection inp (advance inp s)).animation_title ∧
      s'.last_animation_change = (selection inp (advance inp s)).last_animation_change ∧
      s'.animation_change_duration = s.animation_change_duration ∧
      s'.last_animation_translation.length = 2 ∧
      s'.last_animation_rotation.length = 2 ∧
      s'.last_animation_scaling.length = 2 ∧
      s'.last_animation_translation[1]? =
        some (lerp old target (interpolation (selection inp (advance inp s)))) := by
  obtain ⟨hlen, hpar⟩ := two_bone_skeleton m hbones
  have eD := (selection_retained inp (advance inp s)).1.trans (advance_retained inp s).1
  have eT := (selection_retained inp (advance inp s)).2.2.1.trans
    (advance_retained inp s).2.2.2.1
  have eR := (selection_retained inp (advance inp s)).2.2.2.1.trans
    (advance_retained inp s).2.2.2.2.1
  have eS := (selection_retained inp (advance inp s)).2.2.2.2.trans
    (advance_retained inp s).2.2.2.2.2
  have hready : FrameReady m (selection inp (advance inp s)) clip :=
    frameReady_of_lengths m _ clip hlook (by omega) (by rw [eT]; omega) (by rw [eR]; omega)
      (by rw [eS]; omega) (fun i hi => by
        have := hpar i (by omega)
        omega)
  obtain ⟨v, b, _, _, hframe, hinv, _⟩ := frame_ok tr m inp s clip hready
  obtain ⟨bone, hb⟩ := exists_getElem?_of_lt (v := clip.bones) (i := 1) (by omega)
  have hnew := hinv.doneT 1 bone old (by omega) hb (by simpa [startVars, eT] using hold)
  rw [hheld bone _ hb] at hnew
  refine ⟨_, b, hframe, rfl, rfl, rfl, eD, ?_, ?_, ?_, hnew⟩
  · exact hinv.lenT.trans (by simpa [startVars, eT] using hT)
  · exact hinv.lenR.trans (by simpa [startVars, eR] using hR)
  · exact hinv.lenS.trans (by simpa [startVars, eS] using hS)

theorem interpolation_of (s : State) (t d : ℚ) (c : Int) (ht : s.time = t)
    (hc : s.last_animation_change = c) (hd : s.animation_change_duration = d) :
    interpolation s = if c ≠ 0 ∧ (t - (c : ℚ)) / d < 1 then (t - (c : ℚ)) / d else 1 := by
  simp [interpolation, constant, ht, hc, hd]

theorem selection_no_key (inp : Input) (s : State) (h1 : inp.down_1 = false)
    (h2 : inp.down_2 = false) (h3 : inp.down_3 = false) : selection inp s = s := by
  simp [selection, select, h1, h2, h3]

theorem truncToInt_intCast (n : Int) : truncToInt (n : ℚ) = n := by
  unfold truncToInt
  split <;> simp

theorem settled_frame (tr : Trig) (m : GltfModel) (clipB : Animation)
    (hbones : m.bones.map Bone.parent = [-1, 0])
    (hlook : animationsAt m.animations rumba_animation_title = .ok clipB)
    (htracks : clipB.bones.length = 2)
    (hB : ∀ bone t, clipB.bones[1]? = some bone → bone.translation t = ⟨0, 1, 0⟩)
    (inp : Input) (s : State) (hs : Settled s) (hdt : 0 ≤ inp.dt)
    (h1 : inp.down_1 = false) (h2 : inp.down_2 = false) (h3 : inp.down_3 = false) :
    ∃ s' b, frame tr m inp s = .ok (s', b) ∧ Settled s' := by
  have hsel : selection inp (advance inp s) = advance inp s := selection_no_key _ _ h1 h2 h3
  have htitle : (selection inp (advance inp s)).animation_title = rumba_animation_title := by
    rw [hsel, (advance_retained inp s).2.1, hs.title]
  have hchange : (selection inp (advance inp s)).last_animation_change = 10 := by
    rw [hsel, (advance_retained inp s).2.2.1, hs.change]
  have hdur : (selection inp (advance inp s)).animation_change_duration = 2 := by
    rw [hsel, (advance_retained inp s).1, hs.duration]
  have htime : 12 ≤ (selection inp (advance inp s)).time := by
    rw [hsel]
    unfold advance
    split
    · show 12 ≤ s.time + inp.dt
      linarith [hs.time]
    · exact hs.time
  have hw : interpolation (selection inp (advance inp s)) = 1 := by
    rw [interpolation_of _ _ _ _ rfl hchange hdur]
    have : ¬ ((10 : Int) ≠ 0 ∧
        ((selection inp (advance inp s)).time - ((10 : Int) : ℚ)) / 2 < 1) := by
      push_cast
      rintro ⟨-, h⟩
      linarith
    rw [if_neg this]
  obtain ⟨s', b, hframe, e1, e2, e3, e4, e5, e6, e7, e8⟩ :=
    held_frame tr m clipB ⟨0, 1, 0⟩ hbones htracks hB inp s ⟨0, 1, 0⟩
      (by rw [htitle]; exact hlook) hs.lenT hs.lenR hs.lenS hs.held
  refine ⟨s', b, hframe, ⟨e2.trans htitle, e3.trans hchange, e4.trans hs.duration,
    e1 ▸ htime, e5, e6, e7, ?_⟩⟩
  rw [e8, hw]
  simp [lerp]

theorem settled_run (tr : Trig) (m : GltfModel) (clipB : Animation)
    (hbones : m.bones.map Bone.parent = [-1, 0])
    (hlook : animationsAt m.animations rumba_animation_title = .ok clipB)
    (htracks : clipB.bones.length = 2)
    (hB : ∀ bone t, clipB.bones[1]? = some bone → bone.translation t = ⟨0, 1, 0⟩)
    (later : List Input) :
    ∀ s, Settled s →
      (∀ inp ∈ later, 0 ≤ inp.dt ∧ inp.down_1 = false ∧ inp.down_2 = false ∧
        inp.down_3 = false) →
      ∃ s', runFrames tr m later s = .ok s' ∧ Settled s' := by
  induction later with
  | nil => exact fun s hs _ => ⟨s, rfl, hs⟩
  | cons inp rest ih =>
    intro s hs hall
    obtain ⟨hdt, h1, h2, h3⟩ := hall inp (List.mem_cons_self _ _)
    obtain ⟨s1, b1, hframe, hs1⟩ :=
      settled_frame tr m clipB hbones hlook htracks hB inp s hs hdt h1 h2 h3
    obtain ⟨s', hrun, hs'⟩ := ih s1 hs1 (fun i hi => hall i (List.mem_cons_of_mem _ hi))
    exact ⟨s', by simp [runFrames, hframe, Except.bind, hrun], hs'⟩

/-- C6: the end-to-end blend scenario. On a two-bone skeleton (bone 0 root, bone 1 its
child) with `animation_change_duration = 2`, bone 1 retained at translation `(1, 0, 0)` and
the rumba clip holding bone 1 at `(0, 1, 0)` for all time, a frame at `time = 10` with key
`2` down has weight `0` and leaves the retained translation of bone 1 at `(1, 0, 0)`; the
frame at `time = 11` has weight `1/2` and leaves `(1/2, 1/2, 0)`; the frame at `time = 12`
has weight `1` and leaves `(0, 1, 0)`; and after every run of later frames without a
selection key it is still `(0, 1, 0)`. -/
theorem C6_blend_scenario (tr : Trig) (m : GltfModel) (clipB : Animation) (s : State)
    (dt1 : ℚ)
    (hbones : m.bones.map Bone.parent = [-1, 0])
    (hlook : animationsAt m.animations rumba_animation_title = .ok clipB)
    (htracks : clipB.bones.length = 2)
    (hB : ∀ bone t, clipB.bones[1]? = some bone → bone.translation t = ⟨0, 1, 0⟩)
    (hdur : s.animation_change_duration = 2)
    (hT : s.last_animation_translation.length = 2)
    (hR : s.last_animation_rotation.length = 2)
    (hS : s.last_animation_scaling.length = 2)
    (hret : s.last_animation_translation[1]? = some ⟨1, 0, 0⟩)
    (htime : s.time + dt1 = 10) :
    ∃ s1 b1 s2 b2 s3 b3,
      frame tr m ⟨dt1, false, false, true, false⟩ s = .ok (s1, b1) ∧
      s1.time = 10 ∧
      interpolation (selection ⟨dt1, false, false, true, false⟩
        (advance ⟨dt1, false, false, true, false⟩ s)) = 0 ∧
      s1.last_animation_translation[1]? = some ⟨1, 0, 0⟩ ∧
      frame tr m ⟨1, false, false, false, false⟩ s1 = .ok (s2, b2) ∧
      s2.time = 11 ∧
      interpolation (selection ⟨1, false, false, false, false⟩
        (advance ⟨1, false, false, false, false⟩ s1)) = 1 / 2 ∧
      s2.last_animation_translation[1]? = some ⟨1 / 2, 1 / 2, 0⟩ ∧
      frame tr m ⟨1, false, false, false, false⟩ s2 = .ok (s3, b3) ∧
      s3.time = 12 ∧
      interpolation (selection ⟨1, false, false, false, false⟩
        (advance ⟨1, false, false, false, false⟩ s2)) = 1 ∧
      s3.last_animation_translation[1]? = some ⟨0, 1, 0⟩ ∧
      ∀ later : List Input,
        (∀ inp ∈ later, 0 ≤ inp.dt ∧ inp.down_1 = false ∧ inp.down_2 = false ∧
          inp.down_3 = false) →
        ∃ s', runFrames tr m later s3 = .ok s' ∧
          s'.last_animation_translation[1]? = some ⟨0, 1, 0⟩ := by
  -- the frame at time 10, key 2 down
  have a1 : (selection ⟨dt1, false, false, true, false⟩
      (advance ⟨dt1, false, false, true, false⟩ s)).animation_title
      = rumba_animation_title := by
    simp [selection, select, advance]
  have a2 : (selection ⟨dt1, false, false, true, false⟩
      (advance ⟨dt1, false, false, true, false⟩ s)).time = 10 := by
    simp [selection, select, advance, htime]
  have a3 : (selection ⟨dt1, false, false, true, false⟩
      (advance ⟨dt1, false, false, true, false⟩ s)).last_animation_change = 10 := by
    simp only [selection, select, advance, Bool.not_false, if_true, Bool.false_eq_true,
      if_false, htime]
    exact truncToInt_intCast 10
  have a4 : (selection ⟨dt1, false, false, true, false⟩
      (advance ⟨dt1, false, false, true, false⟩ s)).animation_change_duration = 2 := by
    rw [(selection_retained _ _).1, (advance_retained _ _).1, hdur]
  have w1 : interpolation (selection ⟨dt1, false, false, true, false⟩
      (advance ⟨dt1, false, false, true, false⟩ s)) = 0 := by
    rw [interpolation_of _ _ _ _ a2 a3 a4]
    norm_num
  obtain ⟨s1, b1, f1, t1, n1, c1, d1, lT1, lR1, lS1, r1⟩ :=
    held_frame tr m clipB ⟨0, 1, 0⟩ hbones htracks hB ⟨dt1, false, false, true, false⟩ s
      ⟨1, 0, 0⟩ (by rw [a1]; exact hlook) hT hR hS hret
  rw [w1] at r1
  have r1' : s1.last_animation_translation[1]? = some ⟨1, 0, 0⟩ := by
    rw [r1]; simp [lerp]
  -- the frame at time 11
  have hsel1 : selection ⟨1, false, false, false, false⟩
      (advance ⟨1, false, false, false, false⟩ s1)
      = advance ⟨1, false, false, false, false⟩ s1 := selection_no_key _ _ rfl rfl rfl
  have b1' : (selection ⟨1, false, false, false, false⟩
      (advance ⟨1, false, false, false, false⟩ s1)).animation_title
      = rumba_animation_title := by
    rw [hsel1, (advance_retained _ _).2.1, n1, a1]
  have b2' : (selection ⟨1, false, false, false, false⟩
      (advance ⟨1, false, false, false, false⟩ s1)).time = 11 := by
    rw [hsel1]
    simp only [advance, Bool.not_false, if_true]
    rw [t1, a2]
    norm_num
  have b3' : (selection ⟨1, false, false, false, false⟩
      (advance ⟨1, false, false, false, false⟩ s1)).last_animation_change = 10 := by
    rw [hsel1, (advance_retained _ _).2.2.1, c1, a3]
  have b4' : (selection ⟨1, false, false, false, false⟩
      (advance ⟨1, false, false, false, false⟩ s1)).animation_change_duration = 2 := by
    rw [(selection_retained _ _).1, (advance_retained _ _).1, d1, hdur]
  have w2 : interpolation (selection ⟨1, false, false, false, false⟩
      (advance ⟨1, false, false, false, false⟩ s1)) = 1 / 2 := by
    rw [interpolation_of _ _ _ _ b2' b3' b4']
    norm_num
  obtain ⟨s2, b2, f2, t2, n2, c2, d2, lT2, lR2, lS2, r2⟩ :=
    held_frame tr m clipB ⟨0, 1, 0⟩ hbones htracks hB ⟨1, false, false, false, false⟩ s1
      ⟨1, 0, 0⟩ (by rw [b1']; exact hlook) lT1 lR1 lS1 r1'
  rw [w2] at r2
  have r2' : s2.last_animation_translation[1]? = some ⟨1 / 2, 1 / 2, 0⟩ := by
    rw [r2]; simp [lerp]; norm_num
  -- the frame at time 12
  have hsel2 : selection ⟨1, false, false, false, false⟩
      (advance ⟨1, false, false, false, false⟩ s2)
      = advance ⟨1, false, false, false, false⟩ s2 := selection_no_key _ _ rfl rfl rfl
  have c1' : (selection ⟨1, false, false, false, false⟩
      (advance ⟨1, false, false, false, false⟩ s2)).animation_title
      = rumba_animation_title := by
    rw [hsel2, (advance_retained _ _).2.1, n2, b1']
  have c2' : (selection ⟨1, false, false, false, false⟩
      (advance ⟨1, false, false, false, false⟩ s2)).time = 12 := by
    rw [hsel2]
    simp only [advance, Bool.not_false, if_true]
    rw [t2, b2']
    norm_num
  have c3' : (selection ⟨1, false, false, false, false⟩
      (advance ⟨1, false, false, false, false⟩ s2)).last_animation_change = 10 := by
    rw [hsel2, (advance_retained _ _).2.2.1, c2, b3']
  have c4' : (selection ⟨1, false, false, false, false⟩
      (advance ⟨1, false, false, false, false⟩ s2)).animation_change_duration = 2 := by
    rw [(selection_retained _ _).1, (advance_retained _ _).1, d2, d1, hdur]
  have w3 : interpolation (selection ⟨1, false, false, false, false⟩
      (advance ⟨1, false, false, false, false⟩ s2)) = 1 := by
    rw [interpolation_of _ _ _ _ c2' c3' c4']
    norm_num
  obtain ⟨s3, b3, f3, t3, n3, c3, d3, lT3, lR3, lS3, r3⟩ :=
    held_frame tr m clipB ⟨0, 1, 0⟩ hbones htracks hB ⟨1, false, false, false, false⟩ s2
      ⟨1 / 2, 1 / 2, 0⟩ (by rw [c1']; exact hlook) lT2 lR2 lS2 r2'
  rw [w3] at r3
  have r3' : s3.last_animation_translation[1]? = some ⟨0, 1, 0⟩ := by
    rw [r3]; simp [lerp]
  have hsettled : Settled s3 :=
    ⟨n3.trans c1', c3.trans c3', (d3.trans d2).trans (d1.trans hdur),
      le_of_eq (t3.trans c2').symm, lT3, lR3, lS3, r3'⟩
  refine ⟨s1, b1, s2, b2, s3, b3, f1, t1.trans a2, w1, r1', f2, t2.trans b2', w2, r2', f3,
    t3.trans c2', w3, r3', fun later hlater => ?_⟩
  obtain ⟨s', hrun, hs'⟩ :=
    settled_run tr m clipB hbones hlook htracks hB later s3 hsettled hlater
  exact ⟨s', hrun, hs'.held⟩

theorem exampleClip_held (t : Vec3) (bone : BoneAnimation) (τ : ℚ)
    (h : (exampleClip t).bones[1]? = some bone) : bone.translation τ = t := by
  simp only [exampleClip, List.getElem?_cons_succ, List.getElem?_cons_zero,
    Option.some.injEq] at h
  rw [← h]
  rfl

/-- Witness of C6: the scenario on the two-bone example model, started at `time = 9`. -/
theorem C6_blend_scenario_witness :
    ∃ s1 b1 s2 b2 s3 b3,
      frame exampleTrig exampleModel ⟨1, false, false, true, false⟩ scenarioState
        = .ok (s1, b1) ∧
      s1.time = 10 ∧
      interpolation (selection ⟨1, false, false, true, false⟩
        (advance ⟨1, false, false, true, false⟩ scenarioState)) = 0 ∧
      s1.last_animation_translation[1]? = some ⟨1, 0, 0⟩ ∧
      frame exampleTrig exampleModel ⟨1, false, false, false, false⟩ s1 = .ok (s2, b2) ∧
      s2.time = 11 ∧
      interpolation (selection ⟨1, false, false, false, false⟩
        (advance ⟨1, false, false, false, false⟩ s1)) = 1 / 2 ∧
      s2.last_animation_translation[1]? = some ⟨1 / 2, 1 / 2, 0⟩ ∧
      frame exampleTrig exampleModel ⟨1, false, false, false, false⟩ s2 = .ok (s3, b3) ∧
      s3.time = 12 ∧
      interpolation (selection ⟨1, false, false, false, false⟩
        (advance ⟨1, false, false, false, false⟩ s2)) = 1 ∧
      s3.last_animation_translation[1]? = some ⟨0, 1, 0⟩ ∧
      ∀ later : List Input,
        (∀ inp ∈ later, 0 ≤ inp.dt ∧ inp.down_1 = false ∧ inp.down_2 = false ∧
          inp.down_3 = false) →
        ∃ s', runFrames exampleTrig exampleModel later s3 = .ok s' ∧
          s'.last_animation_translation[1]? = some ⟨0, 1, 0⟩ :=
  C6_blend_scenario exampleTrig exampleModel (exampleClip ⟨0, 1, 0⟩) scenarioState 1
    rfl rfl rfl (exampleClip_held ⟨0, 1, 0⟩) rfl rfl rfl rfl rfl
    (by norm_num [scenarioState])

/-- C7 (evaluation of the code at a failing input): the example model plays hip-hop for
one frame (`time = 1`, bone 1 retained at `(1, 0, 0)`); in the next frame, at
`time = 3/2`, key `2` selects rumba. The frame stores `last_animation_change = 1`, its
weight is `1/200`, not `0`, and the retained translation of bone 1 moves to
`(199/200, 1/200, 0)`. -/
theorem C7_switch_frame_weight :
    ∃ s1 b1 s2 b2,
      frame exampleTrig exampleModel exampleInput (init exampleModel) = .ok (s1, b1) ∧
      s1.animation_title = "hip-hop" ∧
      s1.last_animation_translation[1]? = some ⟨1, 0, 0⟩ ∧
      frame exampleTrig exampleModel switchInput s1 = .ok (s2, b2) ∧
      s2.animation_title = "rumba" ∧
      s2.time = 3 / 2 ∧
      s2.last_animation_change = 1 ∧
      interpolation (selection switchInput (advance switchInput s1)) = 1 / 200 ∧
      s2.last_animation_translation[1]? = some ⟨199 / 200, 1 / 200, 0⟩ := by
  obtain ⟨s1, b1, f1, t1, n1, c1, d1, lT1, lR1, lS1, r1⟩ :=
    held_frame exampleTrig exampleModel (exampleClip ⟨1, 0, 0⟩) ⟨1, 0, 0⟩ rfl rfl
      (exampleClip_held ⟨1, 0, 0⟩) exampleInput (init exampleModel) ⟨0, 0, 0⟩ rfl rfl rfl rfl
      rfl
  have w1 : interpolation (selection exampleInput (advance exampleInput (init exampleModel)))
      = 1 := by
    rw [interpolation_of _ _ _ 0 rfl rfl rfl]
    simp
  rw [w1] at r1
  have r1' : s1.last_animation_translation[1]? = some ⟨1, 0, 0⟩ := by
    rw [r1]; simp [lerp]
  have ht1 : s1.time = 1 := by
    rw [t1]; simp [selection, select, advance, exampleInput, init]
  have a1 : (selection switchInput (advance switchInput s1)).animation_title = "rumba" := by
    simp [selection, select, advance, switchInput, rumba_animation_title]
  have a2 : (selection switchInput (advance switchInput s1)).time = 3 / 2 := by
    simp [selection, select, advance, switchInput, ht1]
    norm_num
  have a3 : (selection switchInput (advance switchInput s1)).last_animation_change = 1 := by
    simp only [selection, select, advance, switchInput, Bool.not_false, if_true,
      Bool.false_eq_true, if_false, ht1]
    simp only [truncToInt]
    norm_num
  have a4 : (selection switchInput (advance switchInput s1)).animation_change_duration
      = 100 := by
    rw [(selection_retained _ _).1, (advance_retained _ _).1, d1]
    rfl
  have w2 : interpolation (selection switchInput (advance switchInput s1)) = 1 / 200 := by
    rw [interpolation_of _ _ _ _ a2 a3 a4]
    norm_num
  obtain ⟨s2, b2, f2, t2, n2, c2, d2, lT2, lR2, lS2, r2⟩ :=
    held_frame exampleTrig exampleModel (exampleClip ⟨0, 1, 0⟩) ⟨0, 1, 0⟩ rfl rfl
      (exampleClip_held ⟨0, 1, 0⟩) switchInput s1 ⟨1, 0, 0⟩ (by rw [a1]; rfl) lT1 lR1 lS1 r1'
  rw [w2] at r2
  refine ⟨s1, b1, s2, b2, f1, n1.trans rfl, r1', f2, n2.trans a1, t2.trans a2, c2.trans a3,
    w2, ?_⟩
  rw [r2]
  simp [lerp]
  norm_num

/-- C9 (evaluation of the code at a failing input): with key `2` down in a frame at
`time = 3/2`, the selection step makes rumba the active clip and stores
`last_animation_change = 1`, the time truncated to an `int`, not `3/2`. -/
theorem C9_change_time_truncated :
    (selection ⟨3 / 2, false, false, true, false⟩
      (advance ⟨3 / 2, false, false, true, false⟩ (init exampleModel))).time = 3 / 2 ∧
    (selection ⟨3 / 2, false, false, true, false⟩
      (advance ⟨3 / 2, false, false, true, false⟩ (init exampleModel))).animation_title
      = "rumba" ∧
    (selection ⟨3 / 2, false, false, true, false⟩
      (advance ⟨3 / 2, false, false, true, false⟩
        (init exampleModel))).last_animation_change = 1 ∧
    (((1 : Int) : ℚ) ≠ 3 / 2) := by
  refine ⟨?_, ?_, ?_, by norm_num⟩
  · simp [selection, select, advance, init]
  · simp [selection, select, advance, init, rumba_animation_title]
  · simp only [selection, select, advance, init, Bool.not_false, if_true,
      Bool.false_eq_true, if_false, truncToInt]
    norm_num

/-- C10: the selection step leaves the retained translation, rotation and scale vectors
(and the time and the transition duration) as they were, for every state and every
combination of the keys `1`, `2`, `3`; only the clip title and `last_animation_change`
can differ. -/
theorem C10_selection_frame (inp : Input) (s : State) :
    (selection inp s).last_animation_translation = s.last_animation_translation ∧
    (selection inp s).last_animation_rotation = s.last_animation_rotation ∧
    (selection inp s).last_animation_scaling = s.last_animation_scaling ∧
    (selection inp s).time = s.time ∧
    (selection inp s).animation_change_duration = s.animation_change_duration ∧
    selection inp s = { s with
      animation_title := (selection inp s).animation_title
      last_animation_change := (selection inp s).last_animation_change } := by
  obtain ⟨hd, ht, hT, hR, hS⟩ := selection_retained inp s
  refine ⟨hT, hR, hS, ht, hd, ?_⟩
  cases h1 : inp.down_1 <;> cases h2 : inp.down_2 <;> cases h3 : inp.down_3 <;>
    simp [selection, select, h1, h2, h3]

/-! ## Blending with weight `0` or `1` -/

theorem lerp_zero (x y : Vec3) : lerp x y 0 = x := by
  ext <;> simp [lerp]

theorem lerp_one (x y : Vec3) : lerp x y 1 = y := by
  ext <;> simp [lerp]

theorem lerp_idem (x y : Vec3) (a : ℚ) (h : a = 1 ∨ a = 0) :
    lerp (lerp x y a) y a = lerp x y a := by
  rcases h with rfl | rfl
  · simp [lerp_one]
  · simp [lerp_zero]

/-- With `sin 0 = 0` and `sin (acos c) ≠ 0` on the range of the sine branch, `slerp` with
weight `1` returns its second argument, negated when the dot product is negative. On the
sine branch this is the exact quotient `(sin angle * y) / sin angle`; see `slerp32` for the
same quotient with binary32 rounding. -/
theorem slerp_one (tr : Trig) (hsin0 : tr.sin 0 = 0)
    (hsin : ∀ c, 0 ≤ c → c ≤ 1 - epsilon → tr.sin (tr.acos c) ≠ 0) (x y : Quat) :
    slerp tr x y 1 = if x.dot y < 0 then y.neg else y := by
  unfold slerp
  by_cases hneg : x.dot y < 0
  · simp only [hneg, if_true]
    by_cases hlin : -(x.dot y) > 1 - epsilon
    · simp only [hlin, if_true]
      ext <;> simp [mix]
    · simp only [hlin, if_false]
      have hs := hsin (-(x.dot y)) (by linarith) (by linarith)
      ext <;> simp [Quat.divs, Quat.add, Quat.smul, hsin0, hs]
  · simp only [hneg, if_false]
    by_cases hlin : x.dot y > 1 - epsilon
    · simp only [hlin, if_true]
      ext <;> simp [mix]
    · simp only [hlin, if_false]
      have hs := hsin (x.dot y) (by linarith) (by linarith)
      ext <;> simp [Quat.divs, Quat.add, Quat.smul, hsin0, hs]

/-! ## A frame repeated at the same time -/

/-- Running the bone loop again on the retained vectors it has just produced, with the same
clip, sampling time and a weight of `0` or `1`, gives the same retained translations and
scales again. -/
theorem loopInv_refeed_lerp (tr : Trig) (m : GltfModel) (animation : Animation) (t1 w : ℚ)
    (hw : w = 1 ∨ w = 0) (v0 v v2 : Vars) (hwf : WellFormed m animation v0)
    (hv : LoopInv tr m animation t1 w v0 animation.bones.length v)
    (hv2 : LoopInv tr m animation t1 w
      ⟨v.last_animation_translation, v.last_animation_rotation, v.last_animation_scaling,
        v0.bones⟩ animation.bones.length v2) :
    v2.last_animation_translation = v.last_animation_translation ∧
    v2.last_animation_scaling = v.last_animation_scaling := by
  constructor
  · apply List.ext_getElem?
    intro i
    by_cases hi : i < animation.bones.length
    · have hN : i < m.bones.length := lt_of_lt_of_le hi hwf.tracks
      obtain ⟨bone, hb⟩ := exists_getElem?_of_lt hi
      obtain ⟨old, hold⟩ := exists_getElem?_of_lt (hwf.lenT ▸ hN)
      have h1 := hv.doneT i bone old hi hb hold
      rw [hv2.doneT i bone _ hi hb h1, h1, lerp_idem _ _ _ hw]
    · exact hv2.restT i (Nat.le_of_not_lt hi)
  · apply List.ext_getElem?
    intro i
    by_cases hi : i < animation.bones.length
    · have hN : i < m.bones.length := lt_of_lt_of_le hi hwf.tracks
      obtain ⟨bone, hb⟩ := exists_getElem?_of_lt hi
      obtain ⟨old, hold⟩ := exists_getElem?_of_lt (hwf.lenS ▸ hN)
      have h1 := hv.doneS i bone old hi hb hold
      rw [hv2.doneS i bone _ hi hb h1, h1, lerp_idem _ _ _ hw]
    · exact hv2.restS i (Nat.le_of_not_lt hi)

theorem exampleTrig_sin_zero : exampleTrig.sin 0 = 0 := rfl

theorem exampleTrig_sin_acos (c : ℚ) (_h0 : 0 ≤ c) (h1 : c ≤ 1 - epsilon) :
    exampleTrig.sin (exampleTrig.acos c) ≠ 0 := by
  show (1 - c) ≠ 0
  have : (0 : ℚ) < epsilon := by norm_num [epsilon]
  intro h
  linarith

/-- C8 (counterexample): on the example model, after a first frame of hip-hop and a
switch to rumba at `time = 3/2` (a reachable state with a transition in progress, weight
`1/200`), a paused frame with no selection key down keeps the time at `3/2` and moves the
retained translation of bone 1 from `(199/200, 1/200, 0)` to
`(39601/40000, 399/40000, 0)`. -/
theorem C8_frozen_frame_reblends :
    ∃ s1 b1 s2 b2 s3 b3,
      frame exampleTrig exampleModel exampleInput (init exampleModel) = .ok (s1, b1) ∧
      frame exampleTrig exampleModel switchInput s1 = .ok (s2, b2) ∧
      Reachable exampleTrig exampleModel s2 ∧
      frame exampleTrig exampleModel pausedInput s2 = .ok (s3, b3) ∧
      s3.time = s2.time ∧
      interpolation (selection pausedInput (advance pausedInput s2)) = 1 / 200 ∧
      s2.last_animation_translation[1]? = some ⟨199 / 200, 1 / 200, 0⟩ ∧
      s3.last_animation_translation[1]? = some ⟨39601 / 40000, 399 / 40000, 0⟩ ∧
      s3.last_animation_translation ≠ s2.last_animation_translation := by
  obtain ⟨s1, b1, f1, t1, n1, c1, d1, lT1, lR1, lS1, r1⟩ :=
    held_frame exampleTrig exampleModel (exampleClip ⟨1, 0, 0⟩) ⟨1, 0, 0⟩ rfl rfl
      (exampleClip_held ⟨1, 0, 0⟩) exampleInput (init exampleModel) ⟨0, 0, 0⟩ rfl rfl rfl rfl
      rfl
  have w1 : interpolation (selection exampleInput (advance exampleInput (init exampleModel)))
      = 1 := by
    rw [interpolation_of _ _ _ 0 rfl rfl rfl]
    simp
  rw [w1, lerp_one] at r1
  have ht1 : s1.time = 1 := by
    rw [t1]; simp [selection, select, advance, exampleInput, init]
  have a1 : (selection switchInput (advance switchInput s1)).animation_title = "rumba" := by
    simp [selection, select, advance, switchInput, rumba_animation_title]
  have a2 : (selection switchInput (advance switchInput s1)).time = 3 / 2 := by
    simp [selection, select, advance, switchInput, ht1]
    norm_num
  have a3 : (selection switchInput (advance switchInput s1)).last_animation_change = 1 := by
    simp only [selection, select, advance, switchInput, Bool.not_false, if_true,
      Bool.false_eq_true, if_false, ht1]
    simp only [truncToInt]
    norm_num
  have a4 : (selection switchInput (advance switchInput s1)).animation_change_duration
      = 100 := by
    rw [(selection_retained _ _).1, (advance_retained _ _).1, d1]
    rfl
  have w2 : interpolation (selection switchInput (advance switchInput s1)) = 1 / 200 := by
    rw [interpolation_of _ _ _ _ a2 a3 a4]
    norm_num
  obtain ⟨s2, b2, f2, t2, n2, c2, d2, lT2, lR2, lS2, r2⟩ :=
    held_frame exampleTrig exampleModel (exampleClip ⟨0, 1, 0⟩) ⟨0, 1, 0⟩ rfl rfl
      (exampleClip_held ⟨0, 1, 0⟩) switchInput s1 ⟨1, 0, 0⟩ (by rw [a1]; rfl) lT1 lR1 lS1 r1
  rw [w2] at r2
  have r2' : s2.last_animation_translation[1]? = some ⟨199 / 200, 1 / 200, 0⟩ := by
    rw [r2]
    simp [lerp]
    norm_num
  have hreach : Reachable exampleTrig exampleModel s2 :=
    Reachable.frame switchInput s1 s2 b2
      (Reachable.frame exampleInput (init exampleModel) s1 b1 Reachable.init
        (by norm_num [exampleInput]) f1)
      (by norm_num [switchInput]) f2
  -- the paused frame
  have hsel : selection pausedInput (advance pausedInput s2) = s2 := by
    rw [selection_no_key _ _ rfl rfl rfl]
    simp [advance, pausedInput]
  have w3 : interpolation (selection pausedInput (advance pausedInput s2)) = 1 / 200 := by
    have d2' : s2.animation_change_duration = 100 := d2.trans (d1.trans rfl)
    rw [hsel, interpolation_of _ _ _ _ (t2.trans a2) (c2.trans a3) d2']
    norm_num
  obtain ⟨s3, b3, f3, t3, n3, c3, d3, lT3, lR3, lS3, r3⟩ :=
    held_frame exampleTrig exampleModel (exampleClip ⟨0, 1, 0⟩) ⟨0, 1, 0⟩ rfl rfl
      (exampleClip_held ⟨0, 1, 0⟩) pausedInput s2 ⟨199 / 200, 1 / 200, 0⟩
      (by rw [hsel, n2, a1]; rfl) lT2 lR2 lS2 r2'
  rw [w3] at r3
  have r3' : s3.last_animation_translation[1]? = some ⟨39601 / 40000, 399 / 40000, 0⟩ := by
    rw [r3]
    simp [lerp]
    norm_num
  refine ⟨s1, b1, s2, b2, s3, b3, f1, f2, hreach, f3, by rw [t3, hsel], w3, r2', r3', ?_⟩
  intro h
  rw [h, r2'] at r3'
  simp only [Option.some.injEq, Vec3.mk.injEq] at r3'
  norm_num at r3'

/-- C8 (amended): when the frame before ran with weight `1` or `0`, a following frame
with the time frozen and no selection key down succeeds, keeps the time, the clip and
`last_animation_change`, runs with the same weight, and leaves the retained translation and
the retained scale of every bone as they were; the retained rotation of every bone with a
track is passed through `slerp` once more, toward the same sample with the same weight. -/
theorem C8_frozen_frame_translation_scale (tr : Trig) (m : GltfModel) (inp0 inp : Input)
    (s0 : State) (animation : Animation)
    (hready : FrameReady m (selection inp0 (advance inp0 s0)) animation)
    (hw : interpolation (selection inp0 (advance inp0 s0)) = 1 ∨
      interpolation (selection inp0 (advance inp0 s0)) = 0)
    (hpaused : inp.paused = true)
    (h1 : inp.down_1 = false) (h2 : inp.down_2 = false) (h3 : inp.down_3 = false) :
    ∃ s1 b1 s2 b2, frame tr m inp0 s0 = .ok (s1, b1) ∧ frame tr m inp s1 = .ok (s2, b2) ∧
      s2.time = s1.time ∧ s2.animation_title = s1.animation_title ∧
      s2.last_animation_change = s1.last_animation_change ∧
      (interpolation s1 = 1 ∨ interpolation s1 = 0) ∧
      s2.last_animation_translation = s1.last_animation_translation ∧
      s2.last_animation_scaling = s1.last_animation_scaling ∧
      ∀ (i : Nat) (bone : BoneAnimation) (r1 : Quat), animation.bones[i]? = some bone →
        s1.last_animation_rotation[i]? = some r1 →
        s2.last_animation_rotation[i]? = some
          (slerp tr r1 (bone.rotation (fmod s1.time animation.max_time)) (interpolation s1)) := by
  obtain ⟨v, b, hrun, hfold, hframe, hinv, _⟩ := frame_ok tr m inp0 s0 animation hready
  have hsel : selection inp (advance inp (withVars (selection inp0 (advance inp0 s0)) v))
      = withVars (selection inp0 (advance inp0 s0)) v := by
    rw [selection_no_key _ _ h1 h2 h3]
    simp [advance, hpaused]
  have hready2 : FrameReady m
      (selection inp (advance inp (withVars (selection inp0 (advance inp0 s0)) v)))
      animation := by
    rw [hsel]
    exact
      { clip := hready.clip
        wf :=
          { tracks := hready.wf.tracks
            lenT := hinv.lenT.trans hready.wf.lenT
            lenR := hinv.lenR.trans hready.wf.lenR
            lenS := hinv.lenS.trans hready.wf.lenS
            lenB := hready.wf.lenB
            parents := hready.wf.parents } }
  obtain ⟨v2, b2, hrun2, hfold2, hframe2, hinv2, _⟩ :=
    frame_ok tr m inp (withVars (selection inp0 (advance inp0 s0)) v) animation hready2
  rw [hsel] at hframe2 hinv2
  obtain ⟨hT, hS⟩ := loopInv_refeed_lerp tr m animation _ _ hw _ v v2 hready.wf hinv hinv2
  refine ⟨_, b, _, b2, hframe, hframe2, rfl, rfl, rfl, hw, hT, hS, ?_⟩
  intro i bone r1 hb hr1
  exact hinv2.doneR i bone r1 (lt_length_of_getElem? hb) hb hr1

/-- Witness of C8 (amended): the first frame of the example model runs with weight `1`; a
paused frame after it keeps the time and the retained translations and scales. -/
theorem C8_frozen_frame_translation_scale_witness :
    ∃ s1 b1 s2 b2,
      frame exampleTrig exampleModel exampleInput (init exampleModel) = .ok (s1, b1) ∧
      frame exampleTrig exampleModel pausedInput s1 = .ok (s2, b2) ∧
      s2.time = s1.time ∧ s2.animation_title = s1.animation_title ∧
      s2.last_animation_change = s1.last_animation_change ∧
      (interpolation s1 = 1 ∨ interpolation s1 = 0) ∧
      s2.last_animation_translation = s1.last_animation_translation ∧
      s2.last_animation_scaling = s1.last_animation_scaling ∧
      ∀ (i : Nat) (bone : BoneAnimation) (r1 : Quat),
        (exampleClip ⟨1, 0, 0⟩).bones[i]? = some bone →
        s1.last_animation_rotation[i]? = some r1 →
        s2.last_animation_rotation[i]? = some
          (slerp exampleTrig r1
            (bone.rotation (fmod s1.time (exampleClip ⟨1, 0, 0⟩).max_time))
            (interpolation s1)) :=
  C8_frozen_frame_translation_scale exampleTrig exampleModel exampleInput pausedInput
    (init exampleModel) (exampleClip ⟨1, 0, 0⟩) exampleModel_ready_init
    (Or.inl (by rw [interpolation_of _ _ _ 0 rfl rfl rfl]; simp)) rfl rfl rfl rfl

/-! ## The blend weight as a function of time -/

theorem frame_state (tr : Trig) (m : GltfModel) (inp : Input) (s s' : State)
    (b : List Mat4x3) (h : frame tr m inp s = .ok (s', b)) :
    ∃ v, evalWorld tr m (selection inp (advance inp s)) = .ok v ∧
      inverseBindFold m v.bones = .ok b ∧
      s' = withVars (selection inp (advance inp s)) v := by
  unfold frame at h
  cases hv : evalWorld tr m (selection inp (advance inp s)) with
  | error e => simp [hv, bind, Except.bind] at h
  | ok v =>
    cases hb : inverseBindFold m v.bones with
    | error e => simp [hv, hb, bind, Except.bind] at h
    | ok b' =>
      simp only [hv, hb, bind, Except.bind, pure, Except.pure, Except.ok.injEq,
        Prod.mk.injEq] at h
      exact ⟨v, rfl, by rw [← h.2, hb], h.1.symm⟩

theorem interpolation_eq_min (s : State) (hc : s.last_animation_change ≠ 0) :
    interpolation s = min (constant s) 1 := by
  unfold interpolation
  by_cases h : constant s < 1
  · simp [hc, h, min_eq_left (le_of_lt h)]
  · simp [h, min_eq_right (le_of_not_lt h)]

/-- C11: for a fixed `last_animation_change = c`, not the sentinel `0`, and a fixed
`animation_change_duration = D > 0`, the weight of a state is `min((time - c) / D, 1)`;
it is non-decreasing in the time, and it is `1` exactly when `time - c ≥ D`. -/
theorem C11_weight_monotone (s1 s2 : State) (c : Int) (D : ℚ) (hc : c ≠ 0) (hD : 0 < D)
    (hc1 : s1.last_animation_change = c) (hc2 : s2.last_animation_change = c)
    (hD1 : s1.animation_change_duration = D) (hD2 : s2.animation_change_duration = D)
    (ht : s1.time ≤ s2.time) :
    interpolation s1 = min ((s1.time - (c : ℚ)) / D) 1 ∧
    interpolation s2 = min ((s2.time - (c : ℚ)) / D) 1 ∧
    interpolation s1 ≤ interpolation s2 ∧
    (interpolation s1 = 1 ↔ D ≤ s1.time - (c : ℚ)) ∧
    (interpolation s2 = 1 ↔ D ≤ s2.time - (c : ℚ)) := by
  have e1 : interpolation s1 = min ((s1.time - (c : ℚ)) / D) 1 := by
    rw [interpolation_eq_min s1 (hc1 ▸ hc), constant, hc1, hD1]
  have e2 : interpolation s2 = min ((s2.time - (c : ℚ)) / D) 1 := by
    rw [interpolation_eq_min s2 (hc2 ▸ hc), constant, hc2, hD2]
  have hsat : ∀ t : ℚ, min ((t - (c : ℚ)) / D) 1 = 1 ↔ D ≤ t - (c : ℚ) := by
    intro t
    rw [min_eq_right_iff, le_div_iff₀ hD, one_mul]
  refine ⟨e1, e2, ?_, ?_, ?_⟩
  · rw [e1, e2]
    apply min_le_min_right
    apply div_le_div_of_nonneg_right _ (le_of_lt hD)
    linarith
  · rw [e1]; exact hsat _
  · rw [e2]; exact hsat _

/-- Witness of C11: `c = 1`, `D = 100`, times `3/2` and `2`. -/
theorem C11_weight_monotone_witness :
    interpolation ⟨3 / 2, "rumba", 1, 100, [], [], []⟩ = min ((3 / 2 - ((1 : Int) : ℚ)) / 100) 1 ∧
    interpolation ⟨2, "rumba", 1, 100, [], [], []⟩ = min ((2 - ((1 : Int) : ℚ)) / 100) 1 ∧
    interpolation ⟨3 / 2, "rumba", 1, 100, [], [], []⟩ ≤
      interpolation ⟨2, "rumba", 1, 100, [], [], []⟩ ∧
    (interpolation ⟨3 / 2, "rumba", 1, 100, [], [], []⟩ = 1 ↔
      (100 : ℚ) ≤ 3 / 2 - ((1 : Int) : ℚ)) ∧
    (interpolation ⟨2, "rumba", 1, 100, [], [], []⟩ = 1 ↔ (100 : ℚ) ≤ 2 - ((1 : Int) : ℚ)) :=
  C11_weight_monotone ⟨3 / 2, "rumba", 1, 100, [], [], []⟩ ⟨2, "rumba", 1, 100, [], [], []⟩
    1 100 (by decide) (by norm_num) rfl rfl rfl rfl (by norm_num)

/-! ## The blend weight in reachable states -/

theorem truncToInt_le (q : ℚ) (h : 0 ≤ q) : ((truncToInt q : Int) : ℚ) ≤ q := by
  simp only [truncToInt, h, if_true]
  exact Int.floor_le q

theorem select_change (down : Bool) (title : String) (s : State) :
    (select down title s).last_animation_change = s.last_animation_change ∨
    (select down title s).last_animation_change = truncToInt s.time := by
  cases down <;> simp [select]

theorem selection_change (inp : Input) (s : State) :
    (selection inp s).last_animation_change = s.last_animation_change ∨
    (selection inp s).last_animation_change = truncToInt s.time := by
  unfold selection
  have t1 := (select_retained inp.down_1 hip_hop_animation_title s).2.1
  have t2 := (select_retained inp.down_2 rumba_animation_title
    (select inp.down_1 hip_hop_animation_title s)).2.1
  rcases select_change inp.down_3 flair_animation_title
    (select inp.down_2 rumba_animation_title (select inp.down_1 hip_hop_animation_title s))
    with h3 | h3
  · rcases select_change inp.down_2 rumba_animation_title
      (select inp.down_1 hip_hop_animation_title s) with h2 | h2
    · rcases select_change inp.down_1 hip_hop_animation_title s with h1 | h1
      · exact Or.inl (h3.trans (h2.trans h1))
      · exact Or.inr (h3.trans (h2.trans h1))
    · exact Or.inr (h3.trans (h2.trans (by rw [t1])))
  · exact Or.inr (h3.trans (by rw [t2, t1]))

theorem advance_time (inp : Input) (s : State) (hdt : 0 ≤ inp.dt) :
    s.time ≤ (advance inp s).time := by
  unfold advance
  split
  · show s.time ≤ s.time + inp.dt
    linarith
  · exact le_rfl

/-- The time of a state after time advance and selection is not negative and not before
the recorded change, when this holds before and the frame delta is not negative. -/
theorem selection_advance_bounds (inp : Input) (s : State) (hdt : 0 ≤ inp.dt)
    (h0 : 0 ≤ s.time) (hc : (s.last_animation_change : ℚ) ≤ s.time) :
    0 ≤ (selection inp (advance inp s)).time ∧
    ((selection inp (advance inp s)).last_animation_change : ℚ)
      ≤ (selection inp (advance inp s)).time := by
  have ht : (selection inp (advance inp s)).time = (advance inp s).time :=
    (selection_retained inp (advance inp s)).2.1
  have hadv := advance_time inp s hdt
  have h0' : 0 ≤ (advance inp s).time := le_trans h0 hadv
  refine ⟨ht ▸ h0', ?_⟩
  rw [ht]
  rcases selection_change inp (advance inp s) with h | h
  · rw [h, (advance_retained inp s).2.2.1]
    exact le_trans hc hadv
  · rw [h]
    exact truncToInt_le _ h0'

theorem reachable_bounds (tr : Trig) (m : GltfModel) (s : State) (h : Reachable tr m s) :
    0 ≤ s.time ∧ (s.last_animation_change : ℚ) ≤ s.time := by
  induction h with
  | init => simp [init]
  | frame inp s s' b _ hdt hf ih =>
    obtain ⟨v, _, _, hs'⟩ := frame_state tr m inp s s' b hf
    rw [hs']
    exact selection_advance_bounds inp s hdt ih.1 ih.2

/-- C12: in every reachable state `last_animation_change ≤ time`; and in every frame run
from a reachable state with `dt ≥ 0`, after the selection step
`last_animation_change ≤ time` still holds and the weight of the frame lies in `[0, 1]`. -/
theorem C12_weight_range (tr : Trig) (m : GltfModel) (s : State) (hreach : Reachable tr m s)
    (inp : Input) (hdt : 0 ≤ inp.dt) :
    (s.last_animation_change : ℚ) ≤ s.time ∧
    ((selection inp (advance inp s)).last_animation_change : ℚ)
      ≤ (selection inp (advance inp s)).time ∧
    0 ≤ interpolation (selection inp (advance inp s)) ∧
    interpolation (selection inp (advance inp s)) ≤ 1 := by
  obtain ⟨h0, hc⟩ := reachable_bounds tr m s hreach
  obtain ⟨-, hc'⟩ := selection_advance_bounds inp s hdt h0 hc
  have hd : (selection inp (advance inp s)).animation_change_duration = 100 := by
    rw [(selection_retained inp (advance inp s)).1, (advance_retained inp s).1]
    exact reachable_duration tr m s hreach
  have hconst : 0 ≤ constant (selection inp (advance inp s)) := by
    unfold constant
    rw [hd]
    apply div_nonneg _ (by norm_num)
    linarith
  refine ⟨hc, hc', ?_, ?_⟩
  · unfold interpolation
    split
    · exact hconst
    · norm_num
  · unfold interpolation
    split
    · rename_i h
      exact le_of_lt h.2
    · exact le_rfl

/-- Witness of C12: the first frame, run from the initial state with `dt = 1`. -/
theorem C12_weight_range_witness :
    ((init exampleModel).last_animation_change : ℚ) ≤ (init exampleModel).time ∧
    ((selection exampleInput (advance exampleInput (init exampleModel))).last_animation_change
      : ℚ) ≤ (selection exampleInput (advance exampleInput (init exampleModel))).time ∧
    0 ≤ interpolation (selection exampleInput (advance exampleInput (init exampleModel))) ∧
    interpolation (selection exampleInput (advance exampleInput (init exampleModel))) ≤ 1 :=
  C12_weight_range exampleTrig exampleModel (init exampleModel) Reachable.init exampleInput
    (by norm_num [exampleInput])

/-! ## Unknown clip names -/

theorem index_error {α : Type} (v : List α) (i : Nat) (e : Failure)
    (h : index v i = .error e) : e = .undefined := by
  unfold index at h
  split at h
  · exact absurd h (by simp)
  · simpa using h.symm

theorem indexInt_error {α : Type} (v : List α) (i : Int) (e : Failure)
    (h : indexInt v i = .error e) : e = .undefined := by
  unfold indexInt at h
  split at h
  · exact index_error _ _ e h
  · simpa using h.symm

theorem assign_error {α : Type} (v : List α) (i : Nat) (a : α) (e : Failure)
    (h : assign v i a = .error e) : e = .undefined := by
  unfold assign at h
  split at h
  · exact absurd h (by simp)
  · simpa using h.symm

theorem bind_error {α β : Type} (x : Except Failure α) (f : α → Except Failure β)
    (hx : ∀ e, x = .error e → e = .undefined)
    (hf : ∀ a e, f a = .error e → e = .undefined) :
    ∀ e, x.bind f = .error e → e = .undefined := by
  intro e h
  cases x with
  | error e' =>
    simp only [Except.bind] at h
    exact hx e (by rw [← Except.error.inj h])
  | ok a => exact hf a e h

theorem boneBody_error (tr : Trig) (m : GltfModel) (animation : Animation) (t1 w : ℚ)
    (i : Nat) (v : Vars) : ∀ e, boneBody tr m animation t1 w i v = .error e →
      e = .undefined := by
  unfold boneBody
  refine bind_error _ _ (index_error _ _) fun bone => ?_
  refine bind_error _ _ (index_error _ _) fun oldT => ?_
  refine bind_error _ _ (assign_error _ _ _) fun lat => ?_
  refine bind_error _ _ (index_error _ _) fun oldS => ?_
  refine bind_error _ _ (assign_error _ _ _) fun las => ?_
  refine bind_error _ _ (index_error _ _) fun oldR => ?_
  refine bind_error _ _ (assign_error _ _ _) fun lar => ?_
  refine bind_error _ _ (index_error _ _) fun newT => ?_
  refine bind_error _ _ (index_error _ _) fun newS => ?_
  refine bind_error _ _ (index_error _ _) fun newR => ?_
  refine bind_error _ _ (index_error _ _) fun mbone => ?_
  have hpure : ∀ (x : Mat4) (e : Failure),
      (pure x : Except Failure Mat4) = .error e → e = .undefined :=
    fun x e h => absurd h (by simp [pure, Except.pure])
  have hrest : ∀ (transform : Mat4) (e : Failure),
      (assign v.bones i (toMat4x3 transform)).bind
        (fun bones => (pure ⟨lat, lar, las, bones⟩ : Except Failure Vars)) = .error e →
      e = .undefined :=
    fun transform => bind_error _ _ (assign_error _ _ _) fun bones e h =>
      absurd h (by simp [pure, Except.pure])
  dsimp only
  by_cases hp : mbone.parent = -1
  · simp only [hp, ne_eq, not_true_eq_false, if_false]
    exact bind_error _ _ (hpure _) hrest
  · simp only [hp, ne_eq, not_false_eq_true, if_true]
    refine bind_error _ _ (indexInt_error _ _) fun pb => ?_
    exact bind_error _ _ (hpure _) hrest

theorem foldBody_error (m : GltfModel) (i : Nat) (bones : List Mat4x3) :
    ∀ e, foldBody m i bones = .error e → e = .undefined := by
  unfold foldBody
  refine bind_error _ _ (index_error _ _) fun b => ?_
  exact bind_error _ _ (index_error _ _) fun mbone => assign_error _ _ _

theorem forLoop_error {σ : Type} (body : Nat → σ → Except Failure σ)
    (hbody : ∀ i s e, body i s = .error e → e = .undefined) (n : Nat) (s : σ) :
    ∀ e, forLoop body n s = .error e → e = .undefined := by
  induction n with
  | zero =>
    intro e h
    exact absurd h (by simp [forLoop])
  | succ k ih => exact bind_error _ _ ih fun a => hbody k a

/-- C16: a frame whose clip title, after the selection step, is not a key of
`input_model.animations` fails with the exception of `map::at`: it returns no state and no
matrices, and `main` ends with a failure exit. The failure differs from the one of a
subscript out of range; a lookup of a title that is a key succeeds with the clip stored
under it, and a frame whose title is a key never fails with the exception of `map::at`. -/
theorem C16_unknown_clip (tr : Trig) (m : GltfModel) (inp : Input) (s : State)
    (h : m.animations.lookup (selection inp (advance inp s)).animation_title = none) :
    frame tr m inp s = .error .out_of_range ∧
    mainCatch .out_of_range = .exit_failure ∧
    Failure.out_of_range ≠ Failure.undefined ∧
    (∀ name a, m.animations.lookup name = some a →
      animationsAt m.animations name = .ok a) ∧
    (∀ inp1 s1, m.animations.lookup (selection inp1 (advance inp1 s1)).animation_title ≠ none →
      frame tr m inp1 s1 ≠ .error .out_of_range) := by
  refine ⟨?_, rfl, by decide, ?_, ?_⟩
  · simp [frame, evalWorld, animationsAt, h, bind, Except.bind]
  · intro name a ha
    simp [animationsAt, ha]
  · intro inp1 s1 hne hfail
    cases hl : m.animations.lookup (selection inp1 (advance inp1 s1)).animation_title with
    | none => exact hne hl
    | some a =>
      have hev : ∀ e, evalWorld tr m (selection inp1 (advance inp1 s1)) = .error e →
          e = .undefined := by
        intro e he
        simp only [evalWorld, animationsAt, hl, bind, Except.bind] at he
        exact forLoop_error _ (boneBody_error tr m a _ _) _ _ e he
      have := bind_error (evalWorld tr m (selection inp1 (advance inp1 s1)))
        (fun v => (inverseBindFold m v.bones).bind fun bones =>
          .ok (withVars (selection inp1 (advance inp1 s1)) v, bones))
        hev (fun v => bind_error _ _ (forLoop_error _ (foldBody_error m) _ _)
          fun bones e h => absurd h (by simp)) .out_of_range hfail
      exact absurd this (by decide)

/-- Witness of C16: the example model has no flair clip, and key `3` selects it. -/
theorem C16_unknown_clip_witness :
    frame exampleTrig exampleModel flairInput (init exampleModel) = .error .out_of_range ∧
    mainCatch .out_of_range = .exit_failure ∧
    Failure.out_of_range ≠ Failure.undefined ∧
    (∀ name a, exampleModel.animations.lookup name = some a →
      animationsAt exampleModel.animations name = .ok a) ∧
    (∀ inp1 s1,
      exampleModel.animations.lookup (selection inp1 (advance inp1 s1)).animation_title
        ≠ none →
      frame exampleTrig exampleModel inp1 s1 ≠ .error .out_of_range) :=
  C16_unknown_clip exampleTrig exampleModel flairInput (init exampleModel) rfl

/-! ## Time wrapping -/

theorem fmod_eq_fract (x y : ℚ) (hx : 0 ≤ x) (hy : 0 < y) :
    fmod x y = x - (⌊x / y⌋ : ℚ) * y := by
  have h : 0 ≤ x / y := div_nonneg hx (le_of_lt hy)
  simp [fmod, truncToInt, h]

theorem fmod_bounds (x y : ℚ) (hx : 0 ≤ x) (hy : 0 < y) :
    0 ≤ fmod x y ∧ fmod x y < y ∧ ∃ k : ℕ, x - fmod x y = (k : ℚ) * y := by
  rw [fmod_eq_fract x y hx hy]
  have h : 0 ≤ x / y := div_nonneg hx (le_of_lt hy)
  have hfl : (⌊x / y⌋ : ℚ) ≤ x / y := Int.floor_le _
  have hlt : x / y < (⌊x / y⌋ : ℚ) + 1 := Int.lt_floor_add_one _
  have hxy : x = x / y * y := by field_simp
  refine ⟨?_, ?_, ⟨⌊x / y⌋.toNat, ?_⟩⟩
  · have := mul_le_mul_of_nonneg_right hfl (le_of_lt hy)
    linarith
  · have := mul_lt_mul_of_pos_right hlt hy
    linarith
  · have hk : ((⌊x / y⌋.toNat : ℕ) : ℤ) = ⌊x / y⌋ := Int.toNat_of_nonneg (Int.floor_nonneg.mpr h)
    have hk' : ((⌊x / y⌋.toNat : ℕ) : ℚ) = (⌊x / y⌋ : ℚ) := by exact_mod_cast hk
    rw [hk']
    ring

/-- C17: in a frame whose time is not negative and whose clip has `max_time > 0`, the
sampling time `t1 = fmod(time, max_time)` lies in `[0, max_time)`, `time - t1` is a natural
multiple of `max_time`, and the three samples of every track of the frame are taken at
`t1`. -/
theorem C17_time_wrapping (tr : Trig) (m : GltfModel) (inp : Input) (s : State)
    (animation : Animation)
    (h : FrameReady m (selection inp (advance inp s)) animation)
    (htime : 0 ≤ (selection inp (advance inp s)).time)
    (hD : 0 < animation.max_time) :
    0 ≤ fmod (selection inp (advance inp s)).time animation.max_time ∧
    fmod (selection inp (advance inp s)).time animation.max_time < animation.max_time ∧
    (∃ k : ℕ, (selection inp (advance inp s)).time -
      fmod (selection inp (advance inp s)).time animation.max_time
        = (k : ℚ) * animation.max_time) ∧
    ∃ s' b, frame tr m inp s = .ok (s', b) ∧
      ∀ (i : Nat) (bone : BoneAnimation) (oldT : Vec3) (oldR : Quat) (oldS : Vec3),
        animation.bones[i]? = some bone →
        s.last_animation_translation[i]? = some oldT →
        s.last_animation_rotation[i]? = some oldR →
        s.last_animation_scaling[i]? = some oldS →
        s'.last_animation_translation[i]? = some (lerp oldT
          (bone.translation (fmod (selection inp (advance inp s)).time animation.max_time))
          (interpolation (selection inp (advance inp s)))) ∧
        s'.last_animation_scaling[i]? = some (lerp oldS
          (bone.scale (fmod (selection inp (advance inp s)).time animation.max_time))
          (interpolation (selection inp (advance inp s)))) ∧
        s'.last_animation_rotation[i]? = some (slerp tr oldR
          (bone.rotation (fmod (selection inp (advance inp s)).time animation.max_time))
          (interpolation (selection inp (advance inp s)))) := by
  obtain ⟨b1, b2, b3⟩ := fmod_bounds _ _ htime hD
  refine ⟨b1, b2, b3, ?_⟩
  obtain ⟨v, b, _, _, hframe, hinv, _⟩ := frame_ok tr m inp s animation h
  refine ⟨_, b, hframe, fun i bone oldT oldR oldS hb hT hR hS => ?_⟩
  have hi : i < animation.bones.length := lt_length_of_getElem? hb
  have eT := (selection_retained inp (advance inp s)).2.2.1.trans
    (advance_retained inp s).2.2.2.1
  have eR := (selection_retained inp (advance inp s)).2.2.2.1.trans
    (advance_retained inp s).2.2.2.2.1
  have eS := (selection_retained inp (advance inp s)).2.2.2.2.trans
    (advance_retained inp s).2.2.2.2.2
  refine ⟨hinv.doneT i bone oldT hi hb ?_, hinv.doneS i bone oldS hi hb ?_,
    hinv.doneR i bone oldR hi hb ?_⟩
  · simpa [startVars, eT] using hT
  · simpa [startVars, eS] using hS
  · simpa [startVars, eR] using hR

/-- Witness of C17: the first frame of the example model (`time = 1`, `max_time = 4`). -/
theorem C17_time_wrapping_witness :
    0 ≤ fmod (selection exampleInput (advance exampleInput (init exampleModel))).time
      (exampleClip ⟨1, 0, 0⟩).max_time ∧
    fmod (selection exampleInput (advance exampleInput (init exampleModel))).time
      (exampleClip ⟨1, 0, 0⟩).max_time < (exampleClip ⟨1, 0, 0⟩).max_time ∧
    (∃ k : ℕ, (selection exampleInput (advance exampleInput (init exampleModel))).time -
      fmod (selection exampleInput (advance exampleInput (init exampleModel))).time
        (exampleClip ⟨1, 0, 0⟩).max_time = (k : ℚ) * (exampleClip ⟨1, 0, 0⟩).max_time) ∧
    ∃ s' b, frame exampleTrig exampleModel exampleInput (init exampleModel) = .ok (s', b) ∧
      ∀ (i : Nat) (bone : BoneAnimation) (oldT : Vec3) (oldR : Quat) (oldS : Vec3),
        (exampleClip ⟨1, 0, 0⟩).bones[i]? = some bone →
        (init exampleModel).last_animation_translation[i]? = some oldT →
        (init exampleModel).last_animation_rotation[i]? = some oldR →
        (init exampleModel).last_animation_scaling[i]? = some oldS →
        s'.last_animation_translation[i]? = some (lerp oldT
          (bone.translation
            (fmod (selection exampleInput (advance exampleInput (init exampleModel))).time
              (exampleClip ⟨1, 0, 0⟩).max_time))
          (interpolation (selection exampleInput (advance exampleInput (init exampleModel))))) ∧
        s'.last_animation_scaling[i]? = some (lerp oldS
          (bone.scale
            (fmod (selection exampleInput (advance exampleInput (init exampleModel))).time
              (exampleClip ⟨1, 0, 0⟩).max_time))
          (interpolation (selection exampleInput (advance exampleInput (init exampleModel))))) ∧
        s'.last_animation_rotation[i]? = some (slerp exampleTrig oldR
          (bone.rotation
            (fmod (selection exampleInput (advance exampleInput (init exampleModel))).time
              (exampleClip ⟨1, 0, 0⟩).max_time))
          (interpolation (selection exampleInput (advance exampleInput (init exampleModel))))) :=
  C17_time_wrapping exampleTrig exampleModel exampleInput (init exampleModel)
    (exampleClip ⟨1, 0, 0⟩) exampleModel_ready_init
    (by simp [selection, select, advance, exampleInput, init])
    (by norm_num [exampleClip])

/-! ## The retained pose before the first frame -/

/-- C18 (counterexample): before the first frame the retained scale of bone 0 of the
example model is `(0, 0, 0)`, not `(1, 1, 1)`, and its retained rotation is the zero
quaternion, not the identity. -/
theorem C18_initial_pose_not_bind :
    (init exampleModel).last_animation_scaling[0]? = some ⟨0, 0, 0⟩ ∧
    (init exampleModel).last_animation_scaling[0]? ≠ some ⟨1, 1, 1⟩ ∧
    (init exampleModel).last_animation_rotation[0]? = some ⟨0, 0, 0, 0⟩ ∧
    (init exampleModel).last_animation_rotation[0]? ≠ some ⟨1, 0, 0, 0⟩ := by
  refine ⟨rfl, ?_, rfl, ?_⟩
  · show some (⟨0, 0, 0⟩ : Vec3) ≠ some ⟨1, 1, 1⟩
    simp
  · show some (⟨0, 0, 0, 0⟩ : Quat) ≠ some ⟨1, 0, 0, 0⟩
    simp

/-- C18 (amended): before the first frame each retained vector has one value-initialised
entry per bone: translation `(0, 0, 0)`, scale `(0, 0, 0)` and the zero quaternion as
rotation, for every bone index; the time and `last_animation_change` are `0` and the clip
is hip-hop. -/
theorem C18_initial_pose (m : GltfModel) :
    (init m).last_animation_translation = List.replicate m.bones.length ⟨0, 0, 0⟩ ∧
    (init m).last_animation_scaling = List.replicate m.bones.length ⟨0, 0, 0⟩ ∧
    (init m).last_animation_rotation = List.replicate m.bones.length ⟨0, 0, 0, 0⟩ ∧
    (init m).time = 0 ∧ (init m).last_animation_change = 0 ∧
    (init m).animation_title = "hip-hop" ∧
    ∀ i : Nat, i < m.bones.length →
      (init m).last_animation_translation[i]? = some ⟨0, 0, 0⟩ ∧
      (init m).last_animation_scaling[i]? = some ⟨0, 0, 0⟩ ∧
      (init m).last_animation_rotation[i]? = some ⟨0, 0, 0, 0⟩ := by
  refine ⟨rfl, rfl, rfl, rfl, rfl, rfl, fun i hi => ?_⟩
  simp [init, List.getElem?_replicate, hi]

/-! ## `glm::slerp` at weight `1` in binary32 -/

/-- The integer within `1 / 2` of `q` is the one `roundEven` returns. -/
theorem roundEven_eq (q : ℚ) (n : Int) (h1 : (n : ℚ) - 1 / 2 < q) (h2 : q < n + 1 / 2) :
    roundEven q = n := by
  unfold roundEven
  by_cases hq : (n : ℚ) ≤ q
  · have hf : ⌊q⌋ = n := by
      rw [Int.floor_eq_iff]
      constructor
      · exact hq
      · linarith
    rw [hf, if_pos (by linarith)]
  · push_neg at hq
    have hf : ⌊q⌋ = n - 1 := by
      rw [Int.floor_eq_iff]
      push_cast
      constructor <;> linarith
    rw [hf]
    push_cast
    rw [if_neg (by linarith), if_pos (by linarith)]
    ring

/-- The binary exponent of a positive `q` with `2 ^ e ≤ q < 2 ^ (e + 1)`. -/
theorem log_two_eq (q : ℚ) (e : Int) (hlo : (2 : ℚ) ^ e ≤ q) (hhi : q < (2 : ℚ) ^ (e + 1)) :
    Int.log 2 |q| = e := by
  have hpos : 0 < q := lt_of_lt_of_le (by positivity) hlo
  rw [abs_of_pos hpos]
  have h1 : e ≤ Int.log 2 q :=
    (Int.zpow_le_iff_le_log (by norm_num) hpos).mp (by exact_mod_cast hlo)
  have h2 : Int.log 2 q < e + 1 :=
    (Int.lt_zpow_iff_log_lt (by norm_num) hpos).mp (by exact_mod_cast hhi)
  omega

/-- A positive `q` with `2 ^ e ≤ q < 2 ^ (e + 1)` rounds to `n * 2 ^ (e - 23)` when `n` is
the integer nearest to `q / 2 ^ (e - 23)`. -/
theorem round32_eq (q : ℚ) (e n : Int) (hlo : (2 : ℚ) ^ e ≤ q) (hhi : q < (2 : ℚ) ^ (e + 1))
    (h1 : ((n : ℚ) - 1 / 2) * 2 ^ (e - 23) < q) (h2 : q < ((n : ℚ) + 1 / 2) * 2 ^ (e - 23)) :
    round32 q = n * 2 ^ (e - 23) := by
  have hpos : 0 < q := lt_of_lt_of_le (by positivity) hlo
  have hp : (0 : ℚ) < 2 ^ (e - 23) := by positivity
  unfold round32
  rw [if_neg hpos.ne', log_two_eq q e hlo hhi, roundEven_eq _ n]
  · rw [lt_div_iff₀ hp]; exact h1
  · rw [div_lt_iff₀ hp]; exact h2

theorem round32_zero : round32 0 = 0 := by simp [round32]

/-- A value `n * 2 ^ (e - 23)` with a 24-bit significand `n` is a binary32 value: rounding
leaves it as it is. -/
theorem round32_significand (n e : Int) (h1 : 2 ^ 23 ≤ n) (h2 : n < 2 ^ 24) :
    round32 ((n : ℚ) * 2 ^ (e - 23)) = n * 2 ^ (e - 23) := by
  have hp : (0 : ℚ) < 2 ^ (e - 23) := by positivity
  have h1q : ((2 : ℚ) ^ 23) ≤ n := by exact_mod_cast h1
  have h2q : (n : ℚ) < 2 ^ 24 := by exact_mod_cast h2
  have he : (2 : ℚ) ^ e = 2 ^ 23 * 2 ^ (e - 23) := by
    rw [← zpow_natCast, ← zpow_add₀ (by norm_num)]
    congr 1
    push_cast
    ring
  have he1 : (2 : ℚ) ^ (e + 1) = 2 ^ 24 * 2 ^ (e - 23) := by
    rw [← zpow_natCast, ← zpow_add₀ (by norm_num)]
    congr 1
    push_cast
    ring
  apply round32_eq
  · rw [he]; exact mul_le_mul_of_nonneg_right h1q hp.le
  · rw [he1]; exact mul_lt_mul_of_pos_right h2q hp
  · exact mul_lt_mul_of_pos_right (by linarith) hp
  · exact mul_lt_mul_of_pos_right (by linarith) hp

theorem round32_sample32_w : round32 (16502180 / 2 ^ 24) = 16502180 / 2 ^ 24 := by
  rw [round32_eq _ (-1) 16502180 (by norm_num) (by norm_num) (by norm_num) (by norm_num)]
  norm_num

theorem round32_sample32_x : round32 (12101598 / 2 ^ 26) = 12101598 / 2 ^ 26 := by
  rw [round32_eq _ (-3) 12101598 (by norm_num) (by norm_num) (by norm_num) (by norm_num)]
  norm_num

theorem fsub_one_epsilon : fsub 1 epsilon = 16777214 / 2 ^ 24 := by
  unfold fsub epsilon
  rw [round32_eq _ (-1) 16777214 (by norm_num) (by norm_num) (by norm_num) (by norm_num)]
  norm_num

theorem dot32_one_sample32 : Quat.dot32 ⟨1, 0, 0, 0⟩ sample32 = 16502180 / 2 ^ 24 := by
  simp only [Quat.dot32, sample32, fmul, fadd, one_mul, zero_mul, mul_zero, add_zero,
    round32_zero, round32_sample32_w]

/-- The product `sample32.w * s` in binary32 and its quotient by `s`, for `s = m * 2 ^ -26`
with `m` from `12101583` to `12101590`: the quotient is one unit in the last place above
`sample32.w`. -/
theorem round32_quotient_low (m : Int) (hlo : 12101583 ≤ m) (hhi : m ≤ 12101590) :
    round32 (round32 (round32 (16502180 / 2 ^ 24 * ((m : ℚ) / 2 ^ 26))) / ((m : ℚ) / 2 ^ 26))
      = 16502181 / 2 ^ 24 := by
  have h1 : (12101583 : ℚ) ≤ m := by exact_mod_cast hlo
  have h2 : (m : ℚ) ≤ 12101590 := by exact_mod_cast hhi
  have hm : (0 : ℚ) < m := by linarith
  rw [round32_eq (16502180 / 2 ^ 24 * ((m : ℚ) / 2 ^ 26)) (-3) (m - 198386)
    (by norm_num; linarith) (by norm_num; linarith) (by push_cast; norm_num; linarith)
    (by push_cast; norm_num; linarith)]
  rw [round32_significand (m - 198386) (-3) (by omega) (by omega)]
  have hq : ((m - 198386 : Int) : ℚ) * 2 ^ ((-3 : Int) - 23) / ((m : ℚ) / 2 ^ 26)
      = ((m : ℚ) - 198386) / m := by
    push_cast
    field_simp
    ring
  rw [hq, round32_eq _ (-1) 16502181
    (by rw [le_div_iff₀ hm]; norm_num; linarith)
    (by rw [div_lt_iff₀ hm]; norm_num)
    (by rw [lt_div_iff₀ hm]; norm_num; linarith)
    (by rw [div_lt_iff₀ hm]; norm_num; linarith)]
  norm_num

/-- The same for `m` from `12101591` to `12101599`: the quotient is one unit in the last
place below `sample32.w`. -/
theorem round32_quotient_high (m : Int) (hlo : 12101591 ≤ m) (hhi : m ≤ 12101599) :
    round32 (round32 (round32 (16502180 / 2 ^ 24 * ((m : ℚ) / 2 ^ 26))) / ((m : ℚ) / 2 ^ 26))
      = 16502179 / 2 ^ 24 := by
  have h1 : (12101591 : ℚ) ≤ m := by exact_mod_cast hlo
  have h2 : (m : ℚ) ≤ 12101599 := by exact_mod_cast hhi
  have hm : (0 : ℚ) < m := by linarith
  rw [round32_eq (16502180 / 2 ^ 24 * ((m : ℚ) / 2 ^ 26)) (-3) (m - 198387)
    (by norm_num; linarith) (by norm_num; linarith) (by push_cast; norm_num; linarith)
    (by push_cast; norm_num; linarith)]
  rw [round32_significand (m - 198387) (-3) (by omega) (by omega)]
  have hq : ((m - 198387 : Int) : ℚ) * 2 ^ ((-3 : Int) - 23) / ((m : ℚ) / 2 ^ 26)
      = ((m : ℚ) - 198387) / m := by
    push_cast
    field_simp
    ring
  rw [hq, round32_eq _ (-1) 16502179
    (by rw [le_div_iff₀ hm]; norm_num; linarith)
    (by rw [div_lt_iff₀ hm]; norm_num)
    (by rw [lt_div_iff₀ hm]; norm_num; linarith)
    (by rw [div_lt_iff₀ hm]; norm_num; linarith)]
  norm_num

/-- The value of `slerp32 (1, 0, 0, 0) sample32 1`: the sine branch is taken and every
component of the sample is multiplied by `sin angle` and divided by it again, each operation
rounded. -/
theorem slerp32_one_sample32 (tr : Trig) (h0 : tr.sin 0 = 0)
    (hacos : round32 (tr.acos sample32.w) = tr.acos sample32.w) :
    slerp32 tr ⟨1, 0, 0, 0⟩ sample32 1
      = ⟨round32 (round32 (round32 (16502180 / 2 ^ 24 * tr.sin (tr.acos sample32.w)))
          / tr.sin (tr.acos sample32.w)),
         round32 (round32 (round32 (12101598 / 2 ^ 26 * tr.sin (tr.acos sample32.w)))
          / tr.sin (tr.acos sample32.w)), 0, 0⟩ := by
  have hw : sample32.w = 16502180 / 2 ^ 24 := rfl
  have hx : sample32.x = 12101598 / 2 ^ 26 := rfl
  have hy : sample32.y = 0 := rfl
  have hz : sample32.z = 0 := rfl
  rw [hw] at hacos ⊢
  have hneg : ¬ ((16502180 : ℚ) / 2 ^ 24 < 0) := by norm_num
  have hsine : ¬ ((16502180 : ℚ) / 2 ^ 24 > 16777214 / 2 ^ 24) := by norm_num
  unfold slerp32
  simp only [dot32_one_sample32, fsub_one_epsilon, hneg, hsine, if_false]
  simp only [fmul, fsub, fadd, fdiv, sub_self, zero_mul, mul_zero, one_mul, zero_add,
    zero_div, round32_zero, h0, hacos, hw, hx, hy, hz]

theorem binary32Trig_sin_zero : binary32Trig.sin 0 = 0 := by
  simp only [binary32Trig]
  rw [if_neg (by norm_num)]

theorem binary32Trig_acos : binary32Trig.acos sample32.w = 12168157 / 2 ^ 26 := by
  simp [binary32Trig, sample32]

theorem binary32Trig_sin_acos :
    binary32Trig.sin (binary32Trig.acos sample32.w) = ((12101591 : Int) : ℚ) / 2 ^ 26 := by
  rw [binary32Trig_acos]
  simp [binary32Trig]

theorem binary32Trig_acos_round :
    round32 (binary32Trig.acos sample32.w) = binary32Trig.acos sample32.w := by
  rw [binary32Trig_acos,
    round32_eq _ (-3) 12168157 (by norm_num) (by norm_num) (by norm_num) (by norm_num)]
  norm_num

/-- With the nearest binary32 values of `acos` and `sin`, `slerp32 (1, 0, 0, 0) sample32 1`
is `sample32` with the `w` component one unit in the last place lower. -/
theorem slerp32_binary32Trig :
    slerp32 binary32Trig ⟨1, 0, 0, 0⟩ sample32 1
      = ⟨16502179 / 2 ^ 24, 12101598 / 2 ^ 26, 0, 0⟩ := by
  rw [slerp32_one_sample32 binary32Trig binary32Trig_sin_zero binary32Trig_acos_round,
    binary32Trig_sin_acos, round32_quotient_high 12101591 (by norm_num) (by norm_num)]
  have h1 : round32 (12101598 / 2 ^ 26 * (((12101591 : Int) : ℚ) / 2 ^ 26))
      = 8729016 / 2 ^ 28 := by
    rw [round32_eq _ (-5) 8729016 (by norm_num) (by norm_num) (by norm_num) (by norm_num)]
    norm_num
  have h2 : round32 (8729016 / 2 ^ 28) = 8729016 / 2 ^ 28 := by
    rw [round32_eq _ (-5) 8729016 (by norm_num) (by norm_num) (by norm_num) (by norm_num)]
    norm_num
  have h3 : round32 (8729016 / 2 ^ 28 / (((12101591 : Int) : ℚ) / 2 ^ 26))
      = 12101598 / 2 ^ 26 := by
    rw [round32_eq _ (-3) 12101598 (by norm_num) (by norm_num) (by norm_num) (by norm_num)]
    norm_num
  rw [h1, h2, h3]

/-- The dot product of that result with `sample32` in binary32 is `1`. -/
theorem dot32_refeed :
    Quat.dot32 ⟨16502179 / 2 ^ 24, 12101598 / 2 ^ 26, 0, 0⟩ sample32 = 1 := by
  have h1 : round32 (16502179 / 2 ^ 24 * (16502180 / 2 ^ 24)) = 16231652 / 2 ^ 24 := by
    rw [round32_eq _ (-1) 16231652 (by norm_num) (by norm_num) (by norm_num) (by norm_num)]
    norm_num
  have h2 : round32 (12101598 / 2 ^ 26 * (12101598 / 2 ^ 26)) = 8729021 / 2 ^ 28 := by
    rw [round32_eq _ (-5) 8729021 (by norm_num) (by norm_num) (by norm_num) (by norm_num)]
    norm_num
  have h3 : round32 (16231652 / 2 ^ 24 + 8729021 / 2 ^ 28) = 1 := by
    rw [round32_eq _ (-1) 16777216 (by norm_num) (by norm_num) (by norm_num) (by norm_num)]
    norm_num
  have h4 : round32 1 = 1 := by
    rw [round32_eq _ 0 8388608 (by norm_num) (by norm_num) (by norm_num) (by norm_num)]
    norm_num
  simp only [Quat.dot32, sample32, fmul, fadd, zero_mul, mul_zero, add_zero, round32_zero,
    h1, h2, h3, h4]

/-- In binary32 a second `slerp` at weight `1` toward the same sample does not return the
result of the first: the first takes the sine branch and ends one unit in the last place
off the sample, the second takes the linear branch and returns the sample itself. -/
theorem slerp32_refeed :
    slerp32 binary32Trig (slerp32 binary32Trig ⟨1, 0, 0, 0⟩ sample32 1) sample32 1 = sample32 ∧
    slerp32 binary32Trig ⟨1, 0, 0, 0⟩ sample32 1 ≠ sample32 := by
  rw [slerp32_binary32Trig]
  constructor
  · have hneg : ¬ ((1 : ℚ) < 0) := by norm_num
    have hlin : (1 : ℚ) > 16777214 / 2 ^ 24 := by norm_num
    unfold slerp32
    simp only [dot32_refeed, fsub_one_epsilon, hneg, hlin, if_true, if_false]
    simp only [mix32, fmul, fsub, fadd, sub_self, zero_mul, mul_zero, mul_one, zero_add,
      round32_zero, sample32, round32_sample32_w, round32_sample32_x]
  · intro h
    have := congrArg Quat.w h
    simp only [sample32] at this
    norm_num at this

/-- C13 (counterexample): line 382 in binary32, for a bone whose retained rotation is
`(1, 0, 0, 0)` and whose rotation sample is `sample32`, in a frame with weight `1`. The
dot product is `sample32.w`, so `glm::slerp` takes the sine branch and returns
`(sin angle * sample32.w) / sin angle` as `w` component, which is one unit in the last
place away from `sample32.w`: the retained rotation after the frame is neither the sample
nor its negation. The exact `sin (acos sample32.w)` lies between `12101591 * 2 ^ -26` and
`12101592 * 2 ^ -26`; with the nearest binary32 values of `acos` and `sin` the result is
`(16502179 * 2 ^ -24, sample32.x, 0, 0)`, and it differs from the sample for each of the 17
binary32 values from `12101583 * 2 ^ -26` to `12101599 * 2 ^ -26` in place of the sine. -/
theorem C13_rotation_rounding :
    ((12101591 : ℚ) / 2 ^ 26) ^ 2 < 1 - sample32.w ^ 2 ∧
    1 - sample32.w ^ 2 < ((12101592 : ℚ) / 2 ^ 26) ^ 2 ∧
    slerp32 binary32Trig ⟨1, 0, 0, 0⟩ sample32 1
      = ⟨16502179 / 2 ^ 24, 12101598 / 2 ^ 26, 0, 0⟩ ∧
    ∀ (tr : Trig) (m : Int), tr.sin 0 = 0 →
      round32 (tr.acos sample32.w) = tr.acos sample32.w →
      tr.sin (tr.acos sample32.w) = (m : ℚ) / 2 ^ 26 → 12101583 ≤ m → m ≤ 12101599 →
      slerp32 tr ⟨1, 0, 0, 0⟩ sample32 1 ≠ sample32 ∧
      slerp32 tr ⟨1, 0, 0, 0⟩ sample32 1 ≠ sample32.neg := by
  refine ⟨by norm_num [sample32], by norm_num [sample32], slerp32_binary32Trig, ?_⟩
  intro tr m h0 hacos hsin hlo hhi
  have hw : (slerp32 tr ⟨1, 0, 0, 0⟩ sample32 1).w = 16502181 / 2 ^ 24 ∨
      (slerp32 tr ⟨1, 0, 0, 0⟩ sample32 1).w = 16502179 / 2 ^ 24 := by
    rw [slerp32_one_sample32 tr h0 hacos, hsin]
    by_cases hm : m ≤ 12101590
    · exact Or.inl (round32_quotient_low m hlo hm)
    · exact Or.inr (round32_quotient_high m (by omega) hhi)
  constructor
  · intro h
    rw [h] at hw
    rcases hw with hw | hw <;> norm_num [sample32] at hw
  · intro h
    rw [h] at hw
    rcases hw with hw | hw <;> norm_num [sample32, Quat.neg] at hw

/-! ## Frames with weight `1` -/

/-- C13 (amended): in a frame with weight `1`, whatever the retained pose before it, every
bone with a track ends with the clip samples at the wrapped time as retained translation and
scale and with `slerp (retained rotation before) (rotation sample) 1` as retained rotation,
and its local matrix is `translate(target_t) * toMat4(that rotation) * scale(target_s)`. -/
theorem C13_full_weight_frame (tr : Trig) (m : GltfModel) (inp : Input) (s : State)
    (animation : Animation)
    (h : FrameReady m (selection inp (advance inp s)) animation)
    (hw : interpolation (selection inp (advance inp s)) = 1) :
    ∃ v s' b, evalWorld tr m (selection inp (advance inp s)) = .ok v ∧
      frame tr m inp s = .ok (s', b) ∧
      ∀ (i : Nat) (bone : BoneAnimation) (oldR : Quat), animation.bones[i]? = some bone →
        s.last_animation_rotation[i]? = some oldR →
        s'.last_animation_translation[i]? = some
          (bone.translation (fmod (selection inp (advance inp s)).time animation.max_time)) ∧
        s'.last_animation_scaling[i]? = some
          (bone.scale (fmod (selection inp (advance inp s)).time animation.max_time)) ∧
        s'.last_animation_rotation[i]? = some
          (slerp tr oldR
            (bone.rotation (fmod (selection inp (advance inp s)).time animation.max_time))
            1) ∧
        localOf tr animation (fmod (selection inp (advance inp s)).time animation.max_time)
          (interpolation (selection inp (advance inp s))) (selection inp (advance inp s)) i
          = translate 1
              (bone.translation (fmod (selection inp (advance inp s)).time animation.max_time))
            * toMat4
              (slerp tr oldR
                (bone.rotation (fmod (selection inp (advance inp s)).time animation.max_time))
                1)
            * scale 1
              (bone.scale (fmod (selection inp (advance inp s)).time animation.max_time)) ∧
        ∃ pb, (parentOf m i ≠ -1 → 0 ≤ parentOf m i ∧
            (if (parentOf m i).toNat < i then v.bones[(parentOf m i).toNat]?
              else (startVars m (selection inp (advance inp s))).bones[
                (parentOf m i).toNat]?) = some pb) ∧
          v.bones[i]? = some (worldEntry (parentOf m i) pb
            (translate 1
              (bone.translation (fmod (selection inp (advance inp s)).time animation.max_time))
            * toMat4
              (slerp tr oldR
                (bone.rotation (fmod (selection inp (advance inp s)).time animation.max_time))
                1)
            * scale 1
              (bone.scale
                (fmod (selection inp (advance inp s)).time animation.max_time)))) := by
  obtain ⟨v, b, hrun, _, hframe, hinv, _⟩ := frame_ok tr m inp s animation h
  refine ⟨v, _, b, hrun, hframe, fun i bone oldR hb hold => ?_⟩
  have hR0 : (selection inp (advance inp s)).last_animation_rotation[i]? = some oldR := by
    rw [(selection_retained inp (advance inp s)).2.2.2.1, (advance_retained inp s).2.2.2.2.1]
    exact hold
  have hi : i < animation.bones.length := lt_length_of_getElem? hb
  have hN : i < m.bones.length := lt_of_lt_of_le hi h.wf.tracks
  obtain ⟨oldT, hT0⟩ := exists_getElem?_of_lt (h.wf.lenT ▸ hN)
  obtain ⟨oldS, hS0⟩ := exists_getElem?_of_lt (h.wf.lenS ▸ hN)
  have hT := hinv.doneT i bone oldT hi hb hT0
  have hR := hinv.doneR i bone oldR hi hb hR0
  have hS := hinv.doneS i bone oldS hi hb hS0
  have hloc := localOf_eq tr
    (fmod (selection inp (advance inp s)).time animation.max_time)
    (interpolation (selection inp (advance inp s)))
    (selection inp (advance inp s)) hb hT0 hR0 hS0
  obtain ⟨pb, hread, hval⟩ := loopInv_entry h hinv i hi
  rw [hw, lerp_one] at hT hS
  rw [hw] at hR
  have hL : localOf tr animation (fmod (selection inp (advance inp s)).time animation.max_time)
      (interpolation (selection inp (advance inp s))) (selection inp (advance inp s)) i
      = translate 1
          (bone.translation (fmod (selection inp (advance inp s)).time animation.max_time))
        * toMat4
          (slerp tr oldR
            (bone.rotation (fmod (selection inp (advance inp s)).time animation.max_time)) 1)
        * scale 1
          (bone.scale (fmod (selection inp (advance inp s)).time animation.max_time)) := by
    rw [hloc, hw, lerp_one, lerp_one]
    rfl
  refine ⟨hT, hS, hR, hL, pb, hread, ?_⟩
  rw [hval, hL]

/-- Witness of C13 (amended): the first frame of the example model runs with weight `1`;
bone 1 ends with the samples `(1, 0, 0)` and `(1, 1, 1)` as retained translation and scale
and with `slerp (0, 0, 0, 0) (1, 0, 0, 0) 1` as retained rotation. -/
theorem C13_full_weight_frame_witness :
    ∃ v s' b, evalWorld exampleTrig exampleModel
        (selection exampleInput (advance exampleInput (init exampleModel))) = .ok v ∧
      frame exampleTrig exampleModel exampleInput (init exampleModel) = .ok (s', b) ∧
      s'.last_animation_translation[1]? = some ⟨1, 0, 0⟩ ∧
      s'.last_animation_scaling[1]? = some ⟨1, 1, 1⟩ ∧
      s'.last_animation_rotation[1]? = some (slerp exampleTrig ⟨0, 0, 0, 0⟩ ⟨1, 0, 0, 0⟩ 1) := by
  obtain ⟨v, s', b, hrun, hframe, hall⟩ :=
    C13_full_weight_frame exampleTrig exampleModel exampleInput (init exampleModel)
      (exampleClip ⟨1, 0, 0⟩) exampleModel_ready_init
      (by rw [interpolation_of _ _ _ 0 rfl rfl rfl]; simp)
  obtain ⟨hT, hS, hR, -, -⟩ := hall 1 (constantTrack ⟨1, 0, 0⟩) ⟨0, 0, 0, 0⟩ rfl rfl
  exact ⟨v, s', b, hrun, hframe, hT, hS, hR⟩

/-! ## The identity pose -/

theorem translate_one_zero : translate 1 ⟨0, 0, 0⟩ = 1 := by
  ext r c
  fin_cases r <;> fin_cases c <;> simp [translate]

theorem scale_one_one : scale 1 ⟨1, 1, 1⟩ = 1 := by
  ext r c
  fin_cases r <;> fin_cases c <;> simp [scale]

theorem toMat4_identity : toMat4 ⟨1, 0, 0, 0⟩ = 1 := by
  ext r c
  fin_cases r <;> fin_cases c <;> simp [toMat4, Matrix.vecHead, Matrix.vecTail]

theorem localMatrix_identity : localMatrix ⟨0, 0, 0⟩ ⟨1, 0, 0, 0⟩ ⟨1, 1, 1⟩ = 1 := by
  simp [localMatrix, translate_one_zero, scale_one_one, toMat4_identity]

theorem toMat4x3_one_ne_zero : (toMat4x3 1 : Mat4x3) ≠ 0 := by
  intro h
  have := congrFun (congrFun h 0) 0
  simp [toMat4x3, Matrix.one_apply] at this

theorem shortModel_ready :
    FrameReady shortModel (selection exampleInput (advance exampleInput (init shortModel)))
      shortClip :=
  frameReady_of_lengths shortModel _ _ rfl (by decide) rfl rfl rfl (fun i hi => by
    match i with
    | 0 => left; rfl
    | k + 1 => exact absurd hi (by simp [shortClip]))

/-- C19 (counterexample): the hip-hop clip of the short model has a track for bone 0 only.
The first frame gives bone 0, the root, the identity as world matrix; bone 1, a child of
bone 0 without a track, is left with the zero matrix as world matrix and as skinning
matrix, not with the world matrix of its parent. -/
theorem C19_untracked_bone_is_zero :
    ∃ v s' b, evalWorld exampleTrig shortModel
        (selection exampleInput (advance exampleInput (init shortModel))) = .ok v ∧
      frame exampleTrig shortModel exampleInput (init shortModel) = .ok (s', b) ∧
      parentOf shortModel 1 = 0 ∧
      v.bones[0]? = some (toMat4x3 1) ∧
      v.bones[1]? = some 0 ∧
      v.bones[1]? ≠ v.bones[0]? ∧
      b[1]? = some 0 := by
  obtain ⟨v, b, hrun, _, hframe, hinv, hfinv⟩ :=
    frame_ok exampleTrig shortModel exampleInput (init shortModel) _ shortModel_ready
  have hw : interpolation (selection exampleInput (advance exampleInput (init shortModel)))
      = 1 := by
    rw [interpolation_of _ _ _ 0 rfl rfl rfl]
    simp
  have hrot : slerp exampleTrig ⟨0, 0, 0, 0⟩ ⟨1, 0, 0, 0⟩ 1 = ⟨1, 0, 0, 0⟩ := by
    rw [slerp_one exampleTrig exampleTrig_sin_zero exampleTrig_sin_acos]
    simp [Quat.dot]
  obtain ⟨pb, -, hval⟩ := loopInv_entry shortModel_ready hinv 0 (by decide)
  have hb0 : shortClip.bones[0]? = some (constantTrack ⟨0, 0, 0⟩) := rfl
  have hT0 : (selection exampleInput (advance exampleInput
      (init shortModel))).last_animation_translation[0]? = some ⟨0, 0, 0⟩ := rfl
  have hR0 : (selection exampleInput (advance exampleInput
      (init shortModel))).last_animation_rotation[0]? = some ⟨0, 0, 0, 0⟩ := rfl
  have hS0 : (selection exampleInput (advance exampleInput
      (init shortModel))).last_animation_scaling[0]? = some ⟨0, 0, 0⟩ := rfl
  have hloc := localOf_eq exampleTrig
    (fmod (selection exampleInput (advance exampleInput (init shortModel))).time
      shortClip.max_time)
    (interpolation (selection exampleInput (advance exampleInput (init shortModel))))
    (selection exampleInput (advance exampleInput (init shortModel))) hb0 hT0 hR0 hS0
  have h0 : v.bones[0]? = some (toMat4x3 1) := by
    rw [hval, hloc, hw, lerp_one, lerp_one]
    show some (worldEntry (-1) pb (localMatrix ⟨0, 0, 0⟩
      (slerp exampleTrig ⟨0, 0, 0, 0⟩ ⟨1, 0, 0, 0⟩ 1) ⟨1, 1, 1⟩)) = _
    rw [hrot, localMatrix_identity]
    simp [worldEntry]
  have h1 : v.bones[1]? = some 0 := by
    rw [hinv.restB 1 (by decide)]
    rfl
  have hlenB : v.bones.length = 2 := hinv.lenB.trans shortModel_ready.wf.lenB
  have hb := hfinv.done 1 0 ⟨0, 1⟩ (by omega) h1 rfl
  refine ⟨v, _, b, hrun, hframe, rfl, h0, h1, ?_, by simpa using hb⟩
  rw [h0, h1]
  intro h
  exact toMat4x3_one_ne_zero (Option.some.inj h).symm

/-- C19 (amended): a frame does not visit a bone `i` without a track: `bones[i]` keeps the
zero matrix it was created with as world matrix, the skinning matrix is
`world[i] * inverse_bind_matrix[i]`, which is the zero matrix, and the retained
translation, rotation and scale of bone `i` are left as they were. -/
theorem C19_untracked_bone (tr : Trig) (m : GltfModel) (inp : Input) (s : State)
    (animation : Animation)
    (h : FrameReady m (selection inp (advance inp s)) animation) :
    ∃ v s' b, evalWorld tr m (selection inp (advance inp s)) = .ok v ∧
      frame tr m inp s = .ok (s', b) ∧
      ∀ (i : Nat) (mbone : Bone), animation.bones.length ≤ i → m.bones[i]? = some mbone →
        v.bones[i]? = some 0 ∧
        b[i]? = some ((0 : Mat4x3) * mbone.inverse_bind_matrix) ∧
        b[i]? = some 0 ∧
        s'.last_animation_translation[i]? = s.last_animation_translation[i]? ∧
        s'.last_animation_rotation[i]? = s.last_animation_rotation[i]? ∧
        s'.last_animation_scaling[i]? = s.last_animation_scaling[i]? := by
  obtain ⟨v, b, hrun, _, hframe, hinv, hfinv⟩ := frame_ok tr m inp s animation h
  refine ⟨v, _, b, hrun, hframe, fun i mbone hi hm => ?_⟩
  have hN : i < m.bones.length := lt_length_of_getElem? hm
  have eT := (selection_retained inp (advance inp s)).2.2.1.trans
    (advance_retained inp s).2.2.2.1
  have eR := (selection_retained inp (advance inp s)).2.2.2.1.trans
    (advance_retained inp s).2.2.2.2.1
  have eS := (selection_retained inp (advance inp s)).2.2.2.2.trans
    (advance_retained inp s).2.2.2.2.2
  have hw : v.bones[i]? = some 0 := by
    rw [hinv.restB i hi]
    simp [startVars, List.getElem?_replicate, hN]
  have hlenB : v.bones.length = m.bones.length := hinv.lenB.trans h.wf.lenB
  have hb := hfinv.done i 0 mbone (hlenB ▸ hN) hw hm
  refine ⟨hw, hb, by simpa using hb, ?_, ?_, ?_⟩
  · simpa [startVars, eT, withVars] using hinv.restT i hi
  · simpa [startVars, eR, withVars] using hinv.restR i hi
  · simpa [startVars, eS, withVars] using hinv.restS i hi

/-- Witness of C19 (amended): the first frame of the short model. -/
theorem C19_untracked_bone_witness :
    ∃ v s' b, evalWorld exampleTrig shortModel
        (selection exampleInput (advance exampleInput (init shortModel))) = .ok v ∧
      frame exampleTrig shortModel exampleInput (init shortModel) = .ok (s', b) ∧
      ∀ (i : Nat) (mbone : Bone),
        shortClip.bones.length ≤ i →
        shortModel.bones[i]? = some mbone →
        v.bones[i]? = some 0 ∧
        b[i]? = some ((0 : Mat4x3) * mbone.inverse_bind_matrix) ∧
        b[i]? = some 0 ∧
        s'.last_animation_translation[i]? = (init shortModel).last_animation_translation[i]? ∧
        s'.last_animation_rotation[i]? = (init shortModel).last_animation_rotation[i]? ∧
        s'.last_animation_scaling[i]? = (init shortModel).last_animation_scaling[i]? :=
  C19_untracked_bone exampleTrig shortModel exampleInput (init shortModel)
    shortClip shortModel_ready

/-! ## The order of the bone loop -/

/-- The entry `bones[i]` after `n > i` iterations of the bone loop. -/
theorem loopInv_entry_at {tr : Trig} {m : GltfModel} {animation : Animation} {t1 w : ℚ}
    {s : State} {n : Nat} {v : Vars} (hwf : WellFormed m animation (startVars m s))
    (hn : n ≤ animation.bones.length)
    (hinv : LoopInv tr m animation t1 w (startVars m s) n v)
    (i : Nat) (hi : i < n) :
    ∃ pb, (parentOf m i ≠ -1 → 0 ≤ parentOf m i ∧
        (if (parentOf m i).toNat < i then v.bones[(parentOf m i).toNat]?
          else (startVars m s).bones[(parentOf m i).toNat]?) = some pb) ∧
      v.bones[i]? = some (worldEntry (parentOf m i) pb (localOf tr animation t1 w s i)) := by
  have hi' : i < animation.bones.length := lt_of_lt_of_le hi hn
  have hN : i < m.bones.length := lt_of_lt_of_le hi' hwf.tracks
  obtain ⟨bone, hb⟩ := exists_getElem?_of_lt hi'
  obtain ⟨mbone, hm⟩ := exists_getElem?_of_lt hN
  obtain ⟨oldT, hT0⟩ := exists_getElem?_of_lt (hwf.lenT ▸ hN)
  obtain ⟨oldR, hR0⟩ := exists_getElem?_of_lt (hwf.lenR ▸ hN)
  obtain ⟨oldS, hS0⟩ := exists_getElem?_of_lt (hwf.lenS ▸ hN)
  have hT := hinv.doneT i bone oldT hi hb hT0
  have hR := hinv.doneR i bone oldR hi hb hR0
  have hS := hinv.doneS i bone oldS hi hb hS0
  have hloc := localOf_eq tr t1 w s hb hT0 hR0 hS0
  rw [parentOf_eq hm, hloc]
  exact hinv.doneB i mbone _ _ _ hi hm hT hR hS

/-- The entries of `bones` below `k` are the same after `k` iterations of the bone loop
and after any larger number of iterations: later iterations do not write them. -/
theorem loopInv_prefix {tr : Trig} {m : GltfModel} {animation : Animation} {t1 w : ℚ}
    {s : State} {k n : Nat} {vk v : Vars} (hwf : WellFormed m animation (startVars m s))
    (hkn : k ≤ n) (hn : n ≤ animation.bones.length)
    (hk : LoopInv tr m animation t1 w (startVars m s) k vk)
    (hv : LoopInv tr m animation t1 w (startVars m s) n v) :
    ∀ j, j < k → vk.bones[j]? = v.bones[j]? := by
  intro j
  induction j using Nat.strong_induction_on with
  | _ j ih =>
    intro hj
    obtain ⟨pb1, hread1, hval1⟩ := loopInv_entry_at hwf (le_trans hkn hn) hk j hj
    obtain ⟨pb2, hread2, hval2⟩ := loopInv_entry_at hwf hn hv j (lt_of_lt_of_le hj hkn)
    rw [hval1, hval2]
    by_cases hp : parentOf m j = -1
    · simp [worldEntry, hp]
    · obtain ⟨-, h1⟩ := hread1 hp
      obtain ⟨-, h2⟩ := hread2 hp
      have : pb1 = pb2 := by
        by_cases hlt : (parentOf m j).toNat < j
        · rw [if_pos hlt] at h1 h2
          rw [ih _ hlt (lt_trans hlt hj), h2] at h1
          exact (Option.some.inj h1).symm
        · rw [if_neg hlt] at h1 h2
          rw [h1] at h2
          exact Option.some.inj h2
      rw [this]

theorem reversedModel_ready :
    FrameReady reversedModel
      (selection exampleInput (advance exampleInput (init reversedModel)))
      (exampleClip ⟨1, 0, 0⟩) :=
  frameReady_of_lengths reversedModel _ _ rfl (le_refl 2) rfl rfl rfl (fun i hi => by
    match i with
    | 0 => right; exact ⟨by decide, by decide⟩
    | 1 => left; rfl
    | k + 2 => exact absurd hi (by simp [exampleClip]))

theorem translate_one_apply_zero (t : Vec3) : toMat4x3 (translate 1 t) 0 0 = 1 := by
  simp [toMat4x3, translate, Matrix.one_apply]

/-- C15 (counterexample): in the reversed model bone 0 is a child of bone 1, a well-formed
skeleton listed child first. When the bone loop computes `bones[0]` no iteration has run,
`bones[1]` is still the zero matrix the array was created with, and the loop leaves
`bones[0]` zero, although the world matrix it then computes for the parent, `bones[1]`, is
not zero. -/
theorem C15_child_before_parent :
    ∃ v, evalWorld exampleTrig reversedModel
        (selection exampleInput (advance exampleInput (init reversedModel))) = .ok v ∧
      parentOf reversedModel 0 = 1 ∧
      parentOf reversedModel 1 = -1 ∧
      forLoop (boneBody exampleTrig reversedModel (exampleClip ⟨1, 0, 0⟩)
          (fmod (selection exampleInput (advance exampleInput (init reversedModel))).time
            (exampleClip ⟨1, 0, 0⟩).max_time)
          (interpolation (selection exampleInput (advance exampleInput (init reversedModel)))))
        0 (startVars reversedModel
          (selection exampleInput (advance exampleInput (init reversedModel))))
        = .ok (startVars reversedModel
          (selection exampleInput (advance exampleInput (init reversedModel)))) ∧
      (startVars reversedModel
        (selection exampleInput (advance exampleInput (init reversedModel)))).bones[1]?
        = some 0 ∧
      v.bones[0]? = some 0 ∧
      v.bones[1]? ≠ some 0 := by
  obtain ⟨v, hrun, hinv⟩ := evalWorld_ok exampleTrig reversedModel _ _ reversedModel_ready
  have hw : interpolation (selection exampleInput (advance exampleInput (init reversedModel)))
      = 1 := by
    rw [interpolation_of _ _ _ 0 rfl rfl rfl]
    simp
  have hrot : slerp exampleTrig ⟨0, 0, 0, 0⟩ ⟨1, 0, 0, 0⟩ 1 = ⟨1, 0, 0, 0⟩ := by
    rw [slerp_one exampleTrig exampleTrig_sin_zero exampleTrig_sin_acos]
    simp [Quat.dot]
  -- bone 0 reads the placeholder of bone 1
  obtain ⟨pb0, hread0, hval0⟩ := loopInv_entry reversedModel_ready hinv 0 (by decide)
  have hp0 : parentOf reversedModel 0 = 1 := rfl
  have hpb0 : pb0 = 0 := by
    obtain ⟨-, hr⟩ := hread0 (by rw [hp0]; decide)
    rw [hp0] at hr
    have hr' : (startVars reversedModel (selection exampleInput
        (advance exampleInput (init reversedModel)))).bones[1]? = some pb0 := hr
    exact (Option.some.inj ((show (startVars reversedModel (selection exampleInput
        (advance exampleInput (init reversedModel)))).bones[1]? = some 0 from rfl).symm.trans
      hr')).symm
  have h0 : v.bones[0]? = some 0 := by
    rw [hval0, hpb0, hp0]
    simp [worldEntry]
  -- bone 1 is a root: its world matrix is its local matrix
  obtain ⟨pb1, -, hval1⟩ := loopInv_entry reversedModel_ready hinv 1 (by decide)
  have hb1 : (exampleClip ⟨1, 0, 0⟩).bones[1]? = some (constantTrack ⟨1, 0, 0⟩) := rfl
  have hT1 : (selection exampleInput (advance exampleInput
      (init reversedModel))).last_animation_translation[1]? = some ⟨0, 0, 0⟩ := rfl
  have hR1 : (selection exampleInput (advance exampleInput
      (init reversedModel))).last_animation_rotation[1]? = some ⟨0, 0, 0, 0⟩ := rfl
  have hS1 : (selection exampleInput (advance exampleInput
      (init reversedModel))).last_animation_scaling[1]? = some ⟨0, 0, 0⟩ := rfl
  have hloc := localOf_eq exampleTrig
    (fmod (selection exampleInput (advance exampleInput (init reversedModel))).time
      (exampleClip ⟨1, 0, 0⟩).max_time)
    (interpolation (selection exampleInput (advance exampleInput (init reversedModel))))
    (selection exampleInput (advance exampleInput (init reversedModel))) hb1 hT1 hR1 hS1
  have h1 : v.bones[1]? = some (toMat4x3 (translate 1 ⟨1, 0, 0⟩)) := by
    rw [hval1, hloc, hw, lerp_one, lerp_one]
    show some (worldEntry (-1) pb1 (localMatrix ⟨1, 0, 0⟩
      (slerp exampleTrig ⟨0, 0, 0, 0⟩ ⟨1, 0, 0, 0⟩ 1) ⟨1, 1, 1⟩)) = _
    rw [hrot]
    simp [worldEntry, localMatrix, toMat4_identity, scale_one_one]
  refine ⟨v, hrun, rfl, rfl, rfl, rfl, h0, ?_⟩
  rw [h1]
  intro h
  have := congrFun (congrFun (Option.some.inj h) 0) 0
  rw [translate_one_apply_zero] at this
  simp at this

/-- C15 (amended): on a skeleton whose parent indices are `-1` or below the index of the
bone, for every bone `i` with a track and a parent, the entry `bones[parent(i)]` that the
loop reads when it computes `bones[i]` (the vectors after `i` iterations) has been written
by iteration `parent(i)` of this frame: it is the world matrix of the parent, the one
`bones` holds at the end of the loop, and `bones[i]` is this matrix times the local matrix
of bone `i`. -/
theorem C15_parent_first (tr : Trig) (m : GltfModel) (s : State) (animation : Animation)
    (hready : FrameReady m s animation)
    (hpar : ∀ i, i < animation.bones.length →
      parentOf m i = -1 ∨ (0 ≤ parentOf m i ∧ parentOf m i < (i : ℤ))) :
    ∃ v, evalWorld tr m s = .ok v ∧
      ∀ i, i < animation.bones.length → parentOf m i ≠ -1 →
        ∃ vi pw pb,
          forLoop (boneBody tr m animation (fmod s.time animation.max_time) (interpolation s))
            i (startVars m s) = .ok vi ∧
          vi.bones[(parentOf m i).toNat]? = some pw ∧
          v.bones[(parentOf m i).toNat]? = some pw ∧
          pw = worldEntry (parentOf m (parentOf m i).toNat) pb
            (localOf tr animation (fmod s.time animation.max_time) (interpolation s) s
              (parentOf m i).toNat) ∧
          v.bones[i]? = some (pw *
            localOf tr animation (fmod s.time animation.max_time) (interpolation s) s i) := by
  obtain ⟨v, hrun, hinv⟩ := evalWorld_ok tr m s animation hready
  refine ⟨v, hrun, fun i hi hp => ?_⟩
  have hlt : (parentOf m i).toNat < i := by
    rcases hpar i hi with h | ⟨h0, h1⟩
    · exact absurd h hp
    · omega
  obtain ⟨vi, hruni, hinvi⟩ := forLoop_boneBody tr m animation
    (fmod s.time animation.max_time) (interpolation s) (startVars m s) hready.wf i
    (le_of_lt hi)
  obtain ⟨pb, -, hvalp⟩ := loopInv_entry_at hready.wf (le_of_lt hi) hinvi _ hlt
  have hsame := loopInv_prefix hready.wf (le_of_lt hi) le_rfl hinvi hinv _ hlt
  obtain ⟨pbi, hreadi, hvali⟩ := loopInv_entry hready hinv i hi
  obtain ⟨-, hr⟩ := hreadi hp
  rw [if_pos hlt, ← hsame, hvalp] at hr
  refine ⟨vi, _, pb, hruni, hvalp, hsame ▸ hvalp, rfl, ?_⟩
  rw [hvali, ← Option.some.inj hr]
  simp [worldEntry, hp]

/-- Witness of C15 (amended): the first frame of the example model, listed parent first. -/
theorem C15_parent_first_witness :
    ∃ v, evalWorld exampleTrig exampleModel
        (selection exampleInput (advance exampleInput (init exampleModel))) = .ok v ∧
      ∃ vi pw,
        forLoop (boneBody exampleTrig exampleModel (exampleClip ⟨1, 0, 0⟩)
          (fmod (selection exampleInput (advance exampleInput (init exampleModel))).time
            (exampleClip ⟨1, 0, 0⟩).max_time)
          (interpolation (selection exampleInput (advance exampleInput (init exampleModel)))))
          1 (startVars exampleModel
            (selection exampleInput (advance exampleInput (init exampleModel)))) = .ok vi ∧
        vi.bones[0]? = some pw ∧ v.bones[0]? = some pw := by
  obtain ⟨v, hrun, hall⟩ := C15_parent_first exampleTrig exampleModel
    (selection exampleInput (advance exampleInput (init exampleModel)))
    (exampleClip ⟨1, 0, 0⟩) exampleModel_ready_init exampleModel_parents
  obtain ⟨vi, pw, pb, h1, h2, h3, -, -⟩ := hall 1 (by decide) (by decide)
  exact ⟨v, hrun, vi, pw, h1, h2, h3⟩

/-! ## The walk in 4x4 matrices -/

theorem walk4_length (m : GltfModel) (L : Nat → Mat4) (n : Nat) (world : List Mat4) :
    (walk4 m L n world).length = world.length := by
  induction n with
  | zero => rfl
  | succ k ih => simp [walk4, ih]

theorem walk4_rest (m : GltfModel) (L : Nat → Mat4) (n : Nat) (world : List Mat4) :
    ∀ j, n ≤ j → (walk4 m L n world)[j]? = world[j]? := by
  induction n with
  | zero => exact fun _ _ => rfl
  | succ k ih =>
    intro j hj
    have hne : k ≠ j := by omega
    simp only [walk4]
    rw [List.getElem?_set_ne hne]
    exact ih j (by omega)

theorem getD_eq_of_getElem? {α : Type} (xs ys : List α) (i : Nat) (d : α)
    (h : xs[i]? = ys[i]?) : xs.getD i d = ys.getD i d := by
  simp [List.getD_eq_getElem?_getD, h]

/-- The entry of index `j < n` after `n` steps of the 4x4 walk. -/
theorem walk4_entry (m : GltfModel) (L : Nat → Mat4) (n : Nat) (world : List Mat4) :
    ∀ j, j < n → j < world.length →
      (walk4 m L n world)[j]? = some
        (if parentOf m j ≠ -1 then
          (if (parentOf m j).toNat < j then (walk4 m L n world).getD (parentOf m j).toNat 0
            else world.getD (parentOf m j).toNat 0) * L j
        else L j) := by
  induction n with
  | zero => exact fun j hj => absurd hj (Nat.not_lt_zero _)
  | succ k ih =>
    intro j hj hlen
    rcases Nat.lt_succ_iff_lt_or_eq.mp hj with hlt | rfl
    · have hne : k ≠ j := by omega
      simp only [walk4]
      rw [List.getElem?_set_ne hne, ih j hlt hlen]
      by_cases hp : (parentOf m j).toNat < j
      · have hne' : k ≠ (parentOf m j).toNat := by omega
        simp only [hp, if_true]
        rw [getD_eq_of_getElem? _ (walk4 m L k world) _ 0 (List.getElem?_set_ne hne')]
      · simp only [hp, if_false]
    · have hlen' : j < (walk4 m L j world).length := by rw [walk4_length]; exact hlen
      simp only [walk4]
      rw [List.getElem?_set_self hlen']
      by_cases hp : (parentOf m j).toNat < j
      · have hne' : j ≠ (parentOf m j).toNat := by omega
        simp only [hp, if_true]
        rw [getD_eq_of_getElem? _ (walk4 m L j world) _ 0 (List.getElem?_set_ne hne')]
      · simp only [hp, if_false]
        rw [getD_eq_of_getElem? _ world _ 0 (walk4_rest m L j world _ (Nat.le_of_not_lt hp))]

theorem toMat4x3_zero : toMat4x3 0 = 0 := by
  ext r c
  simp [toMat4x3]

/-- The world matrices the bone loop leaves in 4x3 storage are the top three rows of the
matrices of the 4x4 walk. -/
theorem world_eq_walk4 {tr : Trig} {m : GltfModel} {animation : Animation} {s : State}
    {v : Vars} (hready : FrameReady m s animation)
    (hinv : LoopInv tr m animation (fmod s.time animation.max_time) (interpolation s)
      (startVars m s) animation.bones.length v) :
    ∀ i : Nat, v.bones[i]? =
      ((walk4 m (localOf tr animation (fmod s.time animation.max_time) (interpolation s) s)
        animation.bones.length (List.replicate m.bones.length 0))[i]?).map toMat4x3 := by
  intro i
  induction i using Nat.strong_induction_on with
  | _ i ih =>
    have hlenB : v.bones.length = m.bones.length := hinv.lenB.trans hready.wf.lenB
    by_cases hi : i < animation.bones.length
    · have hN : i < m.bones.length := lt_of_lt_of_le hi hready.wf.tracks
      obtain ⟨pb, hread, hval⟩ := loopInv_entry hready hinv i hi
      rw [hval, walk4_entry m _ _ _ i hi (by simpa using hN)]
      simp only [Option.map_some']
      congr 1
      by_cases hp : parentOf m i = -1
      · simp [worldEntry, hp]
      · obtain ⟨h0, hr⟩ := hread hp
        simp only [worldEntry, hp, ne_eq, not_false_eq_true, if_true]
        by_cases hlt : (parentOf m i).toNat < i
        · simp only [hlt, if_true] at hr ⊢
          rw [ih _ hlt] at hr
          obtain ⟨X, hX, hXpb⟩ := Option.map_eq_some'.mp hr
          rw [List.getD_eq_getElem?_getD, hX, Option.getD_some, toMat4x3_mul, hXpb]
        · simp only [hlt, if_false] at hr ⊢
          have hpN : (parentOf m i).toNat < m.bones.length := by
            have := lt_length_of_getElem? hr
            simpa [startVars] using this
          have hpb : pb = 0 := by
            have hz : (startVars m s).bones[(parentOf m i).toNat]? = some 0 := by
              simp [startVars, List.getElem?_replicate, hpN]
            exact (Option.some.inj (hz.symm.trans hr)).symm
          rw [hpb, List.getD_eq_getElem?_getD]
          simp [List.getElem?_replicate, hpN, toMat4x3_zero]
    · have hge : animation.bones.length ≤ i := Nat.le_of_not_lt hi
      rw [hinv.restB i hge, walk4_rest m _ _ _ i hge]
      by_cases hN : i < m.bones.length
      · simp [startVars, List.getElem?_replicate, hN, toMat4x3_zero]
      · simp [startVars, List.getElem?_replicate, hN]

/-- C20: the bone loop and the inverse bind fold, which store `bones` as 4x3 matrices,
give for every bone the top three rows of what the same walk and fold give in 4x4
matrices: `world[i]` of the 4x4 walk for the entry after the bone loop, and
`world[i] * inverse_bind_matrix[i]` for the matrix handed to the renderer. Multiplying a
stored parent matrix by a local matrix is the same as extending it by the row
`(0, 0, 0, 1)`, multiplying in 4x4 and dropping the bottom row. -/
theorem C20_storage_lossless (tr : Trig) (m : GltfModel) (inp : Input) (s : State)
    (animation : Animation)
    (h : FrameReady m (selection inp (advance inp s)) animation) :
    ∃ v s' b, evalWorld tr m (selection inp (advance inp s)) = .ok v ∧
      frame tr m inp s = .ok (s', b) ∧
      (∀ (pb : Mat4x3) (L : Mat4), toMat4x3 (ofMat4x3 pb * L) = pb * L) ∧
      ∀ i : Nat,
        v.bones[i]? = ((walk4 m
          (localOf tr animation (fmod (selection inp (advance inp s)).time animation.max_time)
            (interpolation (selection inp (advance inp s))) (selection inp (advance inp s)))
          animation.bones.length (List.replicate m.bones.length 0))[i]?).map toMat4x3 ∧
        b[i]? = ((skin4 m (walk4 m
          (localOf tr animation (fmod (selection inp (advance inp s)).time animation.max_time)
            (interpolation (selection inp (advance inp s))) (selection inp (advance inp s)))
          animation.bones.length (List.replicate m.bones.length 0)))[i]?).map toMat4x3 := by
  obtain ⟨v, b, hrun, _, hframe, hinv, hfinv⟩ := frame_ok tr m inp s animation h
  have hworld := world_eq_walk4 h hinv
  have hlenB : v.bones.length = m.bones.length := hinv.lenB.trans h.wf.lenB
  refine ⟨v, _, b, hrun, hframe,
    fun pb L => by rw [toMat4x3_mul, toMat4x3_ofMat4x3], fun i => ⟨hworld i, ?_⟩⟩
  unfold skin4
  rw [List.getElem?_zipWith]
  by_cases hN : i < m.bones.length
  · obtain ⟨mbone, hm⟩ := exists_getElem?_of_lt hN
    obtain ⟨world, hw⟩ := exists_getElem?_of_lt (hlenB ▸ hN)
    have hw' := hw
    rw [hworld i] at hw'
    obtain ⟨X, hX, hXw⟩ := Option.map_eq_some'.mp hw'
    rw [hfinv.done i world mbone (hlenB ▸ hN) hw hm, hX, hm]
    simp [toMat4x3_mul, hXw]
  · have hb : b[i]? = none := by
      apply List.getElem?_eq_none
      rw [hfinv.len, hlenB]
      exact Nat.le_of_not_lt hN
    have hm : m.bones[i]? = none := List.getElem?_eq_none (Nat.le_of_not_lt hN)
    rw [hb, hm]
    cases (walk4 m
      (localOf tr animation (fmod (selection inp (advance inp s)).time animation.max_time)
        (interpolation (selection inp (advance inp s))) (selection inp (advance inp s)))
      animation.bones.length (List.replicate m.bones.length 0))[i]? <;> rfl

/-- Witness of C20: the first frame of the example model. -/
theorem C20_storage_lossless_witness :
    ∃ v s' b, evalWorld exampleTrig exampleModel
        (selection exampleInput (advance exampleInput (init exampleModel))) = .ok v ∧
      frame exampleTrig exampleModel exampleInput (init exampleModel) = .ok (s', b) ∧
      (∀ (pb : Mat4x3) (L : Mat4), toMat4x3 (ofMat4x3 pb * L) = pb * L) ∧
      ∀ i : Nat,
        v.bones[i]? = ((walk4 exampleModel
          (localOf exampleTrig (exampleClip ⟨1, 0, 0⟩)
            (fmod (selection exampleInput (advance exampleInput (init exampleModel))).time
              (exampleClip ⟨1, 0, 0⟩).max_time)
            (interpolation (selection exampleInput (advance exampleInput (init exampleModel))))
            (selection exampleInput (advance exampleInput (init exampleModel))))
          (exampleClip ⟨1, 0, 0⟩).bones.length
          (List.replicate exampleModel.bones.length 0))[i]?).map toMat4x3 ∧
        b[i]? = ((skin4 exampleModel (walk4 exampleModel
          (localOf exampleTrig (exampleClip ⟨1, 0, 0⟩)
            (fmod (selection exampleInput (advance exampleInput (init exampleModel))).time
              (exampleClip ⟨1, 0, 0⟩).max_time)
            (interpolation (selection exampleInput (advance exampleInput (init exampleModel))))
            (selection exampleInput (advance exampleInput (init exampleModel))))
          (exampleClip ⟨1, 0, 0⟩).bones.length
          (List.replicate exampleModel.bones.length 0)))[i]?).map toMat4x3 :=
  C20_storage_lossless exampleTrig exampleModel exampleInput (init exampleModel)
    (exampleClip ⟨1, 0, 0⟩) exampleModel_ready_init

/-! ## The stored change time -/

theorem selection_key_down (inp : Input) (s : State)
    (hkey : inp.down_1 = true ∨ inp.down_2 = true ∨ inp.down_3 = true) :
    (selection inp s).last_animation_change = truncToInt s.time := by
  cases h1 : inp.down_1 <;> cases h2 : inp.down_2 <;> cases h3 : inp.down_3 <;>
    simp [selection, select, h1, h2, h3] at hkey ⊢

theorem truncToInt_eq_zero (q : ℚ) (h0 : 0 ≤ q) (h1 : q < 1) : truncToInt q = 0 := by
  simp only [truncToInt, h0, if_true]
  rw [Int.floor_eq_iff]
  constructor
  · simpa using h0
  · simpa using h1

theorem interpolation_sentinel (s : State) (h : s.last_animation_change = 0) :
    interpolation s = 1 := by
  simp [interpolation, h]

/-- Frames without a selection key keep `last_animation_change = 0`. -/
theorem runFrames_sentinel (tr : Trig) (m : GltfModel) (later : List Input) :
    ∀ s s', s.last_animation_change = 0 →
      (∀ inp ∈ later, inp.down_1 = false ∧ inp.down_2 = false ∧ inp.down_3 = false) →
      runFrames tr m later s = .ok s' → s'.last_animation_change = 0 := by
  induction later with
  | nil =>
    intro s s' h0 _ hrun
    simp only [runFrames, Except.ok.injEq] at hrun
    rw [← hrun]
    exact h0
  | cons inp rest ih =>
    intro s s' h0 hall hrun
    obtain ⟨h1, h2, h3⟩ := hall inp (List.mem_cons_self _ _)
    cases hf : frame tr m inp s with
    | error e => simp [runFrames, hf, Except.bind] at hrun
    | ok r =>
      obtain ⟨s1, b1⟩ := r
      simp only [runFrames, hf, Except.bind] at hrun
      obtain ⟨v, _, _, hs1⟩ := frame_state tr m inp s s1 b1 hf
      have hc : s1.last_animation_change = 0 := by
        rw [hs1]
        show (selection inp (advance inp s)).last_animation_change = 0
        rw [selection_no_key _ _ h1 h2 h3, (advance_retained inp s).2.2.1, h0]
      exact ih s1 s' hc (fun i hi => hall i (List.mem_cons_of_mem _ hi)) hrun

/-- C25: in a frame with a selection key down while `0 ≤ time < 1` the stored
`last_animation_change` is `0`, the value of the never-changed sentinel, and the weight of
the frame is `1`: the retained translation and scale of every bone with a track become the
samples of the selected clip, with no blending. After any run of later frames without a
selection key `last_animation_change` is still `0`, and every frame run from a state with
`last_animation_change = 0` without a selection key has weight `1`. -/
theorem C25_sentinel_collision (tr : Trig) (m : GltfModel) (inp : Input) (s : State)
    (animation : Animation)
    (hkey : inp.down_1 = true ∨ inp.down_2 = true ∨ inp.down_3 = true)
    (h0 : 0 ≤ (advance inp s).time) (h1 : (advance inp s).time < 1)
    (hready : FrameReady m (selection inp (advance inp s)) animation) :
    (selection inp (advance inp s)).last_animation_change = 0 ∧
    interpolation (selection inp (advance inp s)) = 1 ∧
    (∃ s' b, frame tr m inp s = .ok (s', b) ∧ s'.last_animation_change = 0 ∧
      (∀ (i : Nat) (bone : BoneAnimation), animation.bones[i]? = some bone →
        s'.last_animation_translation[i]? = some
          (bone.translation (fmod (selection inp (advance inp s)).time animation.max_time)) ∧
        s'.last_animation_scaling[i]? = some
          (bone.scale (fmod (selection inp (advance inp s)).time animation.max_time))) ∧
      ∀ (later : List Input) (s'' : State),
        (∀ i ∈ later, i.down_1 = false ∧ i.down_2 = false ∧ i.down_3 = false) →
        runFrames tr m later s' = .ok s'' → s''.last_animation_change = 0) ∧
    ∀ (s0 : State) (inp0 : Input), s0.last_animation_change = 0 →
      inp0.down_1 = false → inp0.down_2 = false → inp0.down_3 = false →
      interpolation (selection inp0 (advance inp0 s0)) = 1 := by
  have hc : (selection inp (advance inp s)).last_animation_change = 0 := by
    rw [selection_key_down inp _ hkey]
    exact truncToInt_eq_zero _ h0 h1
  have hw := interpolation_sentinel _ hc
  refine ⟨hc, hw, ?_, ?_⟩
  · obtain ⟨v, b, _, _, hframe, hinv, _⟩ := frame_ok tr m inp s animation hready
    refine ⟨_, b, hframe, hc, fun i bone hb => ?_, fun later s'' hall hrun =>
      runFrames_sentinel tr m later (withVars (selection inp (advance inp s)) v) s'' hc hall
        hrun⟩
    have hi : i < animation.bones.length := lt_length_of_getElem? hb
    have hN : i < m.bones.length := lt_of_lt_of_le hi hready.wf.tracks
    obtain ⟨oldT, hT0⟩ := exists_getElem?_of_lt (hready.wf.lenT ▸ hN)
    obtain ⟨oldS, hS0⟩ := exists_getElem?_of_lt (hready.wf.lenS ▸ hN)
    have hT := hinv.doneT i bone oldT hi hb hT0
    have hS := hinv.doneS i bone oldS hi hb hS0
    rw [hw, lerp_one] at hT hS
    exact ⟨hT, hS⟩
  · intro s0 inp0 hs0 k1 k2 k3
    apply interpolation_sentinel
    rw [selection_no_key _ _ k1 k2 k3, (advance_retained inp0 s0).2.2.1, hs0]

/-- Witness of C25: key `2` is down in the first frame of the example model, at
`time = 1/2`. -/
theorem C25_sentinel_collision_witness :
    (selection switchInput (advance switchInput (init exampleModel))).last_animation_change
      = 0 ∧
    interpolation (selection switchInput (advance switchInput (init exampleModel))) = 1 ∧
    ∃ s' b, frame exampleTrig exampleModel switchInput (init exampleModel) = .ok (s', b) ∧
      s'.last_animation_change = 0 ∧
      s'.last_animation_translation[1]? = some ⟨0, 1, 0⟩ := by
  have hready : FrameReady exampleModel
      (selection switchInput (advance switchInput (init exampleModel)))
      (exampleClip ⟨0, 1, 0⟩) :=
    frameReady_of_lengths exampleModel _ _ rfl (le_refl 2) rfl rfl rfl (fun i hi => by
      match i with
      | 0 => left; rfl
      | 1 => right; exact ⟨by decide, by decide⟩
      | k + 2 => exact absurd hi (by simp [exampleClip]))
  obtain ⟨hc, hw, ⟨s', b, hframe, hc', hall, -⟩, -⟩ :=
    C25_sentinel_collision exampleTrig exampleModel switchInput (init exampleModel)
      (exampleClip ⟨0, 1, 0⟩) (Or.inr (Or.inl rfl))
      (by simp [advance, switchInput, init])
      (by simp [advance, switchInput, init]; norm_num) hready
  exact ⟨hc, hw, s', b, hframe, hc', (hall 1 (constantTrack ⟨0, 1, 0⟩) rfl).1⟩

/-- C26: in every frame run from a reachable state with key `1`, `2` or `3` down,
whatever clip is active, the selection step stores the truncated time in
`last_animation_change`; when the time of the frame is at least `1` the weight of the frame
is `(time - trunc(time)) / 100`, which lies in `[0, 1/100)`. -/
theorem C26_held_selection (tr : Trig) (m : GltfModel) (s : State)
    (hreach : Reachable tr m s) (inp : Input)
    (hkey : inp.down_1 = true ∨ inp.down_2 = true ∨ inp.down_3 = true)
    (ht : 1 ≤ (advance inp s).time) :
    (selection inp (advance inp s)).time = (advance inp s).time ∧
    (selection inp (advance inp s)).last_animation_change = truncToInt (advance inp s).time ∧
    interpolation (selection inp (advance inp s)) =
      ((advance inp s).time - ((truncToInt (advance inp s).time : Int) : ℚ)) / 100 ∧
    0 ≤ interpolation (selection inp (advance inp s)) ∧
    interpolation (selection inp (advance inp s)) < 1 / 100 := by
  have htime : (selection inp (advance inp s)).time = (advance inp s).time :=
    (selection_retained inp (advance inp s)).2.1
  have hc := selection_key_down inp (advance inp s) hkey
  have hd : (selection inp (advance inp s)).animation_change_duration = 100 := by
    rw [(selection_retained inp (advance inp s)).1, (advance_retained inp s).1]
    exact reachable_duration tr m s hreach
  have h0 : (0 : ℚ) ≤ (advance inp s).time := by linarith
  have hfloor : truncToInt (advance inp s).time = ⌊(advance inp s).time⌋ := by
    simp [truncToInt, h0]
  have hle : ((⌊(advance inp s).time⌋ : Int) : ℚ) ≤ (advance inp s).time := Int.floor_le _
  have hlt : (advance inp s).time < ((⌊(advance inp s).time⌋ : Int) : ℚ) + 1 :=
    Int.lt_floor_add_one _
  have hne : truncToInt (advance inp s).time ≠ 0 := by
    rw [hfloor]
    have : (1 : Int) ≤ ⌊(advance inp s).time⌋ := Int.le_floor.mpr (by simpa using ht)
    omega
  have hw : interpolation (selection inp (advance inp s)) =
      ((advance inp s).time - ((truncToInt (advance inp s).time : Int) : ℚ)) / 100 := by
    rw [interpolation_of _ _ _ _ htime hc hd, if_pos]
    refine ⟨hne, ?_⟩
    rw [hfloor]
    linarith
  refine ⟨htime, hc, hw, ?_, ?_⟩
  · rw [hw, hfloor]
    apply div_nonneg _ (by norm_num)
    linarith
  · rw [hw, hfloor]
    linarith

/-- Witness of C26: key `2` down in a first frame with `dt = 3/2`. -/
theorem C26_held_selection_witness :
    (selection ⟨3 / 2, false, false, true, false⟩
      (advance ⟨3 / 2, false, false, true, false⟩ (init exampleModel))).time
      = (advance ⟨3 / 2, false, false, true, false⟩ (init exampleModel)).time ∧
    (selection ⟨3 / 2, false, false, true, false⟩
      (advance ⟨3 / 2, false, false, true, false⟩
        (init exampleModel))).last_animation_change
      = truncToInt (advance ⟨3 / 2, false, false, true, false⟩ (init exampleModel)).time ∧
    interpolation (selection ⟨3 / 2, false, false, true, false⟩
      (advance ⟨3 / 2, false, false, true, false⟩ (init exampleModel))) =
      ((advance ⟨3 / 2, false, false, true, false⟩ (init exampleModel)).time -
        ((truncToInt (advance ⟨3 / 2, false, false, true, false⟩
          (init exampleModel)).time : Int) : ℚ)) / 100 ∧
    0 ≤ interpolation (selection ⟨3 / 2, false, false, true, false⟩
      (advance ⟨3 / 2, false, false, true, false⟩ (init exampleModel))) ∧
    interpolation (selection ⟨3 / 2, false, false, true, false⟩
      (advance ⟨3 / 2, false, false, true, false⟩ (init exampleModel))) < 1 / 100 :=
  C26_held_selection exampleTrig exampleModel (init exampleModel) Reachable.init
    ⟨3 / 2, false, false, true, false⟩ (Or.inr (Or.inl rfl))
    (by simp [advance, init]; norm_num)

/-! ## Totality of a frame -/

theorem bind_ok {α β : Type} (x : Except Failure α) (f : α → Except Failure β) (b : β)
    (h : x.bind f = .ok b) : ∃ a, x = .ok a ∧ f a = .ok b := by
  cases x with
  | error e => simp [Except.bind] at h
  | ok a => exact ⟨a, rfl, h⟩

theorem assign_length {α : Type} (v l : List α) (i : Nat) (a : α)
    (h : assign v i a = .ok l) : l.length = v.length := by
  unfold assign at h
  split at h
  · rw [← Except.ok.inj h]
    simp
  · exact absurd h (by simp)

/-- An iteration of the bone loop that succeeds keeps the sizes of the four vectors. -/
theorem boneBody_lengths (tr : Trig) (m : GltfModel) (animation : Animation) (t1 w : ℚ)
    (i : Nat) (v v' : Vars) (h : boneBody tr m animation t1 w i v = .ok v') :
    v'.last_animation_translation.length = v.last_animation_translation.length ∧
    v'.last_animation_rotation.length = v.last_animation_rotation.length ∧
    v'.last_animation_scaling.length = v.last_animation_scaling.length ∧
    v'.bones.length = v.bones.length := by
  unfold boneBody at h
  obtain ⟨bone, -, h⟩ := bind_ok _ _ _ h
  obtain ⟨oldT, -, h⟩ := bind_ok _ _ _ h
  obtain ⟨lat, hlat, h⟩ := bind_ok _ _ _ h
  obtain ⟨oldS, -, h⟩ := bind_ok _ _ _ h
  obtain ⟨las, hlas, h⟩ := bind_ok _ _ _ h
  obtain ⟨oldR, -, h⟩ := bind_ok _ _ _ h
  obtain ⟨lar, hlar, h⟩ := bind_ok _ _ _ h
  obtain ⟨newT, -, h⟩ := bind_ok _ _ _ h
  obtain ⟨newS, -, h⟩ := bind_ok _ _ _ h
  obtain ⟨newR, -, h⟩ := bind_ok _ _ _ h
  obtain ⟨mbone, -, h⟩ := bind_ok _ _ _ h
  have hrest : ∀ transform : Mat4,
      (assign v.bones i (toMat4x3 transform)).bind
        (fun bones => (pure ⟨lat, lar, las, bones⟩ : Except Failure Vars)) = .ok v' →
      v'.last_animation_translation.length = v.last_animation_translation.length ∧
      v'.last_animation_rotation.length = v.last_animation_rotation.length ∧
      v'.last_animation_scaling.length = v.last_animation_scaling.length ∧
      v'.bones.length = v.bones.length := by
    intro transform hr
    obtain ⟨bones, hbones, hr⟩ := bind_ok _ _ _ hr
    simp only [pure, Except.pure, Except.ok.injEq] at hr
    rw [← hr]
    exact ⟨assign_length _ _ _ _ hlat, assign_length _ _ _ _ hlar,
      assign_length _ _ _ _ hlas, assign_length _ _ _ _ hbones⟩
  dsimp only at h
  by_cases hp : mbone.parent = -1
  · simp only [hp, ne_eq, not_true_eq_false, if_false] at h
    obtain ⟨transform, -, h⟩ := bind_ok _ _ _ h
    exact hrest transform h
  · simp only [hp, ne_eq, not_false_eq_true, if_true] at h
    obtain ⟨pb, -, h⟩ := bind_ok _ _ _ h
    obtain ⟨transform, -, h⟩ := bind_ok _ _ _ h
    exact hrest transform h

theorem forLoop_boneBody_lengths (tr : Trig) (m : GltfModel) (animation : Animation)
    (t1 w : ℚ) (n : Nat) : ∀ v v', forLoop (boneBody tr m animation t1 w) n v = .ok v' →
      v'.last_animation_translation.length = v.last_animation_translation.length ∧
      v'.last_animation_rotation.length = v.last_animation_rotation.length ∧
      v'.last_animation_scaling.length = v.last_animation_scaling.length ∧
      v'.bones.length = v.bones.length := by
  induction n with
  | zero =>
    intro v v' h
    simp only [forLoop, Except.ok.injEq] at h
    rw [← h]
    exact ⟨rfl, rfl, rfl, rfl⟩
  | succ k ih =>
    intro v v' h
    obtain ⟨vk, hk, hstep⟩ := bind_ok _ _ _ h
    obtain ⟨a1, a2, a3, a4⟩ := ih v vk hk
    obtain ⟨b1, b2, b3, b4⟩ := boneBody_lengths tr m animation t1 w k vk v' hstep
    exact ⟨b1.trans a1, b2.trans a2, b3.trans a3, b4.trans a4⟩

/-- In every reachable state the three retained vectors have one entry per bone. -/
theorem reachable_lengths (tr : Trig) (m : GltfModel) (s : State) (h : Reachable tr m s) :
    s.last_animation_translation.length = m.bones.length ∧
    s.last_animation_rotation.length = m.bones.length ∧
    s.last_animation_scaling.length = m.bones.length := by
  induction h with
  | init => simp [init]
  | frame inp s s' b _ _ hf ih =>
    obtain ⟨v, hrun, _, hs'⟩ := frame_state tr m inp s s' b hf
    unfold evalWorld at hrun
    obtain ⟨animation, _, hrun⟩ := bind_ok _ _ _ hrun
    obtain ⟨a1, a2, a3, _⟩ := forLoop_boneBody_lengths tr m animation _ _ _ _ _ hrun
    have eT := (selection_retained inp (advance inp s)).2.2.1.trans
      (advance_retained inp s).2.2.2.1
    have eR := (selection_retained inp (advance inp s)).2.2.2.1.trans
      (advance_retained inp s).2.2.2.2.1
    have eS := (selection_retained inp (advance inp s)).2.2.2.2.trans
      (advance_retained inp s).2.2.2.2.2
    rw [hs']
    refine ⟨?_, ?_, ?_⟩
    · exact a1.trans (by simp [startVars, eT, ih.1])
    · exact a2.trans (by simp [startVars, eR, ih.2.1])
    · exact a3.trans (by simp [startVars, eS, ih.2.2])

/-- C22: a frame run from a reachable state (the retained vectors have one entry per bone)
whose clip title, after the selection step, is a key of the store, whose clip has at most
one track per bone, and on a skeleton whose parent indices are `-1` or in `[0, N)`,
succeeds: no subscript is out of range and no exception is raised; it returns one matrix
per bone and retained vectors with one entry per bone. -/
theorem C22_frame_total (tr : Trig) (m : GltfModel) (s : State)
    (hreach : Reachable tr m s) (inp : Input) (animation : Animation)
    (hclip : m.animations.lookup (selection inp (advance inp s)).animation_title
      = some animation)
    (htracks : animation.bones.length ≤ m.bones.length)
    (hpar : ∀ (i : Nat) (mbone : Bone), m.bones[i]? = some mbone →
      mbone.parent = -1 ∨ (0 ≤ mbone.parent ∧ mbone.parent < (m.bones.length : ℤ))) :
    ∃ s' b, frame tr m inp s = .ok (s', b) ∧
      b.length = m.bones.length ∧
      s'.last_animation_translation.length = m.bones.length ∧
      s'.last_animation_rotation.length = m.bones.length ∧
      s'.last_animation_scaling.length = m.bones.length := by
  obtain ⟨lT, lR, lS⟩ := reachable_lengths tr m s hreach
  have eT := (selection_retained inp (advance inp s)).2.2.1.trans
    (advance_retained inp s).2.2.2.1
  have eR := (selection_retained inp (advance inp s)).2.2.2.1.trans
    (advance_retained inp s).2.2.2.2.1
  have eS := (selection_retained inp (advance inp s)).2.2.2.2.trans
    (advance_retained inp s).2.2.2.2.2
  have hready : FrameReady m (selection inp (advance inp s)) animation :=
    frameReady_of_lengths m _ animation (by simp [animationsAt, hclip]) htracks
      (by rw [eT, lT]) (by rw [eR, lR]) (by rw [eS, lS]) (fun i hi => by
        obtain ⟨mbone, hm⟩ := exists_getElem?_of_lt (lt_of_lt_of_le hi htracks)
        rw [parentOf_eq hm]
        rcases hpar i mbone hm with h | ⟨h0, h1⟩
        · exact Or.inl h
        · exact Or.inr ⟨h0, by omega⟩)
  obtain ⟨v, b, _, _, hframe, hinv, hfinv⟩ := frame_ok tr m inp s animation hready
  exact ⟨_, b, hframe, hfinv.len.trans (hinv.lenB.trans hready.wf.lenB),
    hinv.lenT.trans hready.wf.lenT, hinv.lenR.trans hready.wf.lenR,
    hinv.lenS.trans hready.wf.lenS⟩

/-- Witness of C22: the first frame of the example model. -/
theorem C22_frame_total_witness :
    ∃ s' b, frame exampleTrig exampleModel exampleInput (init exampleModel) = .ok (s', b) ∧
      b.length = exampleModel.bones.length ∧
      s'.last_animation_translation.length = exampleModel.bones.length ∧
      s'.last_animation_rotation.length = exampleModel.bones.length ∧
      s'.last_animation_scaling.length = exampleModel.bones.length :=
  C22_frame_total exampleTrig exampleModel (init exampleModel) Reachable.init exampleInput
    (exampleClip ⟨1, 0, 0⟩) rfl (le_refl 2) (fun i mbone hm => by
      match i with
      | 0 =>
        simp only [exampleModel, List.getElem?_cons_zero, Option.some.injEq] at hm
        rw [← hm]
        left; rfl
      | 1 =>
        simp only [exampleModel, List.getElem?_cons_succ, List.getElem?_cons_zero,
          Option.some.injEq] at hm
        rw [← hm]
        right; exact ⟨by decide, by decide⟩
      | k + 2 => simp [exampleModel] at hm)

/-! ## The upload of the matrices -/

/-- C21: the upload hands the renderer `100` matrices whenever it is defined. In a frame on
a skeleton of `N ≥ 100` bones the frame and the upload succeed (a skeleton of more than
`100` bones is not rejected), the matrices handed over are the skinning matrices
`world[i] * inverse_bind_matrix[i]` of the bones `0, ..., 99` in index order, and nothing
of the bones from `100` on is handed over. -/
theorem C21_upload_capacity (tr : Trig) (m : GltfModel) (inp : Input) (s : State)
    (animation : Animation)
    (h : FrameReady m (selection inp (advance inp s)) animation)
    (hN : 100 ≤ m.bones.length) :
    uploadCount = 100 ∧
    (∀ bones u, upload bones = .ok u → u.length = 100 ∧ u = bones.take 100) ∧
    ∃ v s' b u, evalWorld tr m (selection inp (advance inp s)) = .ok v ∧
      frame tr m inp s = .ok (s', b) ∧ b.length = m.bones.length ∧
      upload b = .ok u ∧ u.length = 100 ∧
      (∀ i : Nat, i < 100 → ∃ world mbone, v.bones[i]? = some world ∧
        m.bones[i]? = some mbone ∧ b[i]? = some (world * mbone.inverse_bind_matrix) ∧
        u[i]? = some (world * mbone.inverse_bind_matrix)) ∧
      ∀ i : Nat, 100 ≤ i → u[i]? = none := by
  refine ⟨rfl, ?_, ?_⟩
  · intro bones u hu
    unfold upload at hu
    split at hu
    · rename_i hle
      rw [← Except.ok.inj hu]
      exact ⟨by simpa [uploadCount] using hle, rfl⟩
    · exact absurd hu (by simp)
  · obtain ⟨v, b, hrun, _, hframe, hinv, hfinv⟩ := frame_ok tr m inp s animation h
    have hlenB : v.bones.length = m.bones.length := hinv.lenB.trans h.wf.lenB
    have hlenb : b.length = m.bones.length := hfinv.len.trans hlenB
    have hup : upload b = .ok (b.take 100) := by
      simp [upload, uploadCount, hlenb, hN]
    have hlen : (b.take 100).length = 100 := by
      simp [hlenb, hN]
    refine ⟨v, _, b, b.take 100, hrun, hframe, hlenb, hup, hlen, fun i hi => ?_, fun i hi => ?_⟩
    · have hiN : i < m.bones.length := lt_of_lt_of_le hi hN
      obtain ⟨world, hw⟩ := exists_getElem?_of_lt (hlenB ▸ hiN)
      obtain ⟨mbone, hm⟩ := exists_getElem?_of_lt hiN
      have hb := hfinv.done i world mbone (hlenB ▸ hiN) hw hm
      refine ⟨world, mbone, hw, hm, hb, ?_⟩
      rw [List.getElem?_take_of_lt hi, hb]
    · exact List.getElem?_eq_none (by rw [hlen]; exact hi)

theorem bigModel_ready :
    FrameReady bigModel (selection exampleInput (advance exampleInput (init bigModel)))
      ⟨4, []⟩ :=
  frameReady_of_lengths bigModel _ _ rfl (Nat.zero_le _) rfl rfl rfl
    (fun i hi => absurd hi (Nat.not_lt_zero i))

/-- Witness of C21: the first frame of a model of 101 bones. -/
theorem C21_upload_capacity_witness :
    ∃ s' b u, frame exampleTrig bigModel exampleInput (init bigModel) = .ok (s', b) ∧
      b.length = 101 ∧ upload b = .ok u ∧ u.length = 100 ∧ u[100]? = none := by
  obtain ⟨-, -, v, s', b, u, -, hframe, hb, hu, hlen, -, hdrop⟩ :=
    C21_upload_capacity exampleTrig bigModel exampleInput (init bigModel) ⟨4, []⟩
      bigModel_ready (by rw [show bigModel.bones.length = 101 from rfl]; decide)
  exact ⟨s', b, u, hframe, hb.trans rfl, hu, hlen, hdrop 100 le_rfl⟩

/-! ## Re-blending toward a constant target -/

theorem selection_advance_withVars (inp : Input) (s : State) (v : Vars) :
    selection inp (advance inp (withVars s v)) = withVars (selection inp (advance inp s)) v := by
  cases hp : inp.paused <;> cases h1 : inp.down_1 <;> cases h2 : inp.down_2 <;>
    cases h3 : inp.down_3 <;> simp [selection, select, advance, withVars, hp, h1, h2, h3]

theorem runWeights_withVars (inps : List Input) :
    ∀ (s : State) (v : Vars), runWeights inps (withVars s v) = runWeights inps s := by
  induction inps with
  | nil => exact fun _ _ => rfl
  | cons inp rest ih =>
    intro s v
    simp only [runWeights]
    rw [selection_advance_withVars, ih]
    rfl

/-- A run of frames without a selection key, on a clip whose track of bone `i` holds the
translation `T` and the scale `S`: the run succeeds and the retained translation and
scale of bone `i` are `reblend` of their values before the run, with the weights of the
frames. -/
theorem constant_run (tr : Trig) (m : GltfModel) (clip : Animation) (i : Nat)
    (bone : BoneAnimation) (T S : Vec3)
    (htracks : clip.bones.length ≤ m.bones.length)
    (hpar : ∀ j, j < clip.bones.length →
      parentOf m j = -1 ∨ (0 ≤ parentOf m j ∧ (parentOf m j).toNat < m.bones.length))
    (hbone : clip.bones[i]? = some bone)
    (hconstT : ∀ t, bone.translation t = T) (hconstS : ∀ t, bone.scale t = S)
    (inps : List Input) :
    ∀ (s : State) (r0 q0 : Vec3),
      animationsAt m.animations s.animation_title = .ok clip →
      s.last_animation_translation.length = m.bones.length →
      s.last_animation_rotation.length = m.bones.length →
      s.last_animation_scaling.length = m.bones.length →
      s.last_animation_translation[i]? = some r0 →
      s.last_animation_scaling[i]? = some q0 →
      (∀ inp ∈ inps, inp.down_1 = false ∧ inp.down_2 = false ∧ inp.down_3 = false) →
      ∃ s', runFrames tr m inps s = .ok s' ∧
        s'.last_animation_translation[i]? = some (reblend r0 T (runWeights inps s)) ∧
        s'.last_animation_scaling[i]? = some (reblend q0 S (runWeights inps s)) := by
  induction inps with
  | nil =>
    intro s r0 q0 _ _ _ _ hr0 hq0 _
    exact ⟨s, rfl, hr0, hq0⟩
  | cons inp rest ih =>
    intro s r0 q0 hclip hT hR hS hr0 hq0 hkeys
    obtain ⟨h1, h2, h3⟩ := hkeys inp (List.mem_cons_self _ _)
    have eT := (selection_retained inp (advance inp s)).2.2.1.trans
      (advance_retained inp s).2.2.2.1
    have eR := (selection_retained inp (advance inp s)).2.2.2.1.trans
      (advance_retained inp s).2.2.2.2.1
    have eS := (selection_retained inp (advance inp s)).2.2.2.2.trans
      (advance_retained inp s).2.2.2.2.2
    have etitle : (selection inp (advance inp s)).animation_title = s.animation_title := by
      rw [selection_no_key _ _ h1 h2 h3, (advance_retained inp s).2.1]
    have hready : FrameReady m (selection inp (advance inp s)) clip :=
      frameReady_of_lengths m _ clip (by rw [etitle]; exact hclip) htracks
        (by rw [eT, hT]) (by rw [eR, hR]) (by rw [eS, hS]) hpar
    obtain ⟨v, b, _, _, hframe, hinv, _⟩ := frame_ok tr m inp s clip hready
    have hi : i < clip.bones.length := lt_length_of_getElem? hbone
    have hnT := hinv.doneT i bone r0 hi hbone (by simpa [startVars, eT] using hr0)
    have hnS := hinv.doneS i bone q0 hi hbone (by simpa [startVars, eS] using hq0)
    rw [hconstT] at hnT
    rw [hconstS] at hnS
    obtain ⟨s', hrun, hrT, hrS⟩ := ih (withVars (selection inp (advance inp s)) v) _ _
      (by show animationsAt m.animations (selection inp (advance inp s)).animation_title = _
          rw [etitle]; exact hclip)
      (hinv.lenT.trans hready.wf.lenT) (hinv.lenR.trans hready.wf.lenR)
      (hinv.lenS.trans hready.wf.lenS) hnT hnS
      (fun j hj => hkeys j (List.mem_cons_of_mem _ hj))
    rw [runWeights_withVars] at hrT hrS
    exact ⟨s', by simp [runFrames, hframe, Except.bind, hrun], hrT, hrS⟩

theorem reblend_sub (r0 T : Vec3) (ws : List ℚ) :
    (reblend r0 T ws).x - T.x = (ws.map fun w => 1 - w).prod * (r0.x - T.x) ∧
    (reblend r0 T ws).y - T.y = (ws.map fun w => 1 - w).prod * (r0.y - T.y) ∧
    (reblend r0 T ws).z - T.z = (ws.map fun w => 1 - w).prod * (r0.z - T.z) := by
  induction ws generalizing r0 with
  | nil => simp [reblend]
  | cons w ws ih =>
    obtain ⟨hx, hy, hz⟩ := ih (lerp r0 T w)
    simp only [reblend, List.map_cons, List.prod_cons]
    rw [hx, hy, hz]
    simp only [lerp]
    refine ⟨by ring, by ring, by ring⟩

theorem prod_one_sub_range (ws : List ℚ) (h : ∀ w ∈ ws, 0 ≤ w ∧ w ≤ 1) :
    0 ≤ (ws.map fun w => 1 - w).prod ∧ (ws.map fun w => 1 - w).prod ≤ 1 := by
  induction ws with
  | nil => simp
  | cons w ws ih =>
    obtain ⟨h0, h1⟩ := h w (List.mem_cons_self _ _)
    obtain ⟨p0, p1⟩ := ih (fun x hx => h x (List.mem_cons_of_mem _ hx))
    simp only [List.map_cons, List.prod_cons]
    constructor
    · exact mul_nonneg (by linarith) p0
    · calc (1 - w) * (ws.map fun w => 1 - w).prod ≤ 1 * 1 :=
            mul_le_mul (by linarith) p1 p0 (by norm_num)
        _ = 1 := by norm_num

theorem reblend_target (T : Vec3) (ws : List ℚ) : reblend T T ws = T := by
  induction ws with
  | nil => rfl
  | cons w ws ih =>
    have : lerp T T w = T := by
      ext <;> simp [lerp] <;> ring
    simp only [reblend, this, ih]

theorem reblend_append (r0 T : Vec3) (ws1 ws2 : List ℚ) :
    reblend r0 T (ws1 ++ ws2) = reblend (reblend r0 T ws1) T ws2 := by
  induction ws1 generalizing r0 with
  | nil => rfl
  | cons w ws ih => exact ih (lerp r0 T w)

/-- C24: over a run of frames without a selection key, on a clip whose track of bone `i`
holds the translation `T` and the scale `S`, the retained translation and scale of bone
`i` after the run are `reblend` of their values before it with the weights of the frames.
For all weights `w_1, ..., w_n`, `reblend r0 T ws - T` is `(1 - w_1) ... (1 - w_n)` times
`r0 - T` on every component; with the weights in `[0, 1]` the product lies in `[0, 1]` and
the value is the point `lerp(T, r0, product)` of the segment between `r0` and `T`; and from
a frame with weight `1` onward the value is `T`, whatever the weights before and after. -/
theorem C24_reblend_convergence (tr : Trig) (m : GltfModel) (clip : Animation) (i : Nat)
    (bone : BoneAnimation) (T S : Vec3) (inps : List Input) (s : State) (r0 q0 : Vec3)
    (htracks : clip.bones.length ≤ m.bones.length)
    (hpar : ∀ j, j < clip.bones.length →
      parentOf m j = -1 ∨ (0 ≤ parentOf m j ∧ (parentOf m j).toNat < m.bones.length))
    (hbone : clip.bones[i]? = some bone)
    (hconstT : ∀ t, bone.translation t = T) (hconstS : ∀ t, bone.scale t = S)
    (hclip : animationsAt m.animations s.animation_title = .ok clip)
    (hT : s.last_animation_translation.length = m.bones.length)
    (hR : s.last_animation_rotation.length = m.bones.length)
    (hS : s.last_animation_scaling.length = m.bones.length)
    (hr0 : s.last_animation_translation[i]? = some r0)
    (hq0 : s.last_animation_scaling[i]? = some q0)
    (hkeys : ∀ inp ∈ inps, inp.down_1 = false ∧ inp.down_2 = false ∧ inp.down_3 = false) :
    (∃ s', runFrames tr m inps s = .ok s' ∧
      s'.last_animation_translation[i]? = some (reblend r0 T (runWeights inps s)) ∧
      s'.last_animation_scaling[i]? = some (reblend q0 S (runWeights inps s))) ∧
    (∀ (a target : Vec3) (ws : List ℚ),
      (reblend a target ws).x - target.x = (ws.map fun w => 1 - w).prod * (a.x - target.x) ∧
      (reblend a target ws).y - target.y = (ws.map fun w => 1 - w).prod * (a.y - target.y) ∧
      (reblend a target ws).z - target.z = (ws.map fun w => 1 - w).prod * (a.z - target.z) ∧
      ((∀ w ∈ ws, 0 ≤ w ∧ w ≤ 1) →
        0 ≤ (ws.map fun w => 1 - w).prod ∧ (ws.map fun w => 1 - w).prod ≤ 1 ∧
        reblend a target ws = lerp target a (ws.map fun w => 1 - w).prod)) ∧
    ∀ (a target : Vec3) (ws1 ws2 : List ℚ), reblend a target (ws1 ++ 1 :: ws2) = target := by
  refine ⟨constant_run tr m clip i bone T S htracks hpar hbone hconstT hconstS inps s r0 q0
    hclip hT hR hS hr0 hq0 hkeys, fun a target ws => ?_, fun a target ws1 ws2 => ?_⟩
  · obtain ⟨hx, hy, hz⟩ := reblend_sub a target ws
    refine ⟨hx, hy, hz, fun hw => ?_⟩
    obtain ⟨p0, p1⟩ := prod_one_sub_range ws hw
    refine ⟨p0, p1, ?_⟩
    ext
    · simp only [lerp]; linarith
    · simp only [lerp]; linarith
    · simp only [lerp]; linarith
  · rw [reblend_append]
    simp only [reblend, lerp_one]
    exact reblend_target target ws2

/-- Witness of C24: two frames of the example model on the hip-hop clip, bone 1. -/
theorem C24_reblend_convergence_witness :
    ∃ s', runFrames exampleTrig exampleModel [exampleInput, pausedInput] scenarioState
        = .ok s' ∧
      s'.last_animation_translation[1]? = some (reblend ⟨1, 0, 0⟩ ⟨1, 0, 0⟩
        (runWeights [exampleInput, pausedInput] scenarioState)) ∧
      s'.last_animation_scaling[1]? = some (reblend ⟨1, 1, 1⟩ ⟨1, 1, 1⟩
        (runWeights [exampleInput, pausedInput] scenarioState)) :=
  (C24_reblend_convergence exampleTrig exampleModel (exampleClip ⟨1, 0, 0⟩) 1
    (constantTrack ⟨1, 0, 0⟩) ⟨1, 0, 0⟩ ⟨1, 1, 1⟩ [exampleInput, pausedInput] scenarioState
    ⟨1, 0, 0⟩ ⟨1, 1, 1⟩ (le_refl 2)
    (fun j hj => by
      match j with
      | 0 => left; rfl
      | 1 => right; exact ⟨by decide, by decide⟩
      | k + 2 => exact absurd hj (by simp [exampleClip]))
    rfl (fun _ => rfl) (fun _ => rfl) rfl rfl rfl rfl rfl rfl
    (fun inp hinp => by
      simp only [List.mem_cons, List.mem_singleton, List.not_mem_nil, or_false] at hinp
      rcases hinp with rfl | rfl <;> exact ⟨rfl, rfl, rfl⟩)).1

/-! ## The keyframe sampler -/

theorem mixVec_zero (v0 v1 : Vec3) : mixVec v0 v1 0 = v0 := by
  ext <;> simp [mixVec]

theorem mixVec_one (v0 v1 : Vec3) : mixVec v0 v1 1 = v1 := by
  ext <;> simp [mixVec]

theorem sampleFrom_bracket (t : ℚ) (k0 k1 : ℚ × Vec3) (post : List (ℚ × Vec3))
    (h0 : k0.1 ≤ t) (h1 : t ≤ k1.1) (pre : List (ℚ × Vec3)) :
    ∀ k : ℚ × Vec3,
      (k :: (pre ++ k0 :: k1 :: post)).Pairwise (fun a b => a.1 < b.1) →
      sampleFrom t k (pre ++ k0 :: k1 :: post)
        = mixVec k0.2 k1.2 ((t - k0.1) / (k1.1 - k0.1)) := by
  induction pre with
  | nil =>
    intro k hs
    have hk : k.1 < k0.1 := (List.pairwise_cons.mp hs).1 k0 (by simp)
    have h01 : k0.1 < k1.1 :=
      (List.pairwise_cons.mp (List.pairwise_cons.mp hs).2).1 k1 (by simp)
    simp only [List.nil_append, sampleFrom]
    by_cases ht : t ≤ k0.1
    · have hteq : t = k0.1 := le_antisymm ht h0
      have hne : k0.1 ≠ k.1 := ne_of_gt hk
      have hd : k0.1 - k.1 ≠ 0 := sub_ne_zero.mpr hne
      subst hteq
      simp only [le_refl, if_true, hne, if_false, sub_self, zero_div, mixVec_zero]
      rw [div_self hd, mixVec_one]
    · have hne : k1.1 ≠ k0.1 := ne_of_gt h01
      simp only [ht, if_false, h1, if_true, hne]
  | cons q pre ih =>
    intro k hs
    have hs' := (List.pairwise_cons.mp hs).2
    have hq : q.1 < k0.1 := (List.pairwise_cons.mp hs').1 k0 (by simp)
    have hnt : ¬ t ≤ q.1 := not_le.mpr (lt_of_lt_of_le hq h0)
    simp only [List.cons_append, sampleFrom, hnt, if_false]
    exact ih q hs'

theorem sampleFrom_after (t : ℚ) (rest : List (ℚ × Vec3)) :
    ∀ k last : ℚ × Vec3, (k :: rest).Pairwise (fun a b => a.1 < b.1) →
      (k :: rest).getLast? = some last → last.1 < t →
      sampleFrom t k rest = last.2 := by
  induction rest with
  | nil =>
    intro k last _ hl _
    simp only [List.getLast?_singleton, Option.some.injEq] at hl
    simp [sampleFrom, hl]
  | cons k1 rest ih =>
    intro k last hs hl ht
    have hs' := (List.pairwise_cons.mp hs).2
    have hl' : (k1 :: rest).getLast? = some last := by
      rw [List.getLast?_cons_cons] at hl
      exact hl
    have hmem : last ∈ k1 :: rest := List.mem_of_getLast?_eq_some hl'
    have hle : k1.1 ≤ last.1 := by
      rcases List.mem_cons.mp hmem with h | h
      · rw [h]
      · exact le_of_lt ((List.pairwise_cons.mp hs').1 last h)
    have hnt : ¬ t ≤ k1.1 := not_le.mpr (lt_of_le_of_lt hle ht)
    simp only [sampleFrom, hnt, if_false]
    exact ih k1 last hs' hl' ht

/-- C23: on a track sorted by strictly increasing time, the sampler of the specification
returns a sample for every `t` when the track is not empty; the first value when `t` is
before the first keyframe; the last value when `t` is after the last keyframe; and
`v0 + f * (v1 - v0)` with `f = (t - t0) / (t1 - t0)` for every pair of consecutive
keyframes `(t0, v0)`, `(t1, v1)` with `t0 ≤ t ≤ t1`. Two keyframes at the same time cannot
occur in such a track; on any track that starts with two, the sample at that time is the
first value. -/
theorem C23_keyframe_sampler (track : List (ℚ × Vec3)) (t : ℚ)
    (hsorted : track.Pairwise (fun a b => a.1 < b.1)) :
    (track ≠ [] → ∃ v, sample track t = some v) ∧
    (∀ (k0 : ℚ × Vec3) (rest : List (ℚ × Vec3)), track = k0 :: rest → t < k0.1 →
      sample track t = some k0.2) ∧
    (∀ last : ℚ × Vec3, track.getLast? = some last → last.1 < t →
      sample track t = some last.2) ∧
    (∀ (pre post : List (ℚ × Vec3)) (k0 k1 : ℚ × Vec3),
      track = pre ++ k0 :: k1 :: post → k0.1 ≤ t → t ≤ k1.1 →
      sample track t = some (mixVec k0.2 k1.2 ((t - k0.1) / (k1.1 - k0.1)))) ∧
    (∀ (k0 k1 : ℚ × Vec3) (rest : List (ℚ × Vec3)), k1.1 = k0.1 →
      sample (k0 :: k1 :: rest) k0.1 = some k0.2) := by
  refine ⟨?_, ?_, ?_, ?_, fun k0 k1 rest h => by simp [sample, sampleFrom, h]⟩
  · intro hne
    cases track with
    | nil => exact absurd rfl hne
    | cons k rest => exact ⟨_, rfl⟩
  · intro k0 rest htrack ht
    subst htrack
    simp [sample, ht]
  · intro last hl ht
    cases track with
    | nil => simp at hl
    | cons k rest =>
      have hmem : last ∈ k :: rest := List.mem_of_getLast?_eq_some hl
      have hle : k.1 ≤ last.1 := by
        rcases List.mem_cons.mp hmem with h | h
        · rw [h]
        · exact le_of_lt ((List.pairwise_cons.mp hsorted).1 last h)
      have hnt : ¬ t < k.1 := not_lt.mpr (le_of_lt (lt_of_le_of_lt hle ht))
      simp only [sample, hnt, if_false]
      rw [sampleFrom_after t rest k last hsorted hl ht]
  · intro pre post k0 k1 htrack h0 h1
    subst htrack
    cases pre with
    | nil =>
      have h01 : k0.1 < k1.1 := (List.pairwise_cons.mp hsorted).1 k1 (by simp)
      have hne : k1.1 ≠ k0.1 := ne_of_gt h01
      have hnt : ¬ t < k0.1 := not_lt.mpr h0
      simp [sample, sampleFrom, hnt, h1, hne]
    | cons p pre =>
      have hp : p.1 < k0.1 := (List.pairwise_cons.mp hsorted).1 k0 (by simp)
      have hnt : ¬ t < p.1 := not_lt.mpr (le_of_lt (lt_of_lt_of_le hp h0))
      simp only [List.cons_append, sample, hnt, if_false]
      rw [sampleFrom_bracket t k0 k1 post h0 h1 pre p hsorted]

/-- Witness of C23: a track of three keyframes at times `0`, `1`, `3`, sampled at `2`. -/
theorem C23_keyframe_sampler_witness :
    sample [(0, ⟨0, 0, 0⟩), (1, ⟨1, 0, 0⟩), (3, ⟨1, 2, 0⟩)] 2
      = some (mixVec ⟨1, 0, 0⟩ ⟨1, 2, 0⟩ ((2 - 1) / (3 - 1))) :=
  (C23_keyframe_sampler [(0, ⟨0, 0, 0⟩), (1, ⟨1, 0, 0⟩), (3, ⟨1, 2, 0⟩)] 2
    (by simp [List.pairwise_cons])).2.2.2.1
    [(0, ⟨0, 0, 0⟩)] [] (1, ⟨1, 0, 0⟩) (3, ⟨1, 2, 0⟩) rfl (by norm_num) (by norm_num)

end Practice13

namespace Practice4

/-- C27: for `0 < near < far`, the matrix `proj` maps a view-space point `(x, y, -near, 1)`
to depth `-1` after the division by `w`, a point `(x, y, -far, 1)` to depth `+1`, and the
clip `w` of every point `(x, y, z, 1)` is `-z`, whatever `right` and `top` are. -/
theorem C27_projection_depth (near far right top x y : ℚ) (hn : 0 < near) (hf : near < far) :
    depth near far right top x y (-near) = -1 ∧
    depth near far right top x y (-far) = 1 ∧
    ∀ z, clip near far right top x y z 3 = -z := by
  have hd : far - near ≠ 0 := by linarith
  have hn' : near ≠ 0 := ne_of_gt hn
  have hf' : far ≠ 0 := by linarith
  have hw : ∀ z, clip near far right top x y z 3 = -z := by
    intro z
    simp [clip, proj, Matrix.mulVec, Matrix.dotProduct, Fin.sum_univ_four]
  have hz : ∀ z, clip near far right top x y z 2 =
      -(far + near) / (far - near) * z + -2 * far * near / (far - near) := by
    intro z
    simp [clip, proj, Matrix.mulVec, Matrix.dotProduct, Fin.sum_univ_four]
  refine ⟨?_, ?_, hw⟩
  · unfold depth
    rw [hw, hz]
    field_simp
    ring
  · unfold depth
    rw [hw, hz]
    field_simp
    ring

/-- Witness of C27: `near = 1/10`, `far = 1000`, as in the source, with `right = top = 1`. -/
theorem C27_projection_depth_witness :
    depth (1 / 10) 1000 1 1 2 3 (-(1 / 10)) = -1 ∧
    depth (1 / 10) 1000 1 1 2 3 (-1000) = 1 ∧
    ∀ z, clip (1 / 10) 1000 1 1 2 3 z 3 = -z :=
  C27_projection_depth (1 / 10) 1000 1 1 2 3 (by norm_num) (by norm_num)

end Practice4

namespace Practice8

variable {K : Type} [LinearOrderedField K]

end Practice8
